import Mathlib

/-!
JsonCsvDatabase: a shallow embedding of `JsonCsvDatabase.h`

The C++ class `JsonCsvDatabase` keeps integer rows in a delimited text file whose
first line names the columns.  This file embeds the class in Lean and proves
properties of `add_data_row` and `load_data_rows`.

Modelling conventions.

* A `std::string` is a `List Char`; every `Char` stands for one `char` of the
  string.  `std::string::operator<` is `strLt` (lexicographic, by character code).
* A `std::map<std::string, T>` is the list of its entries in iteration order
  (ascending keys); `mapAssign` is `m[k] = v`, `mapCount` is `m.count(k)`,
  `mapAt` is the value `m[k]` of a present key.
* The file system holds the files by path (`none`: the file does not exist) and the
  set of paths at which a new file can be created.  An input stream opens exactly on
  an existing file; an output stream opens on an existing file and on a path at which
  a file can be created, and fails to open elsewhere (`ofstream_is_open`), in which
  case nothing is written through it.  `std::remove` and `std::rename` succeed
  whenever their source exists.
* `std::sort` is not stable.  Where two blueprint entries have the same ordinal (the
  first line of the file repeats a token) the embedding keeps them in map order;
  elsewhere the order is determined.
* `int` values are `Int`; the two places where the source adds one to a caller
  supplied `int` wrap around at 32 bits (`wrapInt32`), `atoi` truncates the
  `long` that `strtol` delivers, `std::stoi` raises `out_of_range` outside the
  `int` range.  Column ordinals and the line counter are small non-negative
  numbers and are not wrapped.
* `print_debug_message` only writes to the console and is left out.
* `m_database_blueprint[k] = m_database_blueprint.size()` takes the size before the
  insertion (the right operand of an assignment is sequenced first, C++17).
-/

namespace JsonCsv

/-! ## Strings and numbers -/

/-- A `std::string`. -/
abbrev CppString := List Char

/-- The status value `EXIT_SUCCESS`. -/
def EXIT_SUCCESS : Int := 0

/-- The status value `EXIT_FAILURE`. -/
def EXIT_FAILURE : Int := 1

/-- The smallest `int`. -/
def INT_MIN : Int := -2147483648

/-- The largest `int`. -/
def INT_MAX : Int := 2147483647

/-- The smallest `long` (LP64). -/
def LONG_MIN : Int := -9223372036854775808

/-- The largest `long` (LP64). -/
def LONG_MAX : Int := 9223372036854775807

/-- Two's complement truncation of an integer to 32 bits. -/
def wrapInt32 (x : Int) : Int := (x + 2147483648) % 4294967296 - 2147483648

/-- The value is representable as an `int`. -/
def isInt32 (x : Int) : Prop := INT_MIN ≤ x ∧ x ≤ INT_MAX

instance (x : Int) : Decidable (isInt32 x) := by unfold isInt32; infer_instance

/-- The C function `isspace` in the "C" locale. -/
def isspace (c : Char) : Bool :=
  c = ' ' || c = '\t' || c = '\n' || c = '\x0b' || c = '\x0c' || c = '\r'

/-- The C function `isdigit`. -/
def isdigit (c : Char) : Bool := 48 ≤ c.toNat && c.toNat ≤ 57

/-- The run of decimal digits at the front of a string, read left to right onto `acc`. -/
def digitsValue : Nat → CppString → Nat
  | acc, [] => acc
  | acc, c :: cs => if isdigit c then digitsValue (acc * 10 + (c.toNat - 48)) cs else acc

/-- Whether a string starts with a decimal digit. -/
def startsWithDigit : CppString → Bool
  | [] => false
  | c :: _ => isdigit c

/-- The conversion `strtol(s, &end, 10)` before clamping: leading white space, an
optional sign, then digits.  `none` when no digit is found (no conversion). -/
def strtol (s : CppString) : Option Int :=
  match s.dropWhile isspace with
  | '-' :: rest => if startsWithDigit rest then some (-(digitsValue 0 rest : Int)) else none
  | '+' :: rest => if startsWithDigit rest then some (digitsValue 0 rest : Int) else none
  | rest => if startsWithDigit rest then some (digitsValue 0 rest : Int) else none

/-- The value `strtol` returns: out-of-range conversions are clamped to the `long` bounds. -/
def clampLong (v : Int) : Int :=
  if v < LONG_MIN then LONG_MIN else if LONG_MAX < v then LONG_MAX else v

/-- The C function `atoi`: `(int) strtol(s, NULL, 10)`, zero when nothing converts. -/
def atoi (s : CppString) : Int :=
  match strtol s with
  | none => 0
  | some v => wrapInt32 (clampLong v)

/-- The exceptions `std::stoi` raises. -/
inductive StoiException where
  | invalid_argument
  | out_of_range
  deriving DecidableEq, Repr

/-- The function `std::stoi(s)`: trailing characters after the digits are ignored. -/
def stoi (s : CppString) : Except StoiException Int :=
  match strtol s with
  | none => Except.error StoiException.invalid_argument
  | some v => if INT_MIN ≤ v ∧ v ≤ INT_MAX then Except.ok v else Except.error StoiException.out_of_range

/-- The text `operator<<` writes for an `int`. -/
def intToDecimal (v : Int) : CppString :=
  if v < 0 then '-' :: Nat.toDigits 10 v.natAbs else Nat.toDigits 10 v.natAbs

/-- A single `std::getline(stream, out, delim)` on the unread rest of a stream: the
characters up to the next delimiter (which is consumed) or to the end.  `none`
when nothing is left to read, in which case the call fails. -/
def getline (delim : Char) : CppString → Option (CppString × CppString)
  | [] => none
  | c :: cs =>
    if c = delim then some ([], cs)
    else match getline delim cs with
      | none => some ([c], [])
      | some (tok, rest) => some (c :: tok, rest)

/-- All the strings a loop `while (std::getline(stream, out, delim))` sees. -/
def getlineAll (delim : Char) : CppString → List CppString
  | [] => []
  | c :: cs =>
    if c = delim then [] :: getlineAll delim cs
    else match getlineAll delim cs with
      | [] => [[c]]
      | tok :: toks => (c :: tok) :: toks

/-! ## `std::map<std::string, T>` -/

/-- The order `std::string::operator<`. -/
def strLt : CppString → CppString → Bool
  | [], [] => false
  | [], _ :: _ => true
  | _ :: _, [] => false
  | a :: as, b :: bs => a.toNat < b.toNat || (a.toNat = b.toNat && strLt as bs)

/-- A `std::map<std::string, T>` as the list of its entries in iteration order. -/
abbrev StdMap (β : Type) := List (CppString × β)

/-- The list really is a map: its keys are strictly ascending. -/
def StdMap.WellFormed {β : Type} (m : StdMap β) : Prop :=
  List.Pairwise (fun a b => strLt a b = true) (m.map Prod.fst)

/-- The call `m.count(k)`. -/
def mapCount {β : Type} (m : StdMap β) (k : CppString) : Nat :=
  if m.any (fun e => decide (e.1 = k)) then 1 else 0

/-- The value stored under `k`, if any. -/
def mapAt {β : Type} : StdMap β → CppString → Option β
  | [], _ => none
  | (k1, v1) :: rest, k => if k1 = k then some v1 else mapAt rest k

/-- The assignment `m[k] = v`: replaces the value of a present key, inserts a new
key at its place in the order. -/
def mapAssign {β : Type} : StdMap β → CppString → β → StdMap β
  | [], k, v => [(k, v)]
  | (k1, v1) :: rest, k, v =>
    if k = k1 then (k, v) :: rest
    else if strLt k k1 then (k, v) :: (k1, v1) :: rest
    else (k1, v1) :: mapAssign rest k v

/-! ## The file system, JSON values and the object -/

/-- The disk: the files by path (`none` when the path names no file), and the paths at
which a new file can be created.  Opening an output stream on a path that names no file
fails where no file can be created (no such directory, no permission, a name that is
too long). -/
structure FileSystem where
  files : CppString → Option CppString
  creatable : CppString → Bool

instance : CoeFun FileSystem (fun _ => CppString → Option CppString) := ⟨FileSystem.files⟩

/-- The call `std::remove(path)`. -/
def fsRemove (fs : FileSystem) (path : CppString) : FileSystem :=
  { fs with files := fun q => if q = path then none else fs q }

/-- The file at `path` after a stream writing `content` to it is closed. -/
def fsWrite (fs : FileSystem) (path content : CppString) : FileSystem :=
  { fs with files := fun q => if q = path then some content else fs q }

/-- The call `std::rename(src, dst)`; nothing happens when `src` does not exist. -/
def fsRename (fs : FileSystem) (src dst : CppString) : FileSystem :=
  match fs src with
  | none => fs
  | some content => fsWrite (fsRemove fs src) dst content

/-- Whether `std::ofstream(path)` is open after its construction: the file exists, or it
can be created. -/
def ofstream_is_open (fs : FileSystem) (path : CppString) : Bool :=
  (fs path).isSome || fs.creatable path

deriving instance DecidableEq for Except

/-- The `Json::Value` shapes that occur: a default (null) value, and an object whose
members are arrays of integers, kept like a `std::map` by member name. -/
inductive JsonValue where
  | nullValue
  | objectValue (members : StdMap (List Int))
  deriving DecidableEq, Repr

/-- The data members of a `JsonCsvDatabase` object. -/
structure JsonCsvDatabase where
  m_database_blueprint : StdMap Nat
  m_ordered_database_column_names : List CppString
  m_database_csv_filepath : CppString
  m_delimiter : Char
  m_empty_value_placeholder : Int
  m_debug_mode : Bool

/-- The constructor; the two containers start empty. -/
def JsonCsvDatabase.new (database_filepath : CppString) (empty_value_placeholder : Int)
    (delimiter : Char) (debug_mode : Bool) : JsonCsvDatabase :=
  { m_database_blueprint := []
    m_ordered_database_column_names := []
    m_database_csv_filepath := database_filepath
    m_delimiter := delimiter
    m_empty_value_placeholder := empty_value_placeholder
    m_debug_mode := debug_mode }

/-! ## Reading the existing blueprint -/

/-- The token loop of `get_existing_blueprint_from_csv`: a token with a non-zero `atoi`
ends the function with `EXIT_FAILURE`, any other token is stored with its index. -/
def blueprint_from_tokens : List CppString → Nat → StdMap Nat → Int × StdMap Nat
  | [], _, blueprint => (EXIT_SUCCESS, blueprint)
  | column_name :: rest, column_index, blueprint =>
    if atoi column_name ≠ 0 then (EXIT_FAILURE, blueprint)
    else blueprint_from_tokens rest (column_index + 1) (mapAssign blueprint column_name column_index)

/-- The first line of a file as `std::getline(file, first_line)` leaves it: empty when
the file is empty. -/
def first_line_of (content : CppString) : CppString :=
  match getline '\n' content with
  | none => []
  | some (line, _) => line

/-- The method `get_existing_blueprint_from_csv`. -/
def get_existing_blueprint_from_csv (db : JsonCsvDatabase) (fs : FileSystem) :
    Int × JsonCsvDatabase :=
  match fs db.m_database_csv_filepath with
  | none => (EXIT_SUCCESS, db)
  | some content =>
    let r := blueprint_from_tokens (getlineAll db.m_delimiter (first_line_of content)) 0
      db.m_database_blueprint
    (r.1, { db with m_database_blueprint := r.2 })

/-! ## Writing the header -/

/-- The header loop of `create_csv_headings_from_blueprint`: the names with the
delimiter between them. -/
def header_text (delimiter : Char) : List CppString → CppString
  | [] => []
  | [name] => name
  | name :: rest => name ++ delimiter :: header_text delimiter rest

/-- The copy loop of `create_csv_headings_from_blueprint` over the lines of the old
file: the first line is ignored, empty lines are not copied. -/
def copy_data_section : Bool → List CppString → CppString
  | _, [] => []
  | ignore_next_line, line :: rest =>
    if ignore_next_line then copy_data_section false rest
    else if line ≠ [] then line ++ '\n' :: copy_data_section false rest
    else copy_data_section false rest

/-- The lines of a file that may not exist (reading a stream that failed to open
yields nothing). -/
def lines_of (file : Option CppString) : List CppString :=
  match file with
  | none => []
  | some content => getlineAll '\n' content

/-- The path of the temporary file. -/
def tmp_path (db : JsonCsvDatabase) : CppString :=
  db.m_database_csv_filepath ++ ['.', 't', 'm', 'p']

/-- The method `create_csv_headings_from_blueprint`.  When the temporary file cannot be
opened the method returns after the `std::remove` of the temporary path, and the
database file is left as it was. -/
def create_csv_headings_from_blueprint (db : JsonCsvDatabase) (fs : FileSystem) : FileSystem :=
  let fs1 := fsRemove fs (tmp_path db)
  let old_file := fs1 db.m_database_csv_filepath
  if ofstream_is_open fs1 (tmp_path db) = false then fs1
  else
    let new_file := header_text db.m_delimiter db.m_ordered_database_column_names
      ++ '\n' :: copy_data_section true (lines_of old_file)
    let fs2 := fsWrite fs1 (tmp_path db) new_file
    let fs3 := fsRemove fs2 db.m_database_csv_filepath
    fsRename fs3 (tmp_path db) db.m_database_csv_filepath

/-- The method `sort_database_blueprint`: the entries ordered by ordinal.  `std::sort`
promises no order among entries of equal ordinal; the embedding keeps them in map
order, which is one of the orders `std::sort` may produce.  Ordinals are equal only when
the first line of the file repeats a token; where they are pairwise distinct the
ascending order is the only one (`sort_database_blueprint_any_sort`). -/
def sort_database_blueprint (db : JsonCsvDatabase) : JsonCsvDatabase :=
  let pairs := List.insertionSort (fun a b : CppString × Nat => a.2 ≤ b.2) db.m_database_blueprint
  { db with m_ordered_database_column_names := pairs.map Prod.fst }

/-- The loop of `add_missing_columns_to_database_blueprint` over the entries of the
row: the blueprint and the flag `blueprint_inconsistent_with_csv`. -/
def add_missing_loop : StdMap Int → StdMap Nat → Bool → StdMap Nat × Bool
  | [], blueprint, inconsistent => (blueprint, inconsistent)
  | (name, _) :: rest, blueprint, inconsistent =>
    if mapCount blueprint name = 0 then
      add_missing_loop rest (mapAssign blueprint name blueprint.length) true
    else add_missing_loop rest blueprint inconsistent

/-- The method `add_missing_columns_to_database_blueprint`. -/
def add_missing_columns_to_database_blueprint (db : JsonCsvDatabase)
    (program_database_blueprint : StdMap Int) (fs : FileSystem) : JsonCsvDatabase × FileSystem :=
  let r := add_missing_loop program_database_blueprint db.m_database_blueprint false
  let db1 := sort_database_blueprint { db with m_database_blueprint := r.1 }
  if r.2 then (db1, create_csv_headings_from_blueprint db1 fs) else (db1, fs)

/-! ## Writing a row -/

/-- The loop of `add_data_row` over the ordered column names: each field is followed
by the delimiter, the field of a column the row lacks is empty. -/
def row_text (delimiter : Char) (new_data_row : StdMap Int) : List CppString → CppString
  | [] => []
  | column_name :: rest =>
    if mapCount new_data_row column_name = 0 then
      delimiter :: row_text delimiter new_data_row rest
    else
      intToDecimal ((mapAt new_data_row column_name).getD 0)
        ++ delimiter :: row_text delimiter new_data_row rest

/-- The content of a file opened for appending after `text` is written: a missing file
is created. -/
def append_to (file : Option CppString) (text : CppString) : CppString :=
  match file with
  | none => text
  | some content => content ++ text

/-- The method `add_data_row`: the status, the object and the files after the call.
The stream opened for appending is not checked: when it is not open nothing is
written, and the method returns `EXIT_SUCCESS` all the same. -/
def add_data_row (db : JsonCsvDatabase) (new_data_row : StdMap Int) (fs : FileSystem) :
    Int × JsonCsvDatabase × FileSystem :=
  let r := get_existing_blueprint_from_csv { db with m_database_blueprint := [] } fs
  if r.1 = EXIT_FAILURE then (EXIT_FAILURE, r.2, fs)
  else
    let s := add_missing_columns_to_database_blueprint r.2 new_data_row fs
    let text := row_text s.1.m_delimiter new_data_row s.1.m_ordered_database_column_names ++ ['\n']
    (EXIT_SUCCESS, s.1,
      if ofstream_is_open s.2 s.1.m_database_csv_filepath then
        fsWrite s.2 s.1.m_database_csv_filepath (append_to (s.2 s.1.m_database_csv_filepath) text)
      else s.2)

/-! ## Reading rows -/

/-- The cell loop of `load_data_rows` on one line: `count` fields are taken from the
line; an empty or missing field gives the placeholder, any other goes through
`std::stoi`, whose exception leaves the function. -/
def extract_row_values (delimiter : Char) (placeholder : Int) :
    Nat → CppString → Except StoiException (List Int)
  | 0, _ => Except.ok []
  | count + 1, ss =>
    let column := match getline delimiter ss with
      | none => []
      | some (tok, _) => tok
    let ss1 := match getline delimiter ss with
      | none => ss
      | some (_, rest) => rest
    match (if column = [] then Except.ok placeholder else stoi column) with
    | Except.error e => Except.error e
    | Except.ok value =>
      match extract_row_values delimiter placeholder count ss1 with
      | Except.error e => Except.error e
      | Except.ok values => Except.ok (value :: values)

/-- The effect of `column_values[i].push_back(cell_i)` for every column `i`. -/
def push_row (column_values : List (List Int)) (cells : List Int) : List (List Int) :=
  List.zipWith (fun column cell => column ++ [cell]) column_values cells

/-- The line loop of `load_data_rows`; `first_row` and `last_row` are the bounds after
the function has added one to each. -/
def scan_lines (delimiter : Char) (placeholder : Int) (first_row last_row : Int) :
    List CppString → Int → List CppString → List (List Int) →
    Except StoiException (List CppString × List (List Int))
  | [], _, column_names, column_values => Except.ok (column_names, column_values)
  | line :: rest, row_index, column_names, column_values =>
    if row_index + 1 = 1 then
      scan_lines delimiter placeholder first_row last_row rest (row_index + 1)
        (column_names ++ getlineAll delimiter line)
        (column_values ++ (getlineAll delimiter line).map (fun _ => []))
    else if row_index + 1 < first_row then
      scan_lines delimiter placeholder first_row last_row rest (row_index + 1)
        column_names column_values
    else if row_index + 1 > last_row ∧ last_row ≠ 1 then
      Except.ok (column_names, column_values)
    else
      match extract_row_values delimiter placeholder column_names.length line with
      | Except.error e => Except.error e
      | Except.ok cells =>
        scan_lines delimiter placeholder first_row last_row rest (row_index + 1)
          column_names (push_row column_values cells)

/-- The method `iterable2json`: the JSON array of the elements, in their order. -/
def iterable2json (object : List Int) : List Int := object

/-- The final loop of `load_data_rows`:
`data[column_names[i]] = iterable2json(column_values[i])`. -/
def build_json : List CppString → List (List Int) → StdMap (List Int) → StdMap (List Int)
  | name :: names, column :: columns, members =>
    build_json names columns (mapAssign members name (iterable2json column))
  | _, _, members => members

/-- How a call of `load_data_rows` ends: it returns a status and leaves `data`, or an
exception of `std::stoi` leaves the function. -/
inductive LoadOutcome where
  | returned (status : Int) (data : JsonValue)
  | raised (e : StoiException)
  deriving DecidableEq, Repr

/-- The method `load_data_rows`. -/
def load_data_rows (db : JsonCsvDatabase) (fs : FileSystem) (data : JsonValue)
    (first_row last_row : Int) (alternative_database_path : CppString) : LoadOutcome :=
  let path_to_database :=
    if alternative_database_path ≠ [] then alternative_database_path
    else db.m_database_csv_filepath
  match fs path_to_database with
  | none => LoadOutcome.returned EXIT_FAILURE data
  | some content =>
    match scan_lines db.m_delimiter db.m_empty_value_placeholder
        (wrapInt32 (first_row + 1)) (wrapInt32 (last_row + 1))
        (getlineAll '\n' content) 0 [] [] with
    | Except.error e => LoadOutcome.raised e
    | Except.ok r => LoadOutcome.returned EXIT_SUCCESS (JsonValue.objectValue (build_json r.1 r.2 []))

/-! ## Notions used in the statements -/

/-- The keys of a map, in iteration order. -/
def keysOf {β : Type} (m : StdMap β) : List CppString := m.map Prod.fst

/-- The text `run` is a non-empty run of decimal digits that reads as the number `n`
behind any number already read. -/
def ReadsAs (run : List Char) (n : Nat) : Prop :=
  run ≠ [] ∧ (∀ c ∈ run, isdigit c = true) ∧
    ∀ a : Nat, digitsValue a run = a * 10 ^ run.length + n

/-- The names paired with consecutive ordinals from `k` on. -/
def numbered : Nat → List CppString → List (CppString × Nat)
  | _, [] => []
  | k, c :: cs => (c, k) :: numbered (k + 1) cs

/-- The column names of a row that are not among `cols`, in the order the row
enumerates them. -/
def newColumns (row : StdMap Int) (cols : List CppString) : List CppString :=
  (keysOf row).filter (fun k => decide (k ∉ cols))

/-- The tokens of the first line of the database file; none when the file is missing. -/
def header_tokens (db : JsonCsvDatabase) (fs : FileSystem) : List CppString :=
  match fs db.m_database_csv_filepath with
  | none => []
  | some content => getlineAll db.m_delimiter (first_line_of content)

/-- The columns after a write: the header tokens, then the new names of the row. -/
def columns_after (db : JsonCsvDatabase) (row : StdMap Int) (fs : FileSystem) : List CppString :=
  header_tokens db fs ++ newColumns row (header_tokens db fs)

/-- The text of a file made of the given lines, each ended by a newline. -/
def file_of_lines : List CppString → CppString
  | [] => []
  | line :: rest => line ++ '\n' :: file_of_lines rest

/-- The index `k` lies in the window: `lo ≤ k` and, if there is an upper bound `hi`,
`k ≤ hi`. -/
def in_window (lo : Int) (hi : Option Int) (k : Int) : Bool :=
  match hi with
  | none => decide (lo ≤ k)
  | some h => decide (lo ≤ k ∧ k ≤ h)

/-- The rows whose index lies in a window, in their order; `start` is the index of
the first row of the list. -/
def rows_between (lo : Int) (hi : Option Int) : Int → List CppString → List CppString
  | _, [] => []
  | start, row :: rest =>
    if in_window lo hi start then row :: rows_between lo hi (start + 1) rest
    else rows_between lo hi (start + 1) rest

/-- The columns after every one of the given data lines has been read: each line
adds one entry to each column, an exception of `std::stoi` ends the reading. -/
def collect_rows (delimiter : Char) (placeholder : Int) (column_names : List CppString) :
    List (List Int) → List CppString → Except StoiException (List CppString × List (List Int))
  | column_values, [] => Except.ok (column_names, column_values)
  | column_values, line :: rest =>
    match extract_row_values delimiter placeholder column_names.length line with
    | Except.error e => Except.error e
    | Except.ok cells => collect_rows delimiter placeholder column_names
        (push_row column_values cells) rest

/-- The outcome of reading exactly the given data lines, all of them and in this
order, under the given header line. -/
def table_of_lines (delimiter : Char) (placeholder : Int) (header : CppString)
    (rows : List CppString) : LoadOutcome :=
  match collect_rows delimiter placeholder (getlineAll delimiter header)
      ((getlineAll delimiter header).map (fun _ => [])) rows with
  | Except.error e => LoadOutcome.raised e
  | Except.ok r => LoadOutcome.returned EXIT_SUCCESS (JsonValue.objectValue (build_json r.1 r.2 []))

/-- Successive calls of `add_data_row` on one object, one per row: the statuses, the
object and the files after the last call. -/
def add_data_rows : JsonCsvDatabase → FileSystem → List (StdMap Int) →
    List Int × JsonCsvDatabase × FileSystem
  | db, fs, [] => ([], db, fs)
  | db, fs, row :: rest =>
    ((add_data_row db row fs).1 ::
        (add_data_rows (add_data_row db row fs).2.1 (add_data_row db row fs).2.2 rest).1,
      (add_data_rows (add_data_row db row fs).2.1 (add_data_row db row fs).2.2 rest).2)

/-- A column name that survives the file format: not empty, free of the delimiter
and of newlines, and not numeric-looking (`atoi` gives 0). -/
def ValidName (delimiter : Char) (name : CppString) : Prop :=
  name ≠ [] ∧ delimiter ∉ name ∧ '\n' ∉ name ∧ atoi name = 0

instance (delimiter : Char) (name : CppString) : Decidable (ValidName delimiter name) := by
  unfold ValidName; infer_instance

/-- A row a caller can pass and the format can hold: a genuine `std::map` with `int`
values and valid column names. -/
def ValidRow (delimiter : Char) (row : StdMap Int) : Prop :=
  StdMap.WellFormed row ∧ ∀ e ∈ row, isInt32 e.2 ∧ ValidName delimiter e.1

/-- The values of a row in the order the row enumerates them, each written in decimal
and followed by the delimiter. -/
def values_text (delimiter : Char) : StdMap Int → CppString
  | [] => []
  | (_, v) :: rest => intToDecimal v ++ delimiter :: values_text delimiter rest

instance {β : Type} (m : StdMap β) : Decidable (StdMap.WellFormed m) := by
  unfold StdMap.WellFormed; infer_instance

/-- The cell of a row under a column: its value, or the placeholder when the row has
no such column. -/
def cell_of (placeholder : Int) (row : StdMap Int) (column : CppString) : Int :=
  (mapAt row column).getD placeholder

/-- The data line `line` reads back as `row` under the columns `cols`, and keeps doing
so when further columns the row does not have are added behind them: the line is a
non-empty line without newline, the row has no column outside `cols`, and the cells
`load_data_rows` extracts from the line are the cells of the row. -/
def ReadsBack (delimiter : Char) (placeholder : Int) (cols : List CppString)
    (line : CppString) (row : StdMap Int) : Prop :=
  '\n' ∉ line ∧ line ≠ [] ∧ (∀ k ∈ keysOf row, k ∈ cols) ∧
    ∀ extra : List CppString, (∀ c ∈ extra, c ∉ keysOf row) →
      extract_row_values delimiter placeholder (cols ++ extra).length line
        = Except.ok ((cols ++ extra).map (cell_of placeholder row))

/-- The state of the database file after the rows `rows` have been written to a file
that did not exist: the header holds the columns `cols`, pairwise distinct valid names
that are exactly the column names of the rows, and the data lines read back as the
rows. -/
def RoundTripState (delimiter : Char) (placeholder : Int) (path : CppString) (fs : FileSystem)
    (cols : List CppString) (lines : List CppString) (rows : List (StdMap Int)) : Prop :=
  fs path = some (file_of_lines (header_text delimiter cols :: lines)) ∧
    cols ≠ [] ∧ cols.Nodup ∧ (∀ c ∈ cols, ValidName delimiter c) ∧
    (∀ c, c ∈ cols ↔ ∃ r ∈ rows, c ∈ keysOf r) ∧
    List.Forall₂ (ReadsBack delimiter placeholder cols) lines rows

instance (delimiter : Char) (row : StdMap Int) : Decidable (ValidRow delimiter row) := by
  unfold ValidRow; infer_instance

/-- The path used in the examples. -/
def demo_path : CppString := ['d', 'b', '.', 'c', 's', 'v']

/-- A store with the default configuration: placeholder 0, delimiter `;`. -/
def demo_db : JsonCsvDatabase := JsonCsvDatabase.new demo_path 0 ';' false

/-- A disk on which only the database file exists, with the given content; a file can
be created at every path. -/
def disk_with (content : CppString) : FileSystem :=
  { files := fun q => if q = demo_path then some content else none
    creatable := fun _ => true }

/-- A disk without any file, on which a file can be created at every path. -/
def empty_disk : FileSystem :=
  { files := fun _ => none
    creatable := fun _ => true }

/-- A disk without any file on which no file can be created, as for a database path in
a directory that does not exist. -/
def sealed_disk : FileSystem :=
  { files := fun _ => none
    creatable := fun _ => false }

/-- A disk on which only the database file exists, with the given content, and on which
no new file can be created: the temporary file cannot be opened. -/
def blocked_disk (content : CppString) : FileSystem :=
  { files := fun q => if q = demo_path then some content else none
    creatable := fun _ => false }

/-- A file with the header `a` and the three data rows 1, 2 and 3. -/
def three_rows : CppString := "a\n1;\n2;\n3;\n".toList

/-- A file with the header `a`, an empty line, and the data row 1. -/
def gappy_file : CppString := "a\n\n1;\n".toList

/-- The row `{b: 2}`. -/
def row_b : StdMap Int := [(['b'], 2)]

/-- The row `{a: 1, b: 2}`. -/
def row_ab : StdMap Int := [(['a'], 1), (['b'], 2)]

/-- The row `{c: 3}`. -/
def row_c : StdMap Int := [(['c'], 3)]

/-- A store whose delimiter is the newline character. -/
def newline_db : JsonCsvDatabase := JsonCsvDatabase.new demo_path 0 '\n' false

/-- A store whose delimiter is the digit `1`. -/
def digit_db : JsonCsvDatabase := JsonCsvDatabase.new demo_path 0 '1' false

/-- The row `{a: 1}`. -/
def row_a : StdMap Int := [(['a'], 1)]

/-- A file with the header `a` and the data row 1. -/
def one_row : CppString := "a\n1;\n".toList

/-! ## Further notions used in the statements -/

/-- The path `load_data_rows` opens: the alternative path when it is not empty, the
configured path of the store otherwise. -/
def path_to_read (db : JsonCsvDatabase) (alternative_database_path : CppString) : CppString :=
  if alternative_database_path ≠ [] then alternative_database_path
  else db.m_database_csv_filepath

/-- The data rows inside the range `load_data_rows` scans for the bounds `first_row`
and `last_row` the caller passes. -/
def scanned_rows (first_row last_row : Int) (rows : List CppString) : List CppString :=
  rows_between (wrapInt32 (first_row + 1) - 2)
    (if wrapInt32 (last_row + 1) = 1 then none else some (wrapInt32 (last_row + 1) - 2)) 0 rows

/-- A store whose placeholder is 7. -/
def seven_db : JsonCsvDatabase := JsonCsvDatabase.new demo_path 7 ';' false

/-- A store with the default configuration whose containers hold what an earlier call
left: a blueprint and an ordered column list that have nothing to do with the file. -/
def stale_db : JsonCsvDatabase :=
  { demo_db with
    m_database_blueprint := [(['x'], 5), (['y'], 0)]
    m_ordered_database_column_names := [['y'], ['z']] }

/-- A store with the given path and delimiter and nothing else: empty containers,
placeholder 0, debug mode off. -/
def bare_store (path : CppString) (delimiter : Char) : JsonCsvDatabase :=
  JsonCsvDatabase.new path 0 delimiter false

/-- A file whose header names the column `a` twice. -/
def twice_a : CppString := "a;a\n".toList

/-- The value a cell gets from its field in `load_data_rows`: the placeholder for an
empty field, the result of `std::stoi` for any other. -/
def read_cell (placeholder : Int) (column : CppString) : Except StoiException Int :=
  if column = [] then Except.ok placeholder else stoi column

/-- The cell loop of `load_data_rows` on the list of the fields of a line: the `i`-th
cell is read from the `i`-th field, from the empty string where the line has no such
field; the first exception ends the loop. -/
def cells_from_fields (placeholder : Int) : Nat → List CppString → Except StoiException (List Int)
  | 0, _ => Except.ok []
  | count + 1, fields =>
    match read_cell placeholder (fields.headD []) with
    | Except.error e => Except.error e
    | Except.ok value =>
      match cells_from_fields placeholder count fields.tail with
      | Except.error e => Except.error e
      | Except.ok values => Except.ok (value :: values)

/-- The header line of a file content: its first line, empty for an empty file. -/
def header_line (content : CppString) : CppString := (getlineAll '\n' content).headD []

/-- The data lines of a file content: every line after the first. -/
def data_lines (content : CppString) : List CppString := (getlineAll '\n' content).tail

/-- The file with header `a;b;c` and the data lines `1;;3;`, `4` and `;;;;`. -/
def ragged_file : CppString := "a;b;c\n1;;3;\n4\n;;;;\n".toList

/-! ## Lemmas on `getline` and `getlineAll` -/

theorem getline_token (d : Char) (tok rest : CppString) (h : d ∉ tok) :
    getline d (tok ++ d :: rest) = some (tok, rest) := by
  induction tok with
  | nil => simp [getline]
  | cons c cs ih =>
    have hc : c ≠ d := fun e => h (by simp [e])
    have hcs : d ∉ cs := fun e => h (by simp [e])
    simp [getline, hc, ih hcs]

theorem getline_last (d : Char) (tok : CppString) (h : d ∉ tok) (hne : tok ≠ []) :
    getline d tok = some (tok, []) := by
  induction tok with
  | nil => exact absurd rfl hne
  | cons c cs ih =>
    have hc : c ≠ d := fun e => h (by simp [e])
    have hcs : d ∉ cs := fun e => h (by simp [e])
    cases cs with
    | nil => simp [getline, hc]
    | cons c2 cs2 =>
      have := ih hcs (by simp)
      simp [getline, hc] at this ⊢
      rw [this]

theorem getlineAll_unfold (d : Char) (s : CppString) :
    getlineAll d s = match getline d s with
      | none => []
      | some (tok, rest) => tok :: getlineAll d rest := by
  induction s with
  | nil => simp [getline, getlineAll]
  | cons c cs ih =>
    by_cases hc : c = d
    · simp [getline, getlineAll, hc]
    · simp only [getline, getlineAll, hc, if_false]
      rw [ih]
      cases hg : getline d cs with
      | none => simp [getlineAll]
      | some p => simp

theorem getlineAll_token (d : Char) (tok rest : CppString) (h : d ∉ tok) :
    getlineAll d (tok ++ d :: rest) = tok :: getlineAll d rest := by
  rw [getlineAll_unfold, getline_token d tok rest h]

theorem getlineAll_last (d : Char) (tok : CppString) (h : d ∉ tok) (hne : tok ≠ []) :
    getlineAll d tok = [tok] := by
  rw [getlineAll_unfold, getline_last d tok h hne]
  simp [getlineAll]

theorem getlineAll_header_text (d : Char) (cols : List CppString)
    (hd : ∀ c ∈ cols, d ∉ c) (hne : ∀ c ∈ cols, c ≠ []) :
    getlineAll d (header_text d cols) = cols := by
  induction cols with
  | nil => simp [header_text, getlineAll]
  | cons c cs ih =>
    cases cs with
    | nil =>
      simp only [header_text]
      exact getlineAll_last d c (hd c (by simp)) (hne c (by simp))
    | cons c2 cs2 =>
      simp only [header_text] at ih ⊢
      rw [getlineAll_token d c _ (hd c (by simp))]
      rw [ih (fun x hx => hd x (by simp [hx])) (fun x hx => hne x (by simp [hx]))]

theorem first_line_of_line (line rest : CppString) (h : '\n' ∉ line) :
    first_line_of (line ++ '\n' :: rest) = line := by
  simp [first_line_of, getline_token '\n' line rest h]

/-! ## Decimal text of integers -/

theorem digitChar_isdigit (k : Nat) (h : k < 10) :
    isdigit (Nat.digitChar k) = true ∧ (Nat.digitChar k).toNat - 48 = k := by
  interval_cases k <;> decide

theorem digitsValue_append (front : List Char) (hfront : ∀ c ∈ front, isdigit c = true) :
    ∀ (b : Nat) (tail : CppString),
      digitsValue b (front ++ tail) = digitsValue (digitsValue b front) tail := by
  induction front with
  | nil => intro b tail; simp [digitsValue]
  | cons x xs ihx =>
    intro b tail
    have hx1 : isdigit x = true := hfront x (List.mem_cons_self _ _)
    simp only [List.cons_append, digitsValue, hx1, if_true]
    exact ihx (fun c hc => hfront c (List.mem_cons_of_mem _ hc)) _ tail

theorem digitsValue_single (b k : Nat) (hk : k < 10) :
    digitsValue b [Nat.digitChar k] = b * 10 + k := by
  have hd := digitChar_isdigit k hk
  simp [digitsValue, hd.1, hd.2]

/-- With enough fuel the printing loop of `Nat.toDigits` prepends to its accumulator a
non-empty run of digits that reads back as the number printed. -/
theorem printed_digits_read_back (budget : Nat) :
    ∀ (m : Nat) (done : List Char), m < budget →
      ∃ run : List Char, ReadsAs run m ∧ Nat.toDigitsCore 10 budget m done = run ++ done := by
  induction budget with
  | zero => intro m done h; omega
  | succ budget ih =>
    intro m done h
    have hlt10 : m % 10 < 10 := Nat.mod_lt _ (by decide)
    have hd := digitChar_isdigit (m % 10) hlt10
    by_cases h0 : m / 10 = 0
    · refine ⟨[Nat.digitChar (m % 10)], ⟨by simp, ?_, ?_⟩, by simp [Nat.toDigitsCore, h0]⟩
      · intro c hc
        rw [List.mem_singleton.mp hc]; exact hd.1
      · intro a
        rw [digitsValue_single a _ hlt10]
        have hm : m % 10 = m := Nat.mod_eq_of_lt (by omega)
        simp [hm]
    · obtain ⟨run, ⟨r1, r2, r3⟩, hrun⟩ := ih (m / 10) (Nat.digitChar (m % 10) :: done) (by omega)
      refine ⟨run ++ [Nat.digitChar (m % 10)], ⟨by simp, ?_, ?_⟩, by simp [Nat.toDigitsCore, h0, hrun]⟩
      · intro c hc
        rcases List.mem_append.mp hc with hc | hc
        · exact r2 c hc
        · rw [List.mem_singleton.mp hc]; exact hd.1
      · intro a
        rw [digitsValue_append run r2, r3 a, digitsValue_single _ _ hlt10]
        have := Nat.div_add_mod m 10
        simp only [List.length_append, List.length_singleton, pow_succ]
        ring_nf
        omega

theorem toDigits_spec (n : Nat) :
    Nat.toDigits 10 n ≠ [] ∧ (∀ c ∈ Nat.toDigits 10 n, isdigit c = true) ∧
      digitsValue 0 (Nat.toDigits 10 n) = n := by
  obtain ⟨run, ⟨r1, r2, r3⟩, hrun⟩ := printed_digits_read_back (n + 1) n [] (by omega)
  rw [List.append_nil] at hrun
  unfold Nat.toDigits
  rw [hrun]
  refine ⟨r1, r2, ?_⟩
  simpa using r3 0

theorem startsWithDigit_toDigits (n : Nat) : startsWithDigit (Nat.toDigits 10 n) = true := by
  obtain ⟨h1, h2, _⟩ := toDigits_spec n
  cases h : Nat.toDigits 10 n with
  | nil => exact absurd h h1
  | cons c cs =>
    simp only [startsWithDigit]
    exact h2 c (by simp [h])

theorem isdigit_not_space (c : Char) (h : isdigit c = true) :
    isspace c = false ∧ c ≠ '-' ∧ c ≠ '+' := by
  simp only [isdigit, Bool.and_eq_true, decide_eq_true_eq] at h
  refine ⟨?_, ?_, ?_⟩
  · simp only [isspace, Bool.or_eq_false_iff, decide_eq_false_iff_not]
    refine ⟨⟨⟨⟨⟨?_, ?_⟩, ?_⟩, ?_⟩, ?_⟩, ?_⟩ <;>
    · intro e; rw [e] at h; revert h; decide
  · intro e; rw [e] at h; revert h; decide
  · intro e; rw [e] at h; revert h; decide

theorem strtol_toDigits (n : Nat) : strtol (Nat.toDigits 10 n) = some (n : Int) := by
  obtain ⟨h1, h2, h3⟩ := toDigits_spec n
  have hs := startsWithDigit_toDigits n
  cases h : Nat.toDigits 10 n with
  | nil => exact absurd h h1
  | cons c cs =>
    have hc : isdigit c = true := h2 c (by simp [h])
    obtain ⟨hsp, hm, hp⟩ := isdigit_not_space c hc
    rw [h] at hs h3
    unfold strtol
    simp only [List.dropWhile, hsp]
    split
    · rename_i heq; simp at heq; exact absurd heq.1 hm
    · rename_i heq; simp at heq; exact absurd heq.1 hp
    · simp [hs, h3]

theorem strtol_neg_toDigits (n : Nat) :
    strtol ('-' :: Nat.toDigits 10 n) = some (-(n : Int)) := by
  obtain ⟨_, _, h3⟩ := toDigits_spec n
  have hs := startsWithDigit_toDigits n
  unfold strtol
  have : isspace '-' = false := by decide
  simp only [List.dropWhile, this]
  simp [hs, h3]

theorem stoi_intToDecimal (v : Int) (h : isInt32 v) : stoi (intToDecimal v) = Except.ok v := by
  unfold isInt32 at h
  unfold stoi intToDecimal
  by_cases hv : v < 0
  · simp only [hv, if_true, strtol_neg_toDigits]
    have : -((v.natAbs : Nat) : Int) = v := by omega
    rw [this, if_pos h]
  · simp only [hv, if_false, strtol_toDigits]
    have : ((v.natAbs : Nat) : Int) = v := by omega
    rw [this, if_pos h]

theorem intToDecimal_ne_nil (v : Int) : intToDecimal v ≠ [] := by
  unfold intToDecimal
  split
  · simp
  · exact (toDigits_spec _).1

theorem not_mem_intToDecimal (d : Char) (v : Int) (h1 : d ≠ '-') (h2 : isdigit d = false) :
    d ∉ intToDecimal v := by
  unfold intToDecimal
  intro hmem
  have hdig : ∀ n, d ∉ Nat.toDigits 10 n := by
    intro n hn
    have := (toDigits_spec n).2.1 d hn
    rw [h2] at this
    exact Bool.noConfusion this
  split at hmem
  · simp at hmem
    rcases hmem with hmem | hmem
    · exact h1 hmem
    · exact hdig _ hmem
  · exact hdig _ hmem

/-! ## Lemmas on maps -/

theorem mapCount_eq_zero_iff {β : Type} (m : StdMap β) (k : CppString) :
    mapCount m k = 0 ↔ k ∉ keysOf m := by
  unfold mapCount keysOf
  by_cases h : m.any (fun e => decide (e.1 = k)) = true
  · simp only [h, if_true]
    simp only [List.any_eq_true, decide_eq_true_eq] at h
    obtain ⟨e, he, hk⟩ := h
    constructor
    · intro h1; omega
    · intro h1; exact absurd (List.mem_map.mpr ⟨e, he, hk⟩) h1
  · simp only [h]
    simp only [List.any_eq_true, decide_eq_true_eq, not_exists, not_and] at h
    constructor
    · intro _ hmem
      obtain ⟨e, he, hk⟩ := List.mem_map.mp hmem
      exact h e he hk
    · intro _; rfl

theorem mapCount_ne_zero_iff {β : Type} (m : StdMap β) (k : CppString) :
    mapCount m k ≠ 0 ↔ k ∈ keysOf m := by
  rw [Ne, mapCount_eq_zero_iff]; exact not_not

theorem mapAt_mapAssign {β : Type} (m : StdMap β) (k : CppString) (v : β) (k2 : CppString) :
    mapAt (mapAssign m k v) k2 = if k2 = k then some v else mapAt m k2 := by
  induction m with
  | nil =>
    by_cases h : k2 = k
    · simp [mapAssign, mapAt, h]
    · have h2 : ¬ k = k2 := fun e => h e.symm
      simp [mapAssign, mapAt, h, h2]
  | cons e rest ih =>
    obtain ⟨k1, v1⟩ := e
    simp only [mapAssign]
    by_cases h1 : k = k1
    · subst h1
      by_cases h : k2 = k
      · simp [mapAt, h]
      · have h2 : ¬ k = k2 := fun e => h e.symm
        simp [mapAt, h, h2]
    · simp only [h1, if_false]
      by_cases h3 : strLt k k1 = true
      · simp only [h3, if_true]
        by_cases h : k2 = k
        · simp [mapAt, h]
        · have h2 : ¬ k = k2 := fun e => h e.symm
          simp [mapAt, h, h2]
      · simp only [h3]
        by_cases h : k2 = k
        · subst h
          have h4 : ¬ k1 = k2 := fun e => h1 e.symm
          simp [mapAt, h4, ih]
        · simp only [mapAt, ih, h, if_false]

theorem mapAt_eq_none_iff {β : Type} (m : StdMap β) (k : CppString) :
    mapAt m k = none ↔ k ∉ keysOf m := by
  induction m with
  | nil => simp [mapAt, keysOf]
  | cons e rest ih =>
    obtain ⟨k1, v1⟩ := e
    have hk : keysOf ((k1, v1) :: rest) = k1 :: keysOf rest := rfl
    rw [hk]
    by_cases h : k1 = k
    · simp only [mapAt, h, if_true]
      constructor
      · intro h1; exact Option.noConfusion h1
      · intro h1; exact absurd (List.mem_cons_self _ _) h1
    · have h2 : ¬ k = k1 := fun e => h e.symm
      simp only [mapAt, h, if_false, ih, List.mem_cons, h2, false_or]

theorem mapAssign_perm {β : Type} (m : StdMap β) (k : CppString) (v : β) (h : k ∉ keysOf m) :
    List.Perm (mapAssign m k v) (m ++ [(k, v)]) := by
  induction m with
  | nil => simp [mapAssign]
  | cons e rest ih =>
    obtain ⟨k1, v1⟩ := e
    have h1 : ¬ k = k1 := fun hk => h (hk ▸ List.mem_cons_self _ _)
    have h2 : k ∉ keysOf rest := fun hk => h (List.mem_cons_of_mem _ hk)
    simp only [mapAssign, h1, if_false]
    by_cases h3 : strLt k k1 = true
    · simp only [h3, if_true]
      have : (k, v) :: (k1, v1) :: rest = [(k, v)] ++ ((k1, v1) :: rest) := rfl
      rw [this]
      exact List.perm_append_comm
    · simp only [h3]
      exact List.Perm.cons _ (ih h2)

theorem numbered_append (k : Nat) (xs ys : List CppString) :
    numbered k (xs ++ ys) = numbered k xs ++ numbered (k + xs.length) ys := by
  induction xs generalizing k with
  | nil => simp [numbered]
  | cons x xs ih =>
    have e1 : k + 1 + xs.length = k + (xs.length + 1) := by omega
    show (x, k) :: numbered (k + 1) (xs ++ ys) = _
    rw [ih (k + 1), e1]
    rfl

theorem numbered_length (k : Nat) (xs : List CppString) : (numbered k xs).length = xs.length := by
  induction xs generalizing k with
  | nil => rfl
  | cons x xs ih => simp [numbered, ih]

theorem numbered_keys (k : Nat) (xs : List CppString) : keysOf (numbered k xs) = xs := by
  induction xs generalizing k with
  | nil => rfl
  | cons x xs ih =>
    simp only [keysOf, numbered, List.map_cons] at ih ⊢
    rw [ih]

theorem numbered_snd (k : Nat) (xs : List CppString) :
    (numbered k xs).map Prod.snd = List.range' k xs.length := by
  induction xs generalizing k with
  | nil => rfl
  | cons x xs ih => simp [numbered, ih, List.range']

theorem numbered_mem (k : Nat) (xs : List CppString) (e : CppString × Nat)
    (h : e ∈ numbered k xs) : k ≤ e.2 ∧ e.1 = xs.getD (e.2 - k) [] := by
  induction xs generalizing k with
  | nil => simp [numbered] at h
  | cons x xs ih =>
    simp only [numbered, List.mem_cons] at h
    rcases h with h | h
    · subst h; simp
    · obtain ⟨h1, h2⟩ := ih (k + 1) h
      refine ⟨by omega, ?_⟩
      have : e.2 - k = (e.2 - (k + 1)) + 1 := by omega
      rw [this, List.getD_cons_succ]
      exact h2

theorem keysOf_perm {β : Type} {m1 m2 : StdMap β} (h : List.Perm m1 m2) (k : CppString) :
    k ∈ keysOf m1 ↔ k ∈ keysOf m2 := by
  unfold keysOf
  exact (h.map Prod.fst).mem_iff

/-! ## The blueprint: reading, extending, sorting -/

theorem blueprint_from_tokens_ok (toks : List CppString) :
    ∀ (k : Nat) (bp : StdMap Nat), (∀ t ∈ toks, atoi t = 0) → toks.Nodup →
      (∀ t ∈ toks, t ∉ keysOf bp) →
      ∃ bp2, blueprint_from_tokens toks k bp = (EXIT_SUCCESS, bp2) ∧
        List.Perm bp2 (bp ++ numbered k toks) := by
  induction toks with
  | nil => intro k bp _ _ _; exact ⟨bp, rfl, by simp [numbered]⟩
  | cons t ts ih =>
    intro k bp h0 hnd hfresh
    have ht : atoi t = 0 := h0 t (List.mem_cons_self _ _)
    have hnd2 := List.nodup_cons.mp hnd
    have hp := mapAssign_perm bp t k (hfresh t (List.mem_cons_self _ _))
    have hfresh2 : ∀ x ∈ ts, x ∉ keysOf (mapAssign bp t k) := by
      intro x hx hmem
      rw [keysOf_perm hp x] at hmem
      unfold keysOf at hmem
      rw [List.map_append, List.mem_append] at hmem
      rcases hmem with hmem | hmem
      · exact hfresh x (List.mem_cons_of_mem _ hx) hmem
      · simp only [List.map_cons, List.map_nil, List.mem_singleton] at hmem
        exact hnd2.1 (hmem ▸ hx)
    obtain ⟨bp2, h1, h2⟩ := ih (k + 1) (mapAssign bp t k)
      (fun x hx => h0 x (List.mem_cons_of_mem _ hx)) hnd2.2 hfresh2
    refine ⟨bp2, ?_, ?_⟩
    · simp only [blueprint_from_tokens, ht, ne_eq, not_true_eq_false, if_false]
      exact h1
    · refine h2.trans ?_
      have : bp ++ numbered k (t :: ts) = (bp ++ [(t, k)]) ++ numbered (k + 1) ts := by
        simp [numbered]
      rw [this]
      exact List.Perm.append_right _ hp

theorem blueprint_from_tokens_status (toks : List CppString) :
    ∀ (k : Nat) (bp : StdMap Nat),
      (blueprint_from_tokens toks k bp).1 = EXIT_FAILURE ↔ ∃ t ∈ toks, atoi t ≠ 0 := by
  induction toks with
  | nil => intro k bp; simp [blueprint_from_tokens, EXIT_SUCCESS, EXIT_FAILURE]
  | cons t ts ih =>
    intro k bp
    by_cases ht : atoi t = 0
    · simp only [blueprint_from_tokens, ht, ne_eq, not_true_eq_false, if_false, ih,
        List.mem_cons, exists_eq_or_imp, false_or]
    · simp only [blueprint_from_tokens, ht, ne_eq, not_false_eq_true, if_true,
        List.mem_cons, exists_eq_or_imp, true_or]

theorem blueprint_from_tokens_status_cases (toks : List CppString) (k : Nat) (bp : StdMap Nat) :
    (blueprint_from_tokens toks k bp).1 = EXIT_FAILURE ∨
      (blueprint_from_tokens toks k bp).1 = EXIT_SUCCESS := by
  induction toks generalizing k bp with
  | nil => right; rfl
  | cons t ts ih =>
    by_cases ht : atoi t = 0
    · simp only [blueprint_from_tokens, ht, ne_eq, not_true_eq_false, if_false]
      exact ih _ _
    · left
      simp only [blueprint_from_tokens, ht, ne_eq, not_false_eq_true, if_true]

theorem newColumns_cons_new (k : CppString) (v : Int) (rest : StdMap Int)
    (cols : List CppString) (h : k ∉ cols) :
    newColumns ((k, v) :: rest) cols = k :: newColumns rest cols := by
  simp [newColumns, keysOf, h]

theorem newColumns_cons_old (k : CppString) (v : Int) (rest : StdMap Int)
    (cols : List CppString) (h : k ∈ cols) :
    newColumns ((k, v) :: rest) cols = newColumns rest cols := by
  simp [newColumns, keysOf, h]

theorem newColumns_snoc (rest : StdMap Int) (cols : List CppString) (k : CppString)
    (h : k ∉ keysOf rest) : newColumns rest (cols ++ [k]) = newColumns rest cols := by
  unfold newColumns
  apply List.filter_congr
  intro x hx
  have : x ≠ k := fun e => h (e ▸ hx)
  simp [this]

theorem add_missing_loop_spec (row : StdMap Int) :
    ∀ (bp : StdMap Nat) (flag : Bool) (cols : List CppString),
      List.Perm bp (numbered 0 cols) → (keysOf row).Nodup →
      ∃ bp2, add_missing_loop row bp flag = (bp2, flag || !(newColumns row cols).isEmpty) ∧
        List.Perm bp2 (numbered 0 (cols ++ newColumns row cols)) := by
  induction row with
  | nil =>
    intro bp flag cols hp _
    exact ⟨bp, by simp [add_missing_loop, newColumns, keysOf], by simpa [newColumns, keysOf] using hp⟩
  | cons e rest ih =>
    obtain ⟨k, v⟩ := e
    intro bp flag cols hp hnd
    have hnd2 : k ∉ keysOf rest ∧ (keysOf rest).Nodup := List.nodup_cons.mp hnd
    have hkeys : k ∈ keysOf bp ↔ k ∈ cols := by
      rw [keysOf_perm hp k, numbered_keys]
    by_cases hk : k ∈ cols
    · have hc : mapCount bp k ≠ 0 := (mapCount_ne_zero_iff bp k).mpr (hkeys.mpr hk)
      obtain ⟨bp2, h1, h2⟩ := ih bp flag cols hp hnd2.2
      refine ⟨bp2, ?_, ?_⟩
      · simp only [add_missing_loop, hc, if_false]
        rw [h1, newColumns_cons_old k v rest cols hk]
      · rw [newColumns_cons_old k v rest cols hk]; exact h2
    · have hc : mapCount bp k = 0 := (mapCount_eq_zero_iff bp k).mpr (fun h => hk (hkeys.mp h))
      have hlen : bp.length = cols.length := by
        rw [hp.length_eq, numbered_length]
      have hp2 : List.Perm (mapAssign bp k bp.length) (numbered 0 (cols ++ [k])) := by
        refine (mapAssign_perm bp k bp.length (fun h => hk (hkeys.mp h))).trans ?_
        rw [numbered_append, hlen]
        simp only [numbered, Nat.zero_add]
        exact List.Perm.append_right _ hp
      obtain ⟨bp2, h1, h2⟩ := ih (mapAssign bp k bp.length) true (cols ++ [k]) hp2 hnd2.2
      rw [newColumns_snoc rest cols k hnd2.1] at h1 h2
      refine ⟨bp2, ?_, ?_⟩
      · simp only [add_missing_loop, hc, if_true]
        rw [h1, newColumns_cons_new k v rest cols hk]
        simp
      · rw [newColumns_cons_new k v rest cols hk]
        simpa using h2

theorem sorted_numbered (k : Nat) (cols : List CppString) :
    List.Sorted (fun a b : CppString × Nat => a.2 ≤ b.2) (numbered k cols) := by
  induction cols generalizing k with
  | nil => simp [numbered]
  | cons c cs ih =>
    simp only [numbered, List.sorted_cons]
    refine ⟨?_, ih (k + 1)⟩
    intro b hb
    have := (numbered_mem (k + 1) cs b hb).1
    show k ≤ b.2
    omega

theorem insertionSort_numbered (bp : StdMap Nat) (cols : List CppString)
    (hp : List.Perm bp (numbered 0 cols)) :
    List.insertionSort (fun a b : CppString × Nat => a.2 ≤ b.2) bp = numbered 0 cols := by
  set r := fun a b : CppString × Nat => a.2 ≤ b.2 with hr
  have hperm : List.Perm (List.insertionSort r bp) (numbered 0 cols) :=
    (List.perm_insertionSort r bp).trans hp
  haveI : IsTotal (CppString × Nat) r := ⟨fun a b => Nat.le_total a.2 b.2⟩
  haveI : IsTrans (CppString × Nat) r := ⟨fun a b c h1 h2 => Nat.le_trans h1 h2⟩
  have hsorted : List.Sorted r (List.insertionSort r bp) := List.sorted_insertionSort r bp
  have hsnd : (List.insertionSort r bp).map Prod.snd = (numbered 0 cols).map Prod.snd := by
    have s1 : List.Sorted (fun a b : Nat => a ≤ b) ((List.insertionSort r bp).map Prod.snd) :=
      (List.pairwise_map).mpr hsorted
    have s2 : List.Sorted (fun a b : Nat => a ≤ b) ((numbered 0 cols).map Prod.snd) :=
      (List.pairwise_map).mpr (sorted_numbered 0 cols)
    haveI : IsAntisymm Nat (fun a b : Nat => a ≤ b) := ⟨fun a b h1 h2 => Nat.le_antisymm h1 h2⟩
    exact List.eq_of_perm_of_sorted (hperm.map Prod.snd) s1 s2
  have hfun : ∀ l : StdMap Nat, (∀ e ∈ l, e.1 = cols.getD e.2 []) →
      l = (l.map Prod.snd).map (fun i => (cols.getD i [], i)) := by
    intro l hl
    induction l with
    | nil => rfl
    | cons e es ihl =>
      simp only [List.map_cons]
      rw [← ihl (fun x hx => hl x (List.mem_cons_of_mem _ hx))]
      have := hl e (List.mem_cons_self _ _)
      congr 1
      exact Prod.ext this rfl
  have hnum : ∀ e ∈ numbered 0 cols, e.1 = cols.getD e.2 [] := by
    intro e he
    have := (numbered_mem 0 cols e he).2
    simpa using this
  rw [hfun _ (fun e he => hnum e (hperm.mem_iff.mp he)), hsnd, ← hfun _ hnum]

theorem sort_database_blueprint_numbered (db : JsonCsvDatabase) (cols : List CppString)
    (hp : List.Perm db.m_database_blueprint (numbered 0 cols)) :
    (sort_database_blueprint db).m_ordered_database_column_names = cols := by
  unfold sort_database_blueprint
  simp only
  rw [insertionSort_numbered _ cols hp]
  exact numbered_keys 0 cols

/-- Entries with pairwise distinct ordinals have one arrangement by ascending ordinal
only: two sequences of the same entries, both ascending, are equal. -/
theorem ascending_arrangement_unique :
    ∀ l1 l2 : List (CppString × Nat), List.Perm l1 l2 →
      List.Sorted (fun a b : CppString × Nat => a.2 ≤ b.2) l1 →
      List.Sorted (fun a b : CppString × Nat => a.2 ≤ b.2) l2 →
      (l1.map Prod.snd).Nodup → l1 = l2 := by
  intro l1
  induction l1 with
  | nil => intro l2 hp _ _ _; exact hp.nil_eq
  | cons a t1 ih =>
    intro l2 hp h1 h2 hnd
    cases l2 with
    | nil => exact absurd hp.symm.nil_eq (by simp)
    | cons b t2 =>
      have ha := List.sorted_cons.mp h1
      have hb := List.sorted_cons.mp h2
      have hnd2 : a.2 ∉ t1.map Prod.snd ∧ (t1.map Prod.snd).Nodup := by
        rw [List.map_cons] at hnd
        exact List.nodup_cons.mp hnd
      have hab : a.2 ≤ b.2 := by
        have hmem : b ∈ a :: t1 := hp.mem_iff.mpr (List.mem_cons_self _ _)
        rcases List.mem_cons.mp hmem with e | e
        · rw [e]
        · exact ha.1 b e
      have hba : b.2 ≤ a.2 := by
        have hmem : a ∈ b :: t2 := hp.mem_iff.mp (List.mem_cons_self _ _)
        rcases List.mem_cons.mp hmem with e | e
        · rw [e]
        · exact hb.1 a e
      have heq : a = b := by
        have hmem : b ∈ a :: t1 := hp.mem_iff.mpr (List.mem_cons_self _ _)
        rcases List.mem_cons.mp hmem with e | e
        · exact e.symm
        · exfalso
          apply hnd2.1
          have : a.2 = b.2 := Nat.le_antisymm hab hba
          rw [this]
          exact List.mem_map_of_mem Prod.snd e
      subst heq
      have hp2 : List.Perm t1 t2 := (List.perm_cons a).mp hp
      rw [ih t2 hp2 ha.2 hb.2 hnd2.2]

/-- Where the ordinals of the blueprint are pairwise distinct the result of
`sort_database_blueprint` does not depend on how `std::sort` treats ties: every
arrangement of the entries by ascending ordinal gives the ordered column list. -/
theorem sort_database_blueprint_any_sort (db : JsonCsvDatabase)
    (pairs : List (CppString × Nat)) (hperm : List.Perm pairs db.m_database_blueprint)
    (hsorted : List.Sorted (fun a b : CppString × Nat => a.2 ≤ b.2) pairs)
    (hnd : (db.m_database_blueprint.map Prod.snd).Nodup) :
    (sort_database_blueprint db).m_ordered_database_column_names = pairs.map Prod.fst := by
  set r := fun a b : CppString × Nat => a.2 ≤ b.2 with hr
  haveI : IsTotal (CppString × Nat) r := ⟨fun a b => Nat.le_total a.2 b.2⟩
  haveI : IsTrans (CppString × Nat) r := ⟨fun a b c h1 h2 => Nat.le_trans h1 h2⟩
  have h1 : List.Perm (List.insertionSort r db.m_database_blueprint) pairs :=
    (List.perm_insertionSort r db.m_database_blueprint).trans hperm.symm
  have h2 : List.Sorted r (List.insertionSort r db.m_database_blueprint) :=
    List.sorted_insertionSort r db.m_database_blueprint
  have h3 : ((List.insertionSort r db.m_database_blueprint).map Prod.snd).Nodup :=
    ((List.perm_insertionSort r db.m_database_blueprint).map Prod.snd).nodup_iff.mpr hnd
  unfold sort_database_blueprint
  simp only
  rw [ascending_arrangement_unique _ pairs h1 h2 hsorted h3]

/-! ## One call of `add_data_row` -/

theorem tmp_path_ne (db : JsonCsvDatabase) : db.m_database_csv_filepath ≠ tmp_path db := by
  intro h
  have := congrArg List.length h
  simp [tmp_path] at this

theorem get_existing_blueprint_config (db : JsonCsvDatabase) (fs : FileSystem) :
    (get_existing_blueprint_from_csv db fs).2.m_database_csv_filepath = db.m_database_csv_filepath ∧
    (get_existing_blueprint_from_csv db fs).2.m_delimiter = db.m_delimiter ∧
    (get_existing_blueprint_from_csv db fs).2.m_empty_value_placeholder
      = db.m_empty_value_placeholder ∧
    (get_existing_blueprint_from_csv db fs).2.m_ordered_database_column_names
      = db.m_ordered_database_column_names := by
  unfold get_existing_blueprint_from_csv
  cases fs db.m_database_csv_filepath <;> simp

theorem get_existing_blueprint_status (db : JsonCsvDatabase) (fs : FileSystem) :
    (get_existing_blueprint_from_csv db fs).1 = EXIT_FAILURE ↔
      ∃ t ∈ header_tokens db fs, atoi t ≠ 0 := by
  unfold get_existing_blueprint_from_csv header_tokens
  cases fs db.m_database_csv_filepath with
  | none => simp [EXIT_SUCCESS, EXIT_FAILURE]
  | some content => simp only [blueprint_from_tokens_status]

theorem get_existing_blueprint_ok (db : JsonCsvDatabase) (fs : FileSystem)
    (hbp : db.m_database_blueprint = [])
    (hz : ∀ t ∈ header_tokens db fs, atoi t = 0) (hnd : (header_tokens db fs).Nodup) :
    (get_existing_blueprint_from_csv db fs).1 = EXIT_SUCCESS ∧
      List.Perm (get_existing_blueprint_from_csv db fs).2.m_database_blueprint
        (numbered 0 (header_tokens db fs)) := by
  unfold get_existing_blueprint_from_csv header_tokens at *
  cases h : fs db.m_database_csv_filepath with
  | none => simp [hbp, numbered]
  | some content =>
    rw [h] at hz hnd
    simp only at hz hnd ⊢
    obtain ⟨bp2, h1, h2⟩ := blueprint_from_tokens_ok _ 0 db.m_database_blueprint hz hnd
      (by intro t _; rw [hbp]; simp [keysOf])
    rw [h1]
    rw [hbp] at h2
    exact ⟨rfl, by simpa using h2⟩

theorem fsRemove_creatable (fs : FileSystem) (path : CppString) :
    (fsRemove fs path).creatable = fs.creatable := rfl

theorem fsWrite_creatable (fs : FileSystem) (path content : CppString) :
    (fsWrite fs path content).creatable = fs.creatable := rfl

theorem fsRename_creatable (fs : FileSystem) (src dst : CppString) :
    (fsRename fs src dst).creatable = fs.creatable := by
  unfold fsRename
  cases fs src <;> rfl

theorem ofstream_is_open_removed (fs : FileSystem) (path : CppString) :
    ofstream_is_open (fsRemove fs path) path = fs.creatable path := by
  simp [ofstream_is_open, fsRemove]

theorem ofstream_is_open_of_file (fs : FileSystem) (path content : CppString)
    (h : fs path = some content) : ofstream_is_open fs path = true := by
  simp [ofstream_is_open, h]

theorem ofstream_is_open_of_creatable (fs : FileSystem) (path : CppString)
    (h : fs.creatable path = true) : ofstream_is_open fs path = true := by
  simp [ofstream_is_open, h]

theorem create_csv_headings_creatable (db : JsonCsvDatabase) (fs : FileSystem) :
    (create_csv_headings_from_blueprint db fs).creatable = fs.creatable := by
  unfold create_csv_headings_from_blueprint
  simp only
  split
  · rfl
  · rw [fsRename_creatable]; rfl

/-- The temporary file cannot be created: only the `std::remove` of the temporary path
has happened. -/
theorem create_csv_headings_blocked (db : JsonCsvDatabase) (fs : FileSystem)
    (hc : fs.creatable (tmp_path db) = false) :
    create_csv_headings_from_blueprint db fs = fsRemove fs (tmp_path db) := by
  unfold create_csv_headings_from_blueprint
  simp only [ofstream_is_open_removed, hc, if_true]

theorem create_csv_headings_file (db : JsonCsvDatabase) (fs : FileSystem)
    (hc : fs.creatable (tmp_path db) = true) :
    create_csv_headings_from_blueprint db fs db.m_database_csv_filepath
      = some (header_text db.m_delimiter db.m_ordered_database_column_names
          ++ '\n' :: copy_data_section true (lines_of (fs db.m_database_csv_filepath))) := by
  have hne := tmp_path_ne db
  have hne2 : tmp_path db ≠ db.m_database_csv_filepath := fun e => hne e.symm
  unfold create_csv_headings_from_blueprint
  simp only [ofstream_is_open_removed, hc, Bool.true_eq_false, if_false]
  simp [fsRename, fsWrite, fsRemove, hne, hne2]

theorem create_csv_headings_other (db : JsonCsvDatabase) (fs : FileSystem) (q : CppString)
    (hq : q ≠ db.m_database_csv_filepath) :
    create_csv_headings_from_blueprint db fs q = if q = tmp_path db then none else fs q := by
  have hne := tmp_path_ne db
  have hne2 : tmp_path db ≠ db.m_database_csv_filepath := fun e => hne e.symm
  cases hc : fs.creatable (tmp_path db) with
  | false =>
    rw [create_csv_headings_blocked db fs hc]
    simp [fsRemove]
  | true =>
    unfold create_csv_headings_from_blueprint
    simp only [ofstream_is_open_removed, hc, Bool.true_eq_false, if_false]
    by_cases h : q = tmp_path db
    · simp [fsRename, fsWrite, fsRemove, hne, hne2, h]
    · simp [fsRename, fsWrite, fsRemove, hne, hne2, h, hq]

/-- The text `add_data_row` leaves in the database file when the header passes the
check: with no new column the row is appended to the file as it is, otherwise the
file is rewritten under the new header first. -/
theorem add_data_row_ok (db : JsonCsvDatabase) (row : StdMap Int) (fs : FileSystem)
    (hz : ∀ t ∈ header_tokens db fs, atoi t = 0) (hnd : (header_tokens db fs).Nodup)
    (hrow : (keysOf row).Nodup) :
    (add_data_row db row fs).1 = EXIT_SUCCESS ∧
    (add_data_row db row fs).2.1.m_ordered_database_column_names = columns_after db row fs ∧
    List.Perm (add_data_row db row fs).2.1.m_database_blueprint
      (numbered 0 (columns_after db row fs)) ∧
    ((newColumns row (header_tokens db fs) = [] →
        ofstream_is_open fs db.m_database_csv_filepath = true) →
      (newColumns row (header_tokens db fs) ≠ [] → fs.creatable (tmp_path db) = true) →
      (add_data_row db row fs).2.2 db.m_database_csv_filepath = some
        (if newColumns row (header_tokens db fs) = [] then
          append_to (fs db.m_database_csv_filepath)
            (row_text db.m_delimiter row (columns_after db row fs) ++ ['\n'])
        else
          (header_text db.m_delimiter (columns_after db row fs)
            ++ '\n' :: copy_data_section true (lines_of (fs db.m_database_csv_filepath)))
            ++ (row_text db.m_delimiter row (columns_after db row fs) ++ ['\n']))) := by
  set db0 : JsonCsvDatabase := { db with m_database_blueprint := [] } with hdb0
  have htok : header_tokens db0 fs = header_tokens db fs := rfl
  obtain ⟨c1, c2, c3, c4⟩ := get_existing_blueprint_config db0 fs
  obtain ⟨g1, g2⟩ := get_existing_blueprint_ok db0 fs rfl (by rw [htok]; exact hz)
    (by rw [htok]; exact hnd)
  rw [htok] at g2
  obtain ⟨bp2, a1, a2⟩ := add_missing_loop_spec row
    (get_existing_blueprint_from_csv db0 fs).2.m_database_blueprint false
    (header_tokens db fs) g2 hrow
  have hne : (get_existing_blueprint_from_csv db0 fs).1 ≠ EXIT_FAILURE := by
    rw [g1]; decide
  have hsort := sort_database_blueprint_numbered
    { (get_existing_blueprint_from_csv db0 fs).2 with m_database_blueprint := bp2 }
    (columns_after db row fs) a2
  unfold add_data_row
  simp only [← hdb0, hne, if_false]
  unfold add_missing_columns_to_database_blueprint
  simp only [a1, Bool.false_or]
  by_cases hnew : newColumns row (header_tokens db fs) = []
  · simp only [hnew, List.isEmpty_nil, Bool.not_true, if_false, Bool.false_eq_true]
    refine ⟨trivial, hsort, ?_, ?_⟩
    · simpa [sort_database_blueprint] using a2
    · intro hopen _
      have hopen2 := hopen (by first | rfl | trivial)
      simp [sort_database_blueprint, fsWrite, c1, c2, hdb0, hopen2] at hsort ⊢
      rw [hsort]
  · have hne2 : (newColumns row (header_tokens db fs)).isEmpty = false := by
      cases h : newColumns row (header_tokens db fs) with
      | nil => exact absurd h hnew
      | cons _ _ => rfl
    simp only [hne2, Bool.not_false, if_true, hnew, if_false]
    refine ⟨trivial, hsort, ?_, ?_⟩
    · simpa [sort_database_blueprint] using a2
    · intro _ htmp
      have htmp2 := htmp hnew
      have hpath : (sort_database_blueprint
          { (get_existing_blueprint_from_csv db0 fs).2 with m_database_blueprint := bp2 }
          ).m_database_csv_filepath = db.m_database_csv_filepath := by
        simp [sort_database_blueprint, c1, hdb0]
      have hdel : (sort_database_blueprint
          { (get_existing_blueprint_from_csv db0 fs).2 with m_database_blueprint := bp2 }
          ).m_delimiter = db.m_delimiter := by
        simp [sort_database_blueprint, c2, hdb0]
      have htmp3 : tmp_path (sort_database_blueprint
          { (get_existing_blueprint_from_csv db0 fs).2 with m_database_blueprint := bp2 })
            = tmp_path db := by
        unfold tmp_path; rw [hpath]
      have hfile := create_csv_headings_file (sort_database_blueprint
          { (get_existing_blueprint_from_csv db0 fs).2 with m_database_blueprint := bp2 }) fs
          (by rw [htmp3]; exact htmp2)
      rw [hpath] at hfile
      have hop := ofstream_is_open_of_file _ _ _ hfile
      simp only [hpath, hop, fsWrite, if_true, hfile, append_to, hdel, hsort]

/-! ## Reading: the window of `scan_lines` -/

theorem getlineAll_file_of_lines (lines : List CppString) (h : ∀ l ∈ lines, '\n' ∉ l) :
    getlineAll '\n' (file_of_lines lines) = lines := by
  induction lines with
  | nil => rfl
  | cons l ls ih =>
    simp only [file_of_lines]
    rw [getlineAll_token '\n' l _ (h l (List.mem_cons_self _ _)),
      ih (fun x hx => h x (List.mem_cons_of_mem _ hx))]

theorem rows_between_none_of_gt (lo hi start : Int) (rows : List CppString) (h : hi < start) :
    rows_between lo (some hi) start rows = [] := by
  induction rows generalizing start with
  | nil => rfl
  | cons r rs ih =>
    have : in_window lo (some hi) start = false := by
      simp only [in_window, decide_eq_false_iff_not]; omega
    simp only [rows_between, this]
    exact ih (start + 1) (by omega)

/-- From the second line on, `scan_lines` reads exactly the lines whose row index
lies in the window its two bounds describe. -/
theorem scan_lines_window (d : Char) (p : Int) (first last : Int) (rows : List CppString) :
    ∀ (row_index : Int) (names : List CppString) (values : List (List Int)), 1 ≤ row_index →
      scan_lines d p first last rows row_index names values
        = collect_rows d p names values
            (rows_between (first - 2) (if last = 1 then none else some (last - 2))
              (row_index - 1) rows) := by
  induction rows with
  | nil => intro ri names values _; simp [scan_lines, rows_between, collect_rows]
  | cons line rest ih =>
    intro ri names values hri
    have h1 : ¬ (ri + 1 = 1) := by omega
    have hstep : ri + 1 - 1 = ri - 1 + 1 := by omega
    simp only [scan_lines, h1, if_false]
    by_cases hskip : ri + 1 < first
    · have hw : in_window (first - 2) (if last = 1 then none else some (last - 2)) (ri - 1)
          = false := by
        split <;> simp only [in_window, decide_eq_false_iff_not] <;> omega
      simp only [hskip, if_true, rows_between, hw]
      rw [ih (ri + 1) names values (by omega), hstep]
      rfl
    · simp only [hskip, if_false]
      have hlo : first - 2 ≤ ri - 1 := by omega
      by_cases hlast : last = 1
      · have hb : ¬ (ri + 1 > last ∧ last ≠ 1) := fun h => h.2 hlast
        have hw : in_window (first - 2) none (ri - 1) = true := by
          simp only [in_window, decide_eq_true_eq]; exact hlo
        rw [if_neg hb]
        rw [if_pos hlast] at ih ⊢
        simp only [rows_between, hw, if_true, collect_rows]
        cases extract_row_values d p names.length line with
        | error e => rfl
        | ok cells =>
          simp only
          rw [ih (ri + 1) names (push_row values cells) (by omega), hstep]
      · rw [if_neg hlast] at ih ⊢
        by_cases hbreak : ri + 1 > last
        · have hb : ri + 1 > last ∧ last ≠ 1 := ⟨hbreak, hlast⟩
          have hw : in_window (first - 2) (some (last - 2)) (ri - 1) = false := by
            simp only [in_window, decide_eq_false_iff_not]; omega
          rw [if_pos hb]
          simp only [rows_between, hw, Bool.false_eq_true, if_false]
          rw [rows_between_none_of_gt (first - 2) (last - 2) (ri - 1 + 1) rest (by omega)]
          rfl
        · have hb : ¬ (ri + 1 > last ∧ last ≠ 1) := fun h => hbreak h.1
          have hw : in_window (first - 2) (some (last - 2)) (ri - 1) = true := by
            simp only [in_window, decide_eq_true_eq]; omega
          rw [if_neg hb]
          simp only [rows_between, hw, if_true, collect_rows]
          cases extract_row_values d p names.length line with
          | error e => rfl
          | ok cells =>
            simp only
            rw [ih (ri + 1) names (push_row values cells) (by omega), hstep]

/-- What `load_data_rows` returns on a file with a first line: the table of the data
lines inside the window of the two bounds. -/
theorem load_data_rows_window (db : JsonCsvDatabase) (fs : FileSystem) (data : JsonValue)
    (first_row last_row : Int) (alt content header : CppString) (rows : List CppString)
    (hfile : fs (if alt ≠ [] then alt else db.m_database_csv_filepath) = some content)
    (hlines : getlineAll '\n' content = header :: rows) :
    load_data_rows db fs data first_row last_row alt
      = table_of_lines db.m_delimiter db.m_empty_value_placeholder header
          (rows_between (wrapInt32 (first_row + 1) - 2)
            (if wrapInt32 (last_row + 1) = 1 then none else some (wrapInt32 (last_row + 1) - 2))
            0 rows) := by
  unfold load_data_rows table_of_lines
  simp only [hfile, hlines]
  have h0 : ((0 : Int) + 1 = 1) := by norm_num
  simp only [scan_lines, h0, if_true, List.nil_append]
  rw [scan_lines_window _ _ _ _ rows 1 _ _ (le_refl 1)]
  simp

theorem wrapInt32_of_isInt32 (x : Int) (h : isInt32 x) : wrapInt32 x = x := by
  unfold isInt32 INT_MIN INT_MAX at h
  unfold wrapInt32
  omega

theorem wrapInt32_succ_eq_one (x : Int) (h : isInt32 x) : wrapInt32 (x + 1) = 1 ↔ x = 0 := by
  unfold isInt32 INT_MIN INT_MAX at h
  unfold wrapInt32
  omega

theorem wrapInt32_succ_le (x : Int) (h : isInt32 x) : wrapInt32 (x + 1) ≤ x + 1 := by
  unfold isInt32 INT_MIN INT_MAX at h
  unfold wrapInt32
  omega

theorem rows_between_all (lo start : Int) (rows : List CppString) (h : lo ≤ start) :
    rows_between lo none start rows = rows := by
  induction rows generalizing start with
  | nil => rfl
  | cons r rs ih =>
    have hw : in_window lo none start = true := by
      simp only [in_window, decide_eq_true_eq]; exact h
    simp only [rows_between, hw, if_true]
    rw [ih (start + 1) (by omega)]

theorem rows_between_drop (lo start : Int) (rows : List CppString) :
    rows_between lo none start rows = rows.drop (lo - start).toNat := by
  induction rows generalizing start with
  | nil => simp [rows_between]
  | cons r rs ih =>
    by_cases h : lo ≤ start
    · have : (lo - start).toNat = 0 := by omega
      rw [this, List.drop_zero, rows_between_all lo start _ h]
    · have : (lo - start).toNat = (lo - (start + 1)).toNat + 1 := by omega
      have hw : in_window lo none start = false := by
        simp only [in_window, decide_eq_false_iff_not]; exact h
      simp only [rows_between, hw]
      rw [ih (start + 1), this, List.drop_succ_cons]
      rfl

/-! ## Lines, headers and row texts -/

theorem file_of_lines_append (xs ys : List CppString) :
    file_of_lines (xs ++ ys) = file_of_lines xs ++ file_of_lines ys := by
  induction xs with
  | nil => rfl
  | cons x xs ih => simp [file_of_lines, ih]

theorem copy_data_section_false (lines : List CppString) :
    copy_data_section false lines = file_of_lines (lines.filter (fun l => decide (l ≠ []))) := by
  induction lines with
  | nil => rfl
  | cons l ls ih =>
    by_cases h : l = []
    · simp [copy_data_section, h, ih]
    · simp [copy_data_section, h, ih, file_of_lines]

theorem copy_data_section_true (lines : List CppString) :
    copy_data_section true lines
      = file_of_lines (lines.tail.filter (fun l => decide (l ≠ []))) := by
  cases lines with
  | nil => rfl
  | cons l ls => simp [copy_data_section, copy_data_section_false]

theorem getlineAll_free (d : Char) (s : CppString) : ∀ tok ∈ getlineAll d s, d ∉ tok := by
  induction s with
  | nil => intro tok h; simp [getlineAll] at h
  | cons c cs ih =>
    intro tok h
    by_cases hc : c = d
    · simp only [getlineAll, hc, if_true, List.mem_cons] at h
      rcases h with h | h
      · rw [h]; simp
      · exact ih tok h
    · simp only [getlineAll, hc, if_false] at h
      cases hg : getlineAll d cs with
      | nil =>
        rw [hg] at h
        simp only [List.mem_singleton] at h
        rw [h]
        simp only [List.mem_singleton]
        exact fun e => hc e.symm
      | cons t ts =>
        rw [hg] at h ih
        simp only [List.mem_cons] at h
        rcases h with h | h
        · rw [h]
          intro hmem
          rcases List.mem_cons.mp hmem with e | e
          · exact hc e.symm
          · exact ih t (List.mem_cons_self _ _) e
        · exact ih tok (List.mem_cons_of_mem _ h)

theorem header_text_free (c d : Char) (cols : List CppString) (hd : c ≠ d)
    (h : ∀ name ∈ cols, c ∉ name) : c ∉ header_text d cols := by
  induction cols with
  | nil => simp [header_text]
  | cons x xs ih =>
    cases xs with
    | nil => simpa [header_text] using h x (List.mem_cons_self _ _)
    | cons y ys =>
      simp only [header_text, List.mem_append, List.mem_cons, not_or]
      refine ⟨h x (List.mem_cons_self _ _), hd, ?_⟩
      have := ih (fun n hn => h n (List.mem_cons_of_mem _ hn))
      simpa [header_text] using this

theorem row_text_free (c d : Char) (row : StdMap Int) (cols : List CppString) (hd : c ≠ d)
    (h1 : c ≠ '-') (h2 : isdigit c = false) : c ∉ row_text d row cols := by
  induction cols with
  | nil => simp [row_text]
  | cons x xs ih =>
    simp only [row_text]
    split
    · simp only [List.mem_cons, not_or]
      exact ⟨hd, ih⟩
    · simp only [List.mem_append, List.mem_cons, not_or]
      exact ⟨not_mem_intToDecimal c _ h1 h2, hd, ih⟩

theorem row_text_ne_nil (d : Char) (row : StdMap Int) (cols : List CppString) (h : cols ≠ []) :
    row_text d row cols ≠ [] := by
  cases cols with
  | nil => exact absurd rfl h
  | cons x xs =>
    simp only [row_text]
    split <;> simp

theorem strLt_irrefl (s : CppString) : strLt s s = false := by
  induction s with
  | nil => rfl
  | cons c cs ih => simp [strLt, ih]

theorem wellFormed_nodup {β : Type} (m : StdMap β) (h : StdMap.WellFormed m) :
    (keysOf m).Nodup := by
  unfold StdMap.WellFormed at h
  unfold keysOf
  refine List.Pairwise.imp ?_ h
  intro a b hab e
  rw [e, strLt_irrefl] at hab
  exact Bool.noConfusion hab

/-! ## A call of `add_data_row` that brings a new column -/

theorem mem_keysOf_mapAssign {β : Type} (m : StdMap β) (k : CppString) (v : β)
    (k2 : CppString) : k2 ∈ keysOf (mapAssign m k v) ↔ k2 = k ∨ k2 ∈ keysOf m := by
  have h1 := mapAt_eq_none_iff (mapAssign m k v) k2
  have h2 := mapAt_eq_none_iff m k2
  rw [mapAt_mapAssign] at h1
  by_cases hk : k2 = k
  · simp only [hk, if_true, true_or, iff_true] at h1 ⊢
    by_contra hc
    exact Option.noConfusion (h1.mpr hc)
  · simp only [hk, if_false, false_or] at h1 ⊢
    constructor
    · intro h; by_contra hc; exact (h1.mp (h2.mpr hc)) h
    · intro h; by_contra hc; exact (h2.mp (h1.mpr hc)) h

theorem blueprint_from_tokens_keys (toks : List CppString) :
    ∀ (k : Nat) (bp : StdMap Nat), (∀ t ∈ toks, atoi t = 0) →
      ∀ name, name ∈ keysOf (blueprint_from_tokens toks k bp).2 ↔ name ∈ keysOf bp ∨ name ∈ toks := by
  induction toks with
  | nil => intro k bp _ name; simp [blueprint_from_tokens]
  | cons t ts ih =>
    intro k bp h0 name
    have ht : atoi t = 0 := h0 t (List.mem_cons_self _ _)
    simp only [blueprint_from_tokens, ht, ne_eq, not_true_eq_false, if_false]
    rw [ih (k + 1) (mapAssign bp t k) (fun x hx => h0 x (List.mem_cons_of_mem _ hx)) name,
      mem_keysOf_mapAssign, List.mem_cons]
    constructor
    · rintro ((h | h) | h)
      · exact Or.inr (Or.inl h)
      · exact Or.inl h
      · exact Or.inr (Or.inr h)
    · rintro (h | h | h)
      · exact Or.inl (Or.inr h)
      · exact Or.inl (Or.inl h)
      · exact Or.inr h

theorem get_existing_blueprint_keys (db : JsonCsvDatabase) (fs : FileSystem)
    (hbp : db.m_database_blueprint = []) (hz : ∀ t ∈ header_tokens db fs, atoi t = 0) :
    ∀ name, name ∈ keysOf (get_existing_blueprint_from_csv db fs).2.m_database_blueprint
      ↔ name ∈ header_tokens db fs := by
  intro name
  unfold get_existing_blueprint_from_csv header_tokens at *
  cases h : fs db.m_database_csv_filepath with
  | none => simp [hbp, keysOf]
  | some content =>
    rw [h] at hz
    simp only at hz ⊢
    rw [blueprint_from_tokens_keys _ 0 _ hz name, hbp]
    simp [keysOf]

theorem add_missing_loop_flag_true (row : StdMap Int) :
    ∀ bp : StdMap Nat, (add_missing_loop row bp true).2 = true := by
  induction row with
  | nil => intro bp; rfl
  | cons e rest ih =>
    obtain ⟨k, v⟩ := e
    intro bp
    simp only [add_missing_loop]
    split
    · exact ih _
    · exact ih _

theorem add_missing_loop_flag (row : StdMap Int) :
    ∀ bp : StdMap Nat, (∃ k ∈ keysOf row, k ∉ keysOf bp) →
      (add_missing_loop row bp false).2 = true := by
  induction row with
  | nil => intro bp h; obtain ⟨k, hk, _⟩ := h; simp [keysOf] at hk
  | cons e rest ih =>
    obtain ⟨k, v⟩ := e
    intro bp h
    simp only [add_missing_loop]
    by_cases hc : mapCount bp k = 0
    · simp only [hc, if_true]
      exact add_missing_loop_flag_true rest _
    · simp only [hc, if_false]
      apply ih
      obtain ⟨k2, hk2, hn⟩ := h
      have hk2c : k2 = k ∨ k2 ∈ keysOf rest := List.mem_cons.mp hk2
      rcases hk2c with e | e
      · subst e
        exact absurd ((mapCount_eq_zero_iff bp k2).mpr hn) hc
      · exact ⟨k2, e, hn⟩

/-- The file after a call of `add_data_row` that passes the header check and brings
a column its first line does not have: the new header, the old lines after the first
that are not empty, the new row. -/
theorem add_data_row_rewrite (db : JsonCsvDatabase) (row : StdMap Int) (fs : FileSystem)
    (hz : ∀ t ∈ header_tokens db fs, atoi t = 0)
    (hnew : ∃ k ∈ keysOf row, k ∉ header_tokens db fs)
    (hc : fs.creatable (tmp_path db) = true) :
    (add_data_row db row fs).1 = EXIT_SUCCESS ∧
    (add_data_row db row fs).2.2 db.m_database_csv_filepath = some
      (file_of_lines
        (header_text db.m_delimiter (add_data_row db row fs).2.1.m_ordered_database_column_names
          :: ((lines_of (fs db.m_database_csv_filepath)).tail.filter (fun l => decide (l ≠ []))
          ++ [row_text db.m_delimiter row
              (add_data_row db row fs).2.1.m_ordered_database_column_names]))) := by
  set db0 : JsonCsvDatabase := { db with m_database_blueprint := [] } with hdb0
  have htok : header_tokens db0 fs = header_tokens db fs := rfl
  obtain ⟨c1, c2, c3, c4⟩ := get_existing_blueprint_config db0 fs
  have hne : (get_existing_blueprint_from_csv db0 fs).1 ≠ EXIT_FAILURE := by
    intro e
    obtain ⟨t, ht, hnz⟩ := (get_existing_blueprint_status db0 fs).mp e
    exact hnz (hz t (htok ▸ ht))
  have hkeys := get_existing_blueprint_keys db0 fs rfl (by rw [htok]; exact hz)
  have hflag : (add_missing_loop row
      (get_existing_blueprint_from_csv db0 fs).2.m_database_blueprint false).2 = true := by
    apply add_missing_loop_flag
    obtain ⟨k, hk, hn⟩ := hnew
    exact ⟨k, hk, fun hmem => hn (htok ▸ (hkeys k).mp hmem)⟩
  unfold add_data_row
  simp only [← hdb0, hne, if_false]
  unfold add_missing_columns_to_database_blueprint
  simp only [hflag, if_true]
  refine ⟨trivial, ?_⟩
  set db2 := sort_database_blueprint
    { (get_existing_blueprint_from_csv db0 fs).2 with
      m_database_blueprint := (add_missing_loop row
        (get_existing_blueprint_from_csv db0 fs).2.m_database_blueprint false).1 } with hdb2
  have hpath : db2.m_database_csv_filepath = db.m_database_csv_filepath := by
    simp [hdb2, sort_database_blueprint, c1, hdb0]
  have hdel : db2.m_delimiter = db.m_delimiter := by
    simp [hdb2, sort_database_blueprint, c2, hdb0]
  have htmp : tmp_path db2 = tmp_path db := by
    unfold tmp_path; rw [hpath]
  have hfile := create_csv_headings_file db2 fs (by rw [htmp]; exact hc)
  rw [hpath] at hfile
  have hop := ofstream_is_open_of_file _ _ _ hfile
  simp only [hpath, hop, fsWrite, if_true, hfile, append_to, hdel, copy_data_section_true]
  simp [file_of_lines, file_of_lines_append]

/-! ## The first write -/

theorem mapAt_of_mem {β : Type} (m : StdMap β) (hnd : (keysOf m).Nodup) :
    ∀ e ∈ m, mapAt m e.1 = some e.2 := by
  induction m with
  | nil => intro e he; simp at he
  | cons x xs ih =>
    obtain ⟨k1, v1⟩ := x
    have hnd2 : k1 ∉ keysOf xs ∧ (keysOf xs).Nodup := List.nodup_cons.mp hnd
    intro e he
    rcases List.mem_cons.mp he with h | h
    · rw [h]; simp [mapAt]
    · have hk : k1 ≠ e.1 := by
        intro heq
        apply hnd2.1
        rw [heq]
        exact List.mem_map_of_mem Prod.fst h
      simp only [mapAt, hk, if_false]
      exact ih hnd2.2 e h

theorem mapCount_ne_zero_of_mapAt {β : Type} (m : StdMap β) (k : CppString) (v : β)
    (h : mapAt m k = some v) : mapCount m k ≠ 0 := by
  rw [mapCount_ne_zero_iff]
  by_contra hc
  rw [(mapAt_eq_none_iff m k).mpr hc] at h
  exact Option.noConfusion h

theorem row_text_entries (d : Char) (row : StdMap Int) (es : StdMap Int)
    (h : ∀ e ∈ es, mapAt row e.1 = some e.2) :
    row_text d row (keysOf es) = values_text d es := by
  induction es with
  | nil => rfl
  | cons x xs ih =>
    obtain ⟨k1, v1⟩ := x
    have hx : mapAt row k1 = some v1 := h (k1, v1) (List.mem_cons_self _ _)
    have hc := mapCount_ne_zero_of_mapAt row k1 v1 hx
    have ih2 := ih (fun e he => h e (List.mem_cons_of_mem _ he))
    show row_text d row (k1 :: keysOf xs) = _
    simp only [row_text, hc, if_false, hx, Option.getD_some, values_text, ih2]

theorem row_text_own_keys (d : Char) (row : StdMap Int) (hnd : (keysOf row).Nodup) :
    row_text d row (keysOf row) = values_text d row :=
  row_text_entries d row row (mapAt_of_mem row hnd)

theorem newColumns_nil (row : StdMap Int) : newColumns row [] = keysOf row := by
  simp [newColumns]

theorem keysOf_ne_nil {β : Type} (m : StdMap β) (h : m ≠ []) : keysOf m ≠ [] := by
  cases m with
  | nil => exact absurd rfl h
  | cons x xs => simp [keysOf]

/-- The first write: on a disk without the database file, a non-empty row creates the
file with its column names as header and its values as the only data line. -/
theorem add_data_row_missing_file (db : JsonCsvDatabase) (row : StdMap Int) (fs : FileSystem)
    (hmissing : fs db.m_database_csv_filepath = none) (hne : row ≠ [])
    (hnd : (keysOf row).Nodup) (hc : fs.creatable (tmp_path db) = true) :
    (add_data_row db row fs).1 = EXIT_SUCCESS ∧
    (add_data_row db row fs).2.1.m_ordered_database_column_names = keysOf row ∧
    (add_data_row db row fs).2.2 db.m_database_csv_filepath = some
      (file_of_lines [header_text db.m_delimiter (keysOf row),
        row_text db.m_delimiter row (keysOf row)]) := by
  have htok : header_tokens db fs = [] := by
    unfold header_tokens; rw [hmissing]
  have hcols : columns_after db row fs = keysOf row := by
    unfold columns_after; rw [htok, newColumns_nil]; rfl
  obtain ⟨h1, h2, _, h4⟩ := add_data_row_ok db row fs (by rw [htok]; simp)
    (by rw [htok]; simp) hnd
  rw [htok, newColumns_nil, if_neg (keysOf_ne_nil row hne), hcols, hmissing] at h4
  rw [hcols] at h2
  refine ⟨h1, h2, ?_⟩
  rw [h4 (fun e => absurd e (keysOf_ne_nil row hne)) (fun _ => hc)]
  simp [lines_of, copy_data_section, file_of_lines]

/-! ## Reading back what `add_data_row` wrote -/

theorem extract_row_values_nil (d : Char) (p : Int) (n : Nat) :
    extract_row_values d p n [] = Except.ok (List.replicate n p) := by
  induction n with
  | zero => rfl
  | succ n ih => simp [extract_row_values, getline, ih, List.replicate_succ]

theorem extract_row_values_field (d : Char) (p : Int) (n : Nat) (field rest : CppString)
    (hfree : d ∉ field) :
    extract_row_values d p (n + 1) (field ++ d :: rest)
      = match (if field = [] then Except.ok p else stoi field) with
        | Except.error e => Except.error e
        | Except.ok value =>
          match extract_row_values d p n rest with
          | Except.error e => Except.error e
          | Except.ok values => Except.ok (value :: values) := by
  simp only [extract_row_values, getline_token d field rest hfree]

theorem mapAt_mem {β : Type} (m : StdMap β) (k : CppString) (v : β) (h : mapAt m k = some v) :
    (k, v) ∈ m := by
  induction m with
  | nil => simp [mapAt] at h
  | cons x xs ih =>
    obtain ⟨k1, v1⟩ := x
    by_cases hk : k1 = k
    · simp only [mapAt, hk, if_true, Option.some.injEq] at h
      rw [hk, h]; exact List.mem_cons_self _ _
    · simp only [mapAt, hk, if_false] at h
      exact List.mem_cons_of_mem _ (ih h)

theorem extract_row_text (d : Char) (p : Int) (row : StdMap Int) (hd1 : d ≠ '-')
    (hd2 : isdigit d = false) (hvals : ∀ e ∈ row, isInt32 e.2) (cols : List CppString) :
    ∀ n : Nat, extract_row_values d p (cols.length + n) (row_text d row cols)
      = Except.ok (cols.map (cell_of p row) ++ List.replicate n p) := by
  induction cols with
  | nil =>
    intro n
    simp only [List.length_nil, Nat.zero_add, row_text, List.map_nil, List.nil_append]
    exact extract_row_values_nil d p n
  | cons c cs ih =>
    intro n
    have hlen : (c :: cs).length + n = (cs.length + n) + 1 := by
      simp only [List.length_cons]; omega
    rw [hlen]
    by_cases hc : mapCount row c = 0
    · have hnone : mapAt row c = none :=
        (mapAt_eq_none_iff row c).mpr ((mapCount_eq_zero_iff row c).mp hc)
      have hrt : row_text d row (c :: cs) = [] ++ d :: row_text d row cs := by
        simp [row_text, hc]
      rw [hrt, extract_row_values_field d p _ [] _ (by simp), ih n]
      simp [cell_of, hnone]
    · cases hv : mapAt row c with
      | none =>
        exact absurd ((mapCount_eq_zero_iff row c).mpr ((mapAt_eq_none_iff row c).mp hv)) hc
      | some v =>
        have hint : isInt32 v := hvals (c, v) (mapAt_mem row c v hv)
        have hrt : row_text d row (c :: cs) = intToDecimal v ++ d :: row_text d row cs := by
          simp [row_text, hc, hv]
        rw [hrt, extract_row_values_field d p _ _ _ (not_mem_intToDecimal d v hd1 hd2), ih n]
        simp [cell_of, hv, intToDecimal_ne_nil, stoi_intToDecimal v hint]

theorem cell_of_absent (p : Int) (row : StdMap Int) (extra : List CppString)
    (h : ∀ c ∈ extra, c ∉ keysOf row) :
    extra.map (cell_of p row) = List.replicate extra.length p := by
  induction extra with
  | nil => rfl
  | cons c cs ih =>
    have hnone : mapAt row c = none :=
      (mapAt_eq_none_iff row c).mpr (h c (List.mem_cons_self _ _))
    simp only [List.map_cons, List.length_cons, List.replicate_succ, cell_of, hnone,
      Option.getD_none]
    rw [← ih (fun x hx => h x (List.mem_cons_of_mem _ hx))]

/-- The line written for a row reads back as the row. -/
theorem readsBack_row_text (d : Char) (p : Int) (row : StdMap Int) (cols : List CppString)
    (hd0 : d ≠ '\n') (hd1 : d ≠ '-') (hd2 : isdigit d = false)
    (hvals : ∀ e ∈ row, isInt32 e.2) (hcols : cols ≠ [])
    (hkeys : ∀ k ∈ keysOf row, k ∈ cols) :
    ReadsBack d p cols (row_text d row cols) row := by
  refine ⟨row_text_free '\n' d row cols (fun x => hd0 x.symm) (by decide) (by decide),
    row_text_ne_nil d row cols hcols, hkeys, ?_⟩
  intro extra hextra
  rw [List.length_append, extract_row_text d p row hd1 hd2 hvals cols extra.length,
    List.map_append, cell_of_absent p row extra hextra]

/-- A line that reads back keeps doing so when new columns are added. -/
theorem readsBack_extend (d : Char) (p : Int) (cols fresh : List CppString)
    (line : CppString) (row : StdMap Int) (hfresh : ∀ c ∈ fresh, c ∉ cols)
    (h : ReadsBack d p cols line row) : ReadsBack d p (cols ++ fresh) line row := by
  obtain ⟨h1, h2, h3, h4⟩ := h
  refine ⟨h1, h2, fun k hk => List.mem_append_left _ (h3 k hk), ?_⟩
  intro extra hextra
  rw [List.append_assoc]
  apply h4
  intro c hc
  rcases List.mem_append.mp hc with e | e
  · exact fun hk => hfresh c e (h3 c hk)
  · exact hextra c e

theorem push_row_map (cols : List CppString) (g : CppString → List Int) (h : CppString → Int) :
    push_row (cols.map g) (cols.map h) = cols.map (fun c => g c ++ [h c]) := by
  induction cols with
  | nil => rfl
  | cons c cs ih =>
    simp only [push_row, List.map_cons, List.zipWith_cons_cons] at ih ⊢
    rw [ih]

/-- Reading lines that read back as rows gives, per column, the cells of the rows. -/
theorem collect_rows_readsBack (d : Char) (p : Int) (cols : List CppString)
    (lines : List CppString) (rows : List (StdMap Int))
    (h : List.Forall₂ (ReadsBack d p cols) lines rows) :
    ∀ g : CppString → List Int,
      collect_rows d p cols (cols.map g) lines
        = Except.ok (cols, cols.map (fun c => g c ++ rows.map (fun r => cell_of p r c))) := by
  induction h with
  | nil => intro g; simp [collect_rows]
  | cons hhead _ ih =>
    intro g
    have hx := hhead.2.2.2 [] (by simp)
    simp only [List.append_nil] at hx
    simp only [collect_rows, hx, push_row_map, ih]
    simp

theorem mapAt_build_json (cols : List CppString) (F : CppString → List Int) :
    ∀ (members : StdMap (List Int)) (c : CppString),
      mapAt (build_json cols (cols.map F) members) c
        = if c ∈ cols then some (F c) else mapAt members c := by
  induction cols with
  | nil => intro members c; simp [build_json]
  | cons x xs ih =>
    intro members c
    simp only [List.map_cons, build_json, iterable2json, ih, mapAt_mapAssign, List.mem_cons]
    by_cases h1 : c ∈ xs
    · simp [h1]
    · by_cases h2 : c = x
      · simp [h1, h2]
      · simp [h1, h2]

/-! ## The state of the file along a sequence of writes -/

theorem add_data_row_config (db : JsonCsvDatabase) (row : StdMap Int) (fs : FileSystem) :
    (add_data_row db row fs).2.1.m_database_csv_filepath = db.m_database_csv_filepath ∧
    (add_data_row db row fs).2.1.m_delimiter = db.m_delimiter ∧
    (add_data_row db row fs).2.1.m_empty_value_placeholder = db.m_empty_value_placeholder := by
  obtain ⟨c1, c2, c3, _⟩ :=
    get_existing_blueprint_config { db with m_database_blueprint := [] } fs
  simp only at c1 c2 c3
  unfold add_data_row
  by_cases h : (get_existing_blueprint_from_csv { db with m_database_blueprint := [] } fs).1
      = EXIT_FAILURE
  · simp only [h, if_true]
    exact ⟨c1, c2, c3⟩
  · simp only [h, if_false]
    unfold add_missing_columns_to_database_blueprint
    by_cases hf : (add_missing_loop row
        (get_existing_blueprint_from_csv { db with m_database_blueprint := [] }
          fs).2.m_database_blueprint false).2 = true
    · simp only [hf, if_true, sort_database_blueprint]
      exact ⟨c1, c2, c3⟩
    · simp only [hf, sort_database_blueprint]
      exact ⟨c1, c2, c3⟩

theorem add_data_row_creatable (db : JsonCsvDatabase) (row : StdMap Int) (fs : FileSystem) :
    (add_data_row db row fs).2.2.creatable = fs.creatable := by
  unfold add_data_row
  by_cases h : (get_existing_blueprint_from_csv { db with m_database_blueprint := [] } fs).1
      = EXIT_FAILURE
  · simp only [h, if_true]
  · simp only [h, if_false]
    unfold add_missing_columns_to_database_blueprint
    by_cases hf : (add_missing_loop row
        (get_existing_blueprint_from_csv { db with m_database_blueprint := [] }
          fs).2.m_database_blueprint false).2 = true
    · simp only [hf, if_true]
      split
      · rw [fsWrite_creatable, create_csv_headings_creatable]
      · rw [create_csv_headings_creatable]
    · simp only [Bool.not_eq_true] at hf
      simp only [hf, Bool.false_eq_true, if_false]
      split
      · rw [fsWrite_creatable]
      · rfl

theorem forall₂_snoc {α β : Type} (R S : α → β → Prop) (xs : List α) (ys : List β)
    (x : α) (y : β) (himp : ∀ a b, R a b → S a b) (h : List.Forall₂ R xs ys) (hxy : S x y) :
    List.Forall₂ S (xs ++ [x]) (ys ++ [y]) := by
  induction h with
  | nil => exact List.Forall₂.cons hxy List.Forall₂.nil
  | cons hab _ ih => exact List.Forall₂.cons (himp _ _ hab) ih

theorem forall₂_left {α β : Type} (R : α → β → Prop) (P : α → Prop) (xs : List α)
    (ys : List β) (himp : ∀ a b, R a b → P a) (h : List.Forall₂ R xs ys) : ∀ a ∈ xs, P a := by
  induction h with
  | nil => intro a ha; simp at ha
  | cons hab _ ih =>
    intro a ha
    rcases List.mem_cons.mp ha with e | e
    · rw [e]; exact himp _ _ hab
    · exact ih a e

theorem header_tokens_of_state (db : JsonCsvDatabase) (fs : FileSystem) (p : Int)
    (cols lines : List CppString) (done : List (StdMap Int)) (hd0 : db.m_delimiter ≠ '\n')
    (hstate : RoundTripState db.m_delimiter p db.m_database_csv_filepath fs cols lines done) :
    header_tokens db fs = cols ∧
    lines_of (fs db.m_database_csv_filepath) = header_text db.m_delimiter cols :: lines := by
  obtain ⟨s1, _, _, s4, _, s6⟩ := hstate
  have hfree : '\n' ∉ header_text db.m_delimiter cols :=
    header_text_free '\n' _ _ (fun x => hd0 x.symm) (fun c hc => (s4 c hc).2.2.1)
  constructor
  · unfold header_tokens
    rw [s1]
    simp only [file_of_lines]
    rw [first_line_of_line _ _ hfree]
    exact getlineAll_header_text _ _ (fun c hc => (s4 c hc).2.1) (fun c hc => (s4 c hc).1)
  · rw [s1]
    apply getlineAll_file_of_lines
    intro l hl
    rcases List.mem_cons.mp hl with e | e
    · rw [e]; exact hfree
    · exact forall₂_left _ (fun l => '\n' ∉ l) lines done (fun a b hab => hab.1) s6 l e

theorem validRow_keys (d : Char) (row : StdMap Int) (h : ValidRow d row) :
    (keysOf row).Nodup ∧ (∀ k ∈ keysOf row, ValidName d k) ∧ ∀ e ∈ row, isInt32 e.2 := by
  refine ⟨wellFormed_nodup row h.1, ?_, fun e he => (h.2 e he).1⟩
  intro k hk
  obtain ⟨e, he, hke⟩ := List.mem_map.mp hk
  rw [← hke]
  exact (h.2 e he).2

theorem newColumns_props (row : StdMap Int) (cols : List CppString)
    (hnd : (keysOf row).Nodup) :
    (newColumns row cols).Nodup ∧ (∀ c ∈ newColumns row cols, c ∈ keysOf row ∧ c ∉ cols) ∧
    ∀ k ∈ keysOf row, k ∈ cols ++ newColumns row cols := by
  unfold newColumns
  refine ⟨hnd.filter _, ?_, ?_⟩
  · intro c hc
    have := List.mem_filter.mp hc
    exact ⟨this.1, by simpa using this.2⟩
  · intro k hk
    by_cases h : k ∈ cols
    · exact List.mem_append_left _ h
    · exact List.mem_append_right _ (List.mem_filter.mpr ⟨hk, by simpa using h⟩)

/-- The first write of a sequence: a non-empty valid row on a missing file. -/
theorem roundTrip_first (db : JsonCsvDatabase) (row : StdMap Int) (fs : FileSystem) (p : Int)
    (hmissing : fs db.m_database_csv_filepath = none) (hne : row ≠ [])
    (hrow : ValidRow db.m_delimiter row) (hd0 : db.m_delimiter ≠ '\n')
    (hd1 : db.m_delimiter ≠ '-') (hd2 : isdigit db.m_delimiter = false)
    (hc : fs.creatable (tmp_path db) = true) :
    (add_data_row db row fs).1 = EXIT_SUCCESS ∧
    RoundTripState db.m_delimiter p db.m_database_csv_filepath (add_data_row db row fs).2.2
      (keysOf row) [row_text db.m_delimiter row (keysOf row)] [row] := by
  obtain ⟨k1, k2, k3⟩ := validRow_keys _ row hrow
  obtain ⟨h1, _, h3⟩ := add_data_row_missing_file db row fs hmissing hne k1 hc
  refine ⟨h1, h3, keysOf_ne_nil row hne, k1, k2, ?_, ?_⟩
  · intro c; simp
  · exact List.Forall₂.cons
      (readsBack_row_text _ p row _ hd0 hd1 hd2 k3 (keysOf_ne_nil row hne) (fun k hk => hk))
      List.Forall₂.nil

/-- A later write of a sequence: the state is carried over to the longer sequence. -/
theorem roundTrip_step (db : JsonCsvDatabase) (row : StdMap Int) (fs : FileSystem) (p : Int)
    (cols lines : List CppString) (done : List (StdMap Int))
    (hstate : RoundTripState db.m_delimiter p db.m_database_csv_filepath fs cols lines done)
    (hrow : ValidRow db.m_delimiter row) (hd0 : db.m_delimiter ≠ '\n')
    (hd1 : db.m_delimiter ≠ '-') (hd2 : isdigit db.m_delimiter = false)
    (hc : fs.creatable (tmp_path db) = true) :
    (add_data_row db row fs).1 = EXIT_SUCCESS ∧
    RoundTripState db.m_delimiter p db.m_database_csv_filepath (add_data_row db row fs).2.2
      (cols ++ newColumns row cols)
      (lines ++ [row_text db.m_delimiter row (cols ++ newColumns row cols)]) (done ++ [row]) := by
  obtain ⟨k1, k2, k3⟩ := validRow_keys _ row hrow
  obtain ⟨t1, t2⟩ := header_tokens_of_state db fs p cols lines done hd0 hstate
  obtain ⟨s1, s2, s3, s4, s5, s6⟩ := hstate
  obtain ⟨n1, n2, n3⟩ := newColumns_props row cols k1
  have hcols : columns_after db row fs = cols ++ newColumns row cols := by
    unfold columns_after; rw [t1]
  obtain ⟨h1, _, _, h4⟩ := add_data_row_ok db row fs
    (by rw [t1]; exact fun t ht => (s4 t ht).2.2.2) (by rw [t1]; exact s3) k1
  have h4 := h4 (fun _ => ofstream_is_open_of_file fs _ _ s1) (fun _ => hc)
  rw [t1, hcols, t2] at h4
  have hne : cols ++ newColumns row cols ≠ [] := by
    intro e; exact s2 (List.append_eq_nil.mp e).1
  have hkeep : lines.filter (fun l => decide (l ≠ [])) = lines := by
    apply List.filter_eq_self.mpr
    intro l hl
    have := forall₂_left _ (fun l => l ≠ []) lines done (fun a b hab => hab.2.1) s6 l hl
    simpa using this
  refine ⟨h1, ?_, hne, ?_, ?_, ?_, ?_⟩
  · rw [h4]
    by_cases hnew : newColumns row cols = []
    · simp [hnew, s1, append_to, file_of_lines, file_of_lines_append]
    · rw [if_neg hnew, copy_data_section_true, List.tail_cons, hkeep]
      simp [file_of_lines, file_of_lines_append]
  · exact List.Nodup.append s3 n1 (fun c hc hn => (n2 c hn).2 hc)
  · intro c hc
    rcases List.mem_append.mp hc with e | e
    · exact s4 c e
    · exact k2 c (n2 c e).1
  · intro c
    constructor
    · intro hc
      rcases List.mem_append.mp hc with e | e
      · obtain ⟨r, hr, hcr⟩ := (s5 c).mp e
        exact ⟨r, List.mem_append_left _ hr, hcr⟩
      · exact ⟨row, by simp, (n2 c e).1⟩
    · rintro ⟨r, hr, hcr⟩
      rcases List.mem_append.mp hr with e | e
      · exact List.mem_append_left _ ((s5 c).mpr ⟨r, e, hcr⟩)
      · rw [List.mem_singleton.mp e] at hcr
        exact n3 c hcr
  · exact forall₂_snoc _ _ lines done _ row
      (fun a b hab => readsBack_extend _ p cols _ a b (fun c hc => (n2 c hc).2) hab) s6
      (readsBack_row_text _ p row _ hd0 hd1 hd2 k3 hne n3)

/-! ## A sequence of writes, then a full read -/

theorem add_data_rows_state (d : Char) (p : Int) (path : CppString)
    (hd0 : d ≠ '\n') (hd1 : d ≠ '-') (hd2 : isdigit d = false) (rows : List (StdMap Int)) :
    ∀ (db : JsonCsvDatabase) (fs : FileSystem) (cols lines : List CppString)
      (done : List (StdMap Int)),
      db.m_delimiter = d → db.m_database_csv_filepath = path →
      fs.creatable (path ++ ['.', 't', 'm', 'p']) = true →
      RoundTripState d p path fs cols lines done → (∀ r ∈ rows, ValidRow d r) →
      (∀ st ∈ (add_data_rows db fs rows).1, st = EXIT_SUCCESS) ∧
      (add_data_rows db fs rows).1.length = rows.length ∧
      (add_data_rows db fs rows).2.1.m_delimiter = d ∧
      (add_data_rows db fs rows).2.1.m_database_csv_filepath = path ∧
      (add_data_rows db fs rows).2.1.m_empty_value_placeholder = db.m_empty_value_placeholder ∧
      ∃ cols2 lines2,
        RoundTripState d p path (add_data_rows db fs rows).2.2 cols2 lines2 (done ++ rows) := by
  induction rows with
  | nil =>
    intro db fs cols lines done hdel hpath _ hstate _
    refine ⟨by simp [add_data_rows], rfl, hdel, hpath, rfl, cols, lines, ?_⟩
    simpa [add_data_rows] using hstate
  | cons row rest ih =>
    intro db fs cols lines done hdel hpath hc hstate hvalid
    obtain ⟨c1, c2, c3⟩ := add_data_row_config db row fs
    have hc2 : fs.creatable (tmp_path db) = true := by
      unfold tmp_path; rw [hpath]; exact hc
    have hrow : ValidRow db.m_delimiter row := by
      rw [hdel]; exact hvalid row (List.mem_cons_self _ _)
    have hstep := roundTrip_step db row fs p cols lines done
      (by rw [hdel, hpath]; exact hstate) hrow (by rw [hdel]; exact hd0)
      (by rw [hdel]; exact hd1) (by rw [hdel]; exact hd2) hc2
    rw [hdel, hpath] at hstep
    obtain ⟨h1, h2⟩ := hstep
    obtain ⟨i1, i2, i3, i4, i5, cols2, lines2, i6⟩ :=
      ih (add_data_row db row fs).2.1 (add_data_row db row fs).2.2 _ _ (done ++ [row])
        (by rw [c2, hdel]) (by rw [c1, hpath]) (by rw [add_data_row_creatable]; exact hc) h2
        (fun r hr => hvalid r (List.mem_cons_of_mem _ hr))
    refine ⟨?_, ?_, i3, i4, i5.trans c3, cols2, lines2, ?_⟩
    · intro st hst
      simp only [add_data_rows, List.mem_cons] at hst
      rcases hst with e | e
      · rw [e]; exact h1
      · exact i1 st e
    · simp only [add_data_rows, List.length_cons, i2]
    · simpa [add_data_rows] using i6

/-- The full read of a file in a round-trip state: one column per name, holding the
cells of the rows. -/
theorem load_of_state (db : JsonCsvDatabase) (fs : FileSystem) (data : JsonValue)
    (cols lines : List CppString) (rows : List (StdMap Int)) (hd0 : db.m_delimiter ≠ '\n')
    (hstate : RoundTripState db.m_delimiter db.m_empty_value_placeholder
      db.m_database_csv_filepath fs cols lines rows) :
    load_data_rows db fs data 0 0 []
      = LoadOutcome.returned EXIT_SUCCESS (JsonValue.objectValue
          (build_json cols
            (cols.map (fun c => rows.map (fun r => cell_of db.m_empty_value_placeholder r c)))
            [])) := by
  obtain ⟨t1, t2⟩ := header_tokens_of_state db fs _ cols lines rows hd0 hstate
  obtain ⟨s1, _, _, s4, _, s6⟩ := hstate
  have hlines : getlineAll '\n' (file_of_lines (header_text db.m_delimiter cols :: lines))
      = header_text db.m_delimiter cols :: lines := by
    rw [s1] at t2; exact t2
  have hw : wrapInt32 (0 + 1) = 1 := by decide
  rw [load_data_rows_window db fs data 0 0 [] _ _ lines (by simpa using s1) hlines, hw,
    if_pos rfl, rows_between_all _ _ _ (by decide)]
  unfold table_of_lines
  rw [getlineAll_header_text _ _ (fun c hc => (s4 c hc).2.1) (fun c hc => (s4 c hc).1),
    collect_rows_readsBack _ _ cols lines rows s6 (fun _ => [])]
  simp

/-! ## The header along successive writes to an existing file -/

theorem mem_numbered (cols : List CppString) :
    ∀ (k i : Nat) (name : CppString), cols[i]? = some name → (name, k + i) ∈ numbered k cols := by
  induction cols with
  | nil => intro k i name h; simp at h
  | cons c cs ih =>
    intro k i name h
    cases i with
    | zero =>
      simp only [List.getElem?_cons_zero, Option.some.injEq] at h
      rw [← h]; exact List.mem_cons_self _ _
    | succ j =>
      simp only [List.getElem?_cons_succ] at h
      have := ih (k + 1) j name h
      have e : k + (j + 1) = k + 1 + j := by omega
      rw [e]
      exact List.mem_cons_of_mem _ this

theorem mapAt_of_perm_numbered (bp : StdMap Nat) (front back : List CppString)
    (hp : List.Perm bp (numbered 0 (front ++ back))) (hnd : (front ++ back).Nodup) :
    (∀ i name, front[i]? = some name → mapAt bp name = some i) ∧
    (∀ j name, back[j]? = some name → mapAt bp name = some (front.length + j)) := by
  have hkeys : (keysOf bp).Nodup := by
    have : List.Perm (keysOf bp) (front ++ back) := by
      have := hp.map Prod.fst
      rw [show (numbered 0 (front ++ back)).map Prod.fst = front ++ back from numbered_keys 0 _]
        at this
      exact this
    exact this.nodup_iff.mpr hnd
  have hall := mapAt_of_mem bp hkeys
  rw [numbered_append, Nat.zero_add] at hp
  constructor
  · intro i name h
    have hm := mem_numbered front 0 i name h
    rw [Nat.zero_add] at hm
    exact hall (name, i) (hp.mem_iff.mpr (List.mem_append_left _ hm))
  · intro j name h
    have hm := mem_numbered back (0 + front.length) j name h
    rw [Nat.zero_add] at hm
    exact hall (name, front.length + j) (hp.mem_iff.mpr (List.mem_append_right _ hm))

theorem load_data_rows_scanned (db : JsonCsvDatabase) (fs : FileSystem) (data : JsonValue)
    (first_row last_row : Int) (alt content header : CppString) (rows : List CppString)
    (hfile : fs (path_to_read db alt) = some content)
    (hlines : getlineAll '\n' content = header :: rows) :
    load_data_rows db fs data first_row last_row alt
      = table_of_lines db.m_delimiter db.m_empty_value_placeholder header
          (scanned_rows first_row last_row rows) :=
  load_data_rows_window db fs data first_row last_row alt content header rows hfile hlines

theorem load_data_rows_no_lines (db : JsonCsvDatabase) (fs : FileSystem) (data : JsonValue)
    (first_row last_row : Int) (alt content : CppString)
    (hfile : fs (path_to_read db alt) = some content) (hlines : getlineAll '\n' content = []) :
    load_data_rows db fs data first_row last_row alt
      = LoadOutcome.returned EXIT_SUCCESS (JsonValue.objectValue []) := by
  unfold path_to_read at hfile
  unfold load_data_rows
  simp only [hfile, hlines, scan_lines, build_json]

theorem load_data_rows_missing (db : JsonCsvDatabase) (fs : FileSystem) (data : JsonValue)
    (first_row last_row : Int) (alt : CppString) (hfile : fs (path_to_read db alt) = none) :
    load_data_rows db fs data first_row last_row alt
      = LoadOutcome.returned EXIT_FAILURE data := by
  unfold path_to_read at hfile
  unfold load_data_rows
  simp only [hfile]

theorem rows_between_lower (lo1 lo2 : Int) (hi : Option Int) (rows : List CppString) :
    ∀ start : Int, lo1 ≤ start → lo2 ≤ start →
      rows_between lo1 hi start rows = rows_between lo2 hi start rows := by
  induction rows with
  | nil => intro start _ _; rfl
  | cons r rs ih =>
    intro start h1 h2
    have hw : in_window lo1 hi start = in_window lo2 hi start := by
      cases hi with
      | none => simp [in_window, h1, h2]
      | some h => simp [in_window, h1, h2]
    simp only [rows_between, hw, ih (start + 1) (by omega) (by omega)]

/-- A window with an upper bound `hi` holds the rows of the window without upper bound
among the rows of index at most `hi`: no row behind them. -/
theorem rows_between_take (lo hi : Int) (rows : List CppString) :
    ∀ start : Int, rows_between lo (some hi) start rows
      = rows_between lo none start (rows.take (hi + 1 - start).toNat) := by
  induction rows with
  | nil => intro start; simp [rows_between]
  | cons r rs ih =>
    intro start
    by_cases h : start ≤ hi
    · have hn : (hi + 1 - start).toNat = (hi + 1 - (start + 1)).toNat + 1 := by omega
      have hw : in_window lo (some hi) start = in_window lo none start := by
        simp [in_window, h]
      rw [hn, List.take_succ_cons]
      simp only [rows_between, hw, ih (start + 1)]
    · have hn : (hi + 1 - start).toNat = 0 := by omega
      rw [hn, List.take_zero, rows_between_none_of_gt lo hi start _ (by omega)]
      rfl

/-! ## A write depends on the object through its path and delimiter only -/

/-- Any store writes like the bare store of its path and delimiter: same status, same
disk afterwards, same blueprint, and after a success the same ordered column list. -/
theorem add_data_row_bare (db : JsonCsvDatabase) (row : StdMap Int) (fs : FileSystem) :
    (add_data_row db row fs).1
      = (add_data_row (bare_store db.m_database_csv_filepath db.m_delimiter) row fs).1 ∧
    (add_data_row db row fs).2.2
      = (add_data_row (bare_store db.m_database_csv_filepath db.m_delimiter) row fs).2.2 ∧
    (add_data_row db row fs).2.1.m_database_blueprint
      = (add_data_row (bare_store db.m_database_csv_filepath db.m_delimiter) row
          fs).2.1.m_database_blueprint ∧
    ((add_data_row db row fs).1 = EXIT_SUCCESS →
      (add_data_row db row fs).2.1.m_ordered_database_column_names
        = (add_data_row (bare_store db.m_database_csv_filepath db.m_delimiter) row
            fs).2.1.m_ordered_database_column_names) := by
  have hne : ¬ ((EXIT_FAILURE : Int) = EXIT_SUCCESS) := by decide
  unfold add_data_row get_existing_blueprint_from_csv bare_store JsonCsvDatabase.new
  simp only
  cases fs db.m_database_csv_filepath with
  | none =>
    simp only
    have h : ¬ ((EXIT_SUCCESS : Int) = EXIT_FAILURE) := by decide
    simp only [h, if_false]
    unfold add_missing_columns_to_database_blueprint
    simp only
    split
    · refine ⟨?_, ?_, ?_, ?_⟩ <;> first | rfl | trivial | (intro _; rfl)
    · refine ⟨?_, ?_, ?_, ?_⟩ <;> first | rfl | trivial | (intro _; rfl)
  | some content =>
    simp only
    split
    · refine ⟨?_, ?_, ?_, ?_⟩ <;> first | rfl | trivial | (intro h; exact absurd h hne)
    · unfold add_missing_columns_to_database_blueprint
      simp only
      split
      · refine ⟨?_, ?_, ?_, ?_⟩ <;> first | rfl | trivial | (intro _; rfl)
      · refine ⟨?_, ?_, ?_, ?_⟩ <;> first | rfl | trivial | (intro _; rfl)

/-! ## Writes seen from the appended line -/

theorem numbered_getElem (cols : List CppString) :
    ∀ (k j : Nat) (name : CppString), (name, j) ∈ numbered k cols →
      k ≤ j ∧ cols[j - k]? = some name := by
  induction cols with
  | nil => intro k j name h; simp [numbered] at h
  | cons c cs ih =>
    intro k j name h
    simp only [numbered, List.mem_cons, Prod.mk.injEq] at h
    rcases h with ⟨h1, h2⟩ | h
    · subst h1 h2; simp
    · obtain ⟨h1, h2⟩ := ih (k + 1) j name h
      refine ⟨by omega, ?_⟩
      have : j - k = (j - (k + 1)) + 1 := by omega
      rw [this, List.getElem?_cons_succ]
      exact h2

/-! ## The cells of a line, field by field -/

theorem extract_row_values_fields (d : Char) (p : Int) :
    ∀ (n : Nat) (ss : CppString),
      extract_row_values d p n ss = cells_from_fields p n (getlineAll d ss) := by
  intro n
  induction n with
  | zero => intro ss; rfl
  | succ n ih =>
    intro ss
    cases hg : getline d ss with
    | none =>
      have hall : getlineAll d ss = [] := by rw [getlineAll_unfold, hg]
      have ih2 := ih ss
      rw [hall] at ih2
      simp only [extract_row_values, hg, hall, cells_from_fields, read_cell, List.headD_nil,
        List.tail_nil, ih2]
    | some r =>
      obtain ⟨tok, rest⟩ := r
      have hall : getlineAll d ss = tok :: getlineAll d rest := by
        rw [getlineAll_unfold, hg]
      simp only [extract_row_values, hg, hall, cells_from_fields, read_cell, List.headD_cons,
        List.tail_cons, ih rest]

theorem getD_tail_fields (fields : List CppString) (i : Nat) :
    fields.tail.getD i [] = fields.getD (i + 1) [] := by
  cases fields with
  | nil => simp
  | cons x xs => simp

theorem headD_fields (fields : List CppString) : fields.headD [] = fields.getD 0 [] := by
  cases fields with
  | nil => simp
  | cons x xs => simp

theorem cells_from_fields_ok (p : Int) :
    ∀ (n : Nat) (fields : List CppString) (cells : List Int),
      cells_from_fields p n fields = Except.ok cells →
      cells.length = n ∧
        ∀ i, i < n → ∃ v, cells[i]? = some v ∧ read_cell p (fields.getD i []) = Except.ok v := by
  intro n
  induction n with
  | zero =>
    intro fields cells h
    simp only [cells_from_fields, Except.ok.injEq] at h
    subst h
    exact ⟨rfl, fun i hi => absurd hi (Nat.not_lt_zero i)⟩
  | succ n ih =>
    intro fields cells h
    simp only [cells_from_fields] at h
    cases hr : read_cell p (fields.headD []) with
    | error e => rw [hr] at h; exact Except.noConfusion h
    | ok value =>
      rw [hr] at h
      cases hc : cells_from_fields p n fields.tail with
      | error e => rw [hc] at h; exact Except.noConfusion h
      | ok values =>
        rw [hc] at h
        simp only [Except.ok.injEq] at h
        subst h
        obtain ⟨hlen, hcells⟩ := ih fields.tail values hc
        refine ⟨by simp [hlen], ?_⟩
        intro i hi
        cases i with
        | zero =>
          refine ⟨value, by simp, ?_⟩
          rw [← headD_fields]; exact hr
        | succ j =>
          obtain ⟨v, hv1, hv2⟩ := hcells j (by omega)
          refine ⟨v, by simpa using hv1, ?_⟩
          rw [← getD_tail_fields]; exact hv2

theorem cells_from_fields_error (p : Int) :
    ∀ (n : Nat) (fields : List CppString) (e : StoiException),
      cells_from_fields p n fields = Except.error e →
      ∃ i, i < n ∧ read_cell p (fields.getD i []) = Except.error e := by
  intro n
  induction n with
  | zero => intro fields e h; simp [cells_from_fields] at h
  | succ n ih =>
    intro fields e h
    simp only [cells_from_fields] at h
    cases hr : read_cell p (fields.headD []) with
    | error e2 =>
      rw [hr] at h
      simp only [Except.error.injEq] at h
      subst h
      exact ⟨0, by omega, by rw [← headD_fields]; exact hr⟩
    | ok value =>
      rw [hr] at h
      cases hc : cells_from_fields p n fields.tail with
      | error e2 =>
        rw [hc] at h
        simp only [Except.error.injEq] at h
        subst h
        obtain ⟨i, hi, hbad⟩ := ih fields.tail e2 hc
        exact ⟨i + 1, by omega, by rw [← getD_tail_fields]; exact hbad⟩
      | ok values => rw [hc] at h; exact Except.noConfusion h

theorem cells_from_fields_total (p : Int) (n : Nat) (fields : List CppString)
    (h : ∀ i, i < n → ∃ v, read_cell p (fields.getD i []) = Except.ok v) :
    ∃ cells, cells_from_fields p n fields = Except.ok cells := by
  cases hc : cells_from_fields p n fields with
  | ok cells => exact ⟨cells, rfl⟩
  | error e =>
    obtain ⟨i, hi, hbad⟩ := cells_from_fields_error p n fields e hc
    obtain ⟨v, hv⟩ := h i hi
    rw [hv] at hbad
    exact Except.noConfusion hbad

theorem read_cell_blank (p : Int) (fields : List CppString) (i : Nat)
    (h : fields[i]? = none ∨ fields[i]? = some []) :
    read_cell p (fields.getD i []) = Except.ok p := by
  have : fields.getD i [] = [] := by
    rw [List.getD_eq_getElem?_getD]
    rcases h with h | h <;> rw [h] <;> rfl
  rw [this]; rfl

theorem read_cell_field (p : Int) (fields : List CppString) (i : Nat) (tok : CppString)
    (h : fields[i]? = some tok) (hne : tok ≠ []) :
    read_cell p (fields.getD i []) = stoi tok := by
  have : fields.getD i [] = tok := by
    rw [List.getD_eq_getElem?_getD, h]; rfl
  rw [this]
  unfold read_cell
  rw [if_neg hne]

/-! ## The columns after a run of data lines -/

theorem push_row_getElem (values : List (List Int)) (cells : List Int) (i : Nat) :
    (push_row values cells)[i]? =
      (values[i]?).bind (fun column => (cells[i]?).map (fun cell => column ++ [cell])) := by
  unfold push_row
  rw [List.getElem?_zipWith]
  cases values[i]? <;> cases cells[i]? <;> rfl

theorem push_row_length (values : List (List Int)) (cells : List Int)
    (h : cells.length = values.length) : (push_row values cells).length = values.length := by
  unfold push_row
  rw [List.length_zipWith, h]
  exact Nat.min_self _

/-- The rows `cellss`, each of as many cells as there are columns, pushed one after the
other: column `i` grows by its cell of each row, in the order of the rows. -/
theorem foldl_push_row (n : Nat) (cellss : List (List Int)) :
    ∀ values : List (List Int), values.length = n → (∀ cells ∈ cellss, cells.length = n) →
      (cellss.foldl push_row values).length = n ∧
      ∀ (i : Nat) (column : List Int), (cellss.foldl push_row values)[i]? = some column →
        ∃ base added : List Int, values[i]? = some base ∧ column = base ++ added ∧
          added.length = cellss.length ∧
          ∀ (j : Nat) (cells : List Int), cellss[j]? = some cells → added[j]? = cells[i]? := by
  induction cellss with
  | nil =>
    intro values hv _
    refine ⟨hv, ?_⟩
    intro i column hcol
    refine ⟨column, [], hcol, by simp, rfl, ?_⟩
    intro j cells hj
    simp at hj
  | cons first rest ih =>
    intro values hv hall
    have hfirst : first.length = n := hall first (List.mem_cons_self _ _)
    have hrest : ∀ cells ∈ rest, cells.length = n :=
      fun cells hc => hall cells (List.mem_cons_of_mem _ hc)
    have hlen : (push_row values first).length = n := by
      rw [push_row_length values first (by rw [hfirst, hv]), hv]
    obtain ⟨h1, h2⟩ := ih (push_row values first) hlen hrest
    rw [List.foldl_cons]
    refine ⟨h1, ?_⟩
    intro i column hcol
    obtain ⟨mid, added, hmid, hsplit, hmlen, hmcells⟩ := h2 i column hcol
    rw [push_row_getElem] at hmid
    cases hb : values[i]? with
    | none => rw [hb] at hmid; simp at hmid
    | some base =>
      cases hc : first[i]? with
      | none => rw [hb, hc] at hmid; simp at hmid
      | some cell =>
        rw [hb, hc] at hmid
        simp only [Option.some_bind, Option.map_some', Option.some.injEq] at hmid
        subst hmid
        refine ⟨base, cell :: added, rfl, by rw [hsplit]; simp, by simp [hmlen], ?_⟩
        intro j cells hj
        cases j with
        | zero =>
          simp only [List.getElem?_cons_zero, Option.some.injEq] at hj
          subst hj
          rw [hc]; simp
        | succ k =>
          have := hmcells k cells (by simpa using hj)
          simpa using this

theorem collect_rows_ok (d : Char) (p : Int) (names : List CppString) (rows : List CppString) :
    ∀ (values : List (List Int)) (r : List CppString × List (List Int)),
      collect_rows d p names values rows = Except.ok r →
      r.1 = names ∧ ∃ cellss : List (List Int),
        List.Forall₂ (fun line cells =>
          extract_row_values d p names.length line = Except.ok cells) rows cellss ∧
        r.2 = cellss.foldl push_row values := by
  induction rows with
  | nil =>
    intro values r h
    simp only [collect_rows, Except.ok.injEq] at h
    subst h
    exact ⟨rfl, [], List.Forall₂.nil, rfl⟩
  | cons line rest ih =>
    intro values r h
    simp only [collect_rows] at h
    cases hx : extract_row_values d p names.length line with
    | error e => rw [hx] at h; exact Except.noConfusion h
    | ok cells =>
      rw [hx] at h
      obtain ⟨h1, cellss, h2, h3⟩ := ih (push_row values cells) r h
      exact ⟨h1, cells :: cellss, List.Forall₂.cons hx h2, by rw [h3]; rfl⟩

theorem collect_rows_error (d : Char) (p : Int) (names : List CppString) (rows : List CppString) :
    ∀ (values : List (List Int)) (e : StoiException),
      collect_rows d p names values rows = Except.error e →
      ∃ line ∈ rows, extract_row_values d p names.length line = Except.error e := by
  induction rows with
  | nil => intro values e h; simp [collect_rows] at h
  | cons line rest ih =>
    intro values e h
    simp only [collect_rows] at h
    cases hx : extract_row_values d p names.length line with
    | error e2 =>
      rw [hx] at h
      simp only [Except.error.injEq] at h
      subst h
      exact ⟨line, List.mem_cons_self _ _, hx⟩
    | ok cells =>
      rw [hx] at h
      obtain ⟨l2, hl2, hbad⟩ := ih (push_row values cells) e h
      exact ⟨l2, List.mem_cons_of_mem _ hl2, hbad⟩

/-- The first line that raises ends the reading: lines before it were read, and no line
behind it matters. -/
theorem collect_rows_raise (d : Char) (p : Int) (names : List CppString)
    (front : List CppString) (line : CppString) (back : List CppString) (e : StoiException)
    (hbad : extract_row_values d p names.length line = Except.error e) :
    ∀ values : List (List Int),
      ∃ e2, collect_rows d p names values (front ++ line :: back) = Except.error e2 := by
  induction front with
  | nil =>
    intro values
    exact ⟨e, by simp only [List.nil_append, collect_rows, hbad]⟩
  | cons x xs ih =>
    intro values
    simp only [List.cons_append, collect_rows]
    cases hx : extract_row_values d p names.length x with
    | error e2 => exact ⟨e2, rfl⟩
    | ok cells => exact ih (push_row values cells)

/-! ## `std::map` keeps its keys in order -/

theorem strLt_trans : ∀ a b c : CppString, strLt a b = true → strLt b c = true →
    strLt a c = true := by
  intro a
  induction a with
  | nil =>
    intro b c hab hbc
    cases b with
    | nil => simp [strLt] at hab
    | cons y ys =>
      cases c with
      | nil => simp [strLt] at hbc
      | cons z zs => rfl
  | cons x xs ih =>
    intro b c hab hbc
    cases b with
    | nil => simp [strLt] at hab
    | cons y ys =>
      cases c with
      | nil => simp [strLt] at hbc
      | cons z zs =>
        simp only [strLt, Bool.or_eq_true, Bool.and_eq_true, decide_eq_true_eq] at hab hbc ⊢
        rcases hab with h1 | ⟨h1, h2⟩
        · rcases hbc with h3 | ⟨h3, _⟩
          · left; omega
          · left; omega
        · rcases hbc with h3 | ⟨h3, h4⟩
          · left; omega
          · right; exact ⟨by omega, ih ys zs h2 h4⟩

theorem char_eq_of_toNat (a b : Char) (h : a.toNat = b.toNat) : a = b :=
  Char.ext (by simpa [Char.toNat] using UInt32.ext h)

theorem strLt_total : ∀ a b : CppString, a ≠ b → strLt a b = false → strLt b a = true := by
  intro a
  induction a with
  | nil =>
    intro b hne h
    cases b with
    | nil => exact absurd rfl hne
    | cons y ys => simp [strLt] at h
  | cons x xs ih =>
    intro b hne h
    cases b with
    | nil => rfl
    | cons y ys =>
      simp only [strLt, Bool.or_eq_false_iff, Bool.and_eq_false_iff, decide_eq_false_iff_not]
        at h
      simp only [strLt, Bool.or_eq_true, Bool.and_eq_true, decide_eq_true_eq]
      obtain ⟨h1, h2⟩ := h
      by_cases hxy : x.toNat = y.toNat
      · right
        refine ⟨hxy.symm, ?_⟩
        have hc : x = y := char_eq_of_toNat x y hxy
        have hne2 : xs ≠ ys := by
          intro e; apply hne; rw [hc, e]
        rcases h2 with h2 | h2
        · exact absurd hxy h2
        · exact ih ys hne2 h2
      · left; omega

theorem keysOf_mapAssign {β : Type} (m : StdMap β) (k : CppString) (v : β) :
    ∀ x, x ∈ keysOf (mapAssign m k v) ↔ x = k ∨ x ∈ keysOf m := by
  induction m with
  | nil =>
    intro x
    simp only [mapAssign, keysOf, List.map_cons, List.map_nil, List.mem_singleton,
      List.not_mem_nil, or_false]
  | cons e rest ih =>
    obtain ⟨k1, v1⟩ := e
    intro x
    by_cases h1 : k = k1
    · subst h1
      simp only [mapAssign, keysOf, if_true, List.map_cons, List.mem_cons]
      tauto
    · by_cases h2 : strLt k k1 = true
      · simp only [mapAssign, keysOf, h1, h2, if_true, if_false, List.map_cons, List.mem_cons]
      · have ih2 := ih x
        simp only [keysOf] at ih2
        have hf : strLt k k1 = false := by simpa using h2
        simp only [mapAssign, keysOf, h1, hf, if_false, Bool.false_eq_true, List.map_cons,
          List.mem_cons, ih2]
        tauto

theorem mapAssign_wellFormed {β : Type} (m : StdMap β) (k : CppString) (v : β)
    (h : StdMap.WellFormed m) : StdMap.WellFormed (mapAssign m k v) := by
  induction m with
  | nil => simp [mapAssign, StdMap.WellFormed]
  | cons e rest ih =>
    obtain ⟨k1, v1⟩ := e
    unfold StdMap.WellFormed at h ih ⊢
    simp only [List.map_cons, List.pairwise_cons] at h
    obtain ⟨hhead, htail⟩ := h
    by_cases h1 : k = k1
    · subst h1
      simp only [mapAssign, if_true, List.map_cons, List.pairwise_cons]
      exact ⟨hhead, htail⟩
    · by_cases h2 : strLt k k1 = true
      · simp only [mapAssign, h1, h2, if_true, if_false, List.map_cons, List.pairwise_cons]
        refine ⟨?_, hhead, htail⟩
        intro x hx
        rcases List.mem_cons.mp hx with hx | hx
        · rw [hx]; exact h2
        · exact strLt_trans k k1 x h2 (hhead x hx)
      · have hf : strLt k k1 = false := by simpa using h2
        simp only [mapAssign, h1, hf, if_false, Bool.false_eq_true, List.map_cons,
          List.pairwise_cons]
        refine ⟨?_, ih htail⟩
        intro x hx
        rcases (keysOf_mapAssign rest k v x).mp hx with hx | hx
        · rw [hx]
          exact strLt_total k k1 h1 hf
        · exact hhead x hx

/-! ## The object `load_data_rows` builds -/

theorem build_json_wellFormed (names : List CppString) :
    ∀ (columns : List (List Int)) (members : StdMap (List Int)),
      StdMap.WellFormed members → StdMap.WellFormed (build_json names columns members) := by
  induction names with
  | nil => intro columns members h; cases columns <;> exact h
  | cons name rest ih =>
    intro columns members h
    cases columns with
    | nil => exact h
    | cons column others =>
      exact ih others _ (mapAssign_wellFormed members name (iterable2json column) h)

theorem build_json_keys (names : List CppString) :
    ∀ (columns : List (List Int)) (members : StdMap (List Int)),
      names.length = columns.length →
      ∀ c, c ∈ keysOf (build_json names columns members) ↔ c ∈ names ∨ c ∈ keysOf members := by
  induction names with
  | nil =>
    intro columns members hlen c
    cases columns with
    | nil => simp [build_json]
    | cons column others => simp at hlen
  | cons name rest ih =>
    intro columns members hlen c
    cases columns with
    | nil => simp at hlen
    | cons column others =>
      simp only [List.length_cons, Nat.add_right_cancel_iff] at hlen
      simp only [build_json, ih others _ hlen c, keysOf_mapAssign, List.mem_cons]
      tauto

theorem mem_mapAssign {β : Type} (m : StdMap β) (k : CppString) (v : β) :
    ∀ e ∈ mapAssign m k v, e = (k, v) ∨ e ∈ m := by
  induction m with
  | nil =>
    intro e he
    simp only [mapAssign, List.mem_singleton] at he
    exact Or.inl he
  | cons x rest ih =>
    obtain ⟨k1, v1⟩ := x
    intro e he
    by_cases h1 : k = k1
    · simp only [mapAssign, h1, if_true, List.mem_cons] at he
      rcases he with he | he
      · left; rw [he, h1]
      · right; exact List.mem_cons_of_mem _ he
    · by_cases h2 : strLt k k1 = true
      · simp only [mapAssign, h1, h2, if_true, if_false, List.mem_cons] at he
        rcases he with he | he | he
        · exact Or.inl he
        · right; rw [he]; exact List.mem_cons_self _ _
        · right; exact List.mem_cons_of_mem _ he
      · have hf : strLt k k1 = false := by simpa using h2
        simp only [mapAssign, h1, hf, if_false, Bool.false_eq_true, List.mem_cons] at he
        rcases he with he | he
        · right; rw [he]; exact List.mem_cons_self _ _
        · rcases ih e he with h | h
          · exact Or.inl h
          · right; exact List.mem_cons_of_mem _ h

theorem build_json_absent (names : List CppString) :
    ∀ (columns : List (List Int)) (members : StdMap (List Int)) (c : CppString),
      c ∉ names → mapAt (build_json names columns members) c = mapAt members c := by
  induction names with
  | nil => intro columns members c _; cases columns <;> rfl
  | cons name rest ih =>
    intro columns members c hc
    cases columns with
    | nil => rfl
    | cons column others =>
      have h1 : c ≠ name := fun e => hc (by rw [e]; exact List.mem_cons_self _ _)
      have h2 : c ∉ rest := fun e => hc (List.mem_cons_of_mem _ e)
      simp only [build_json]
      rw [ih others _ c h2, mapAt_mapAssign, if_neg h1]

theorem build_json_values (names : List CppString) :
    ∀ (columns : List (List Int)) (members : StdMap (List Int)),
      ∀ e ∈ build_json names columns members, e ∈ members ∨ e.2 ∈ columns := by
  induction names with
  | nil =>
    intro columns members e he
    cases columns <;> exact Or.inl he
  | cons name rest ih =>
    intro columns members e he
    cases columns with
    | nil => exact Or.inl he
    | cons column others =>
      simp only [build_json] at he
      rcases ih others _ e he with h | h
      · rcases mem_mapAssign members name (iterable2json column) e h with h2 | h2
        · right; rw [h2]; exact List.mem_cons_self _ _
        · exact Or.inl h2
      · exact Or.inr (List.mem_cons_of_mem _ h)

theorem build_json_last (names : List CppString) :
    ∀ (columns : List (List Int)) (members : StdMap (List Int)) (i : Nat) (name : CppString),
      names.length = columns.length → names[i]? = some name → name ∉ names.drop (i + 1) →
      mapAt (build_json names columns members) name = columns[i]? := by
  induction names with
  | nil => intro columns members i name _ h; simp at h
  | cons first rest ih =>
    intro columns members i name hlen hi hlast
    cases columns with
    | nil => simp at hlen
    | cons column others =>
      simp only [List.length_cons, Nat.add_right_cancel_iff] at hlen
      cases i with
      | zero =>
        simp only [List.getElem?_cons_zero, Option.some.injEq] at hi
        subst hi
        have hnot : first ∉ rest := by simpa using hlast
        simp only [build_json, List.getElem?_cons_zero]
        rw [build_json_absent rest others _ first hnot, mapAt_mapAssign, if_pos rfl]
        rfl
      | succ j =>
        simp only [build_json, List.getElem?_cons_succ] at hi ⊢
        exact ih others _ j name hlen hi (by simpa using hlast)

/-! ## What a read returns, cell by cell -/

theorem forall2_getElem {α β : Type} (R : α → β → Prop) (xs : List α) (ys : List β)
    (h : List.Forall₂ R xs ys) :
    ∀ (j : Nat) (a : α), xs[j]? = some a → ∃ b, ys[j]? = some b ∧ R a b := by
  induction h with
  | nil => intro j a hj; simp at hj
  | cons hab _ ih =>
    intro j a hj
    cases j with
    | zero =>
      simp only [List.getElem?_cons_zero, Option.some.injEq] at hj
      subst hj
      exact ⟨_, by simp, hab⟩
    | succ k =>
      obtain ⟨b, hb, hr⟩ := ih k a (by simpa using hj)
      exact ⟨b, by simpa using hb, hr⟩

theorem forall2_mem_right {α β : Type} (R : α → β → Prop) (xs : List α) (ys : List β)
    (h : List.Forall₂ R xs ys) : ∀ b ∈ ys, ∃ a ∈ xs, R a b := by
  induction h with
  | nil => intro b hb; simp at hb
  | cons hab _ ih =>
    intro b hb
    rcases List.mem_cons.mp hb with hb | hb
    · rw [hb]; exact ⟨_, List.mem_cons_self _ _, hab⟩
    · obtain ⟨a, ha, hr⟩ := ih b hb
      exact ⟨a, List.mem_cons_of_mem _ ha, hr⟩

theorem load_data_rows_table (db : JsonCsvDatabase) (fs : FileSystem) (data : JsonValue)
    (first_row last_row : Int) (alt content : CppString)
    (hfile : fs (path_to_read db alt) = some content) :
    load_data_rows db fs data first_row last_row alt
      = table_of_lines db.m_delimiter db.m_empty_value_placeholder (header_line content)
          (scanned_rows first_row last_row (data_lines content)) := by
  unfold header_line data_lines
  cases hlines : getlineAll '\n' content with
  | nil =>
    rw [load_data_rows_no_lines db fs data first_row last_row alt content hfile hlines]
    simp only [List.headD_nil, List.tail_nil, scanned_rows, rows_between, table_of_lines,
      getlineAll, List.map_nil, collect_rows, build_json]
  | cons header rows =>
    rw [load_data_rows_scanned db fs data first_row last_row alt content header rows hfile
      hlines]
    simp only [List.headD_cons, List.tail_cons]

/-- When reading the given lines returns, it returns `EXIT_SUCCESS` and an object built
from one column per header token; every column has one entry per line, and the entry
of line `j` in column `i` is what the `i`-th field of that line reads as. -/
theorem table_of_lines_returned (d : Char) (p : Int) (header : CppString)
    (rows : List CppString) (st : Int) (out : JsonValue)
    (h : table_of_lines d p header rows = LoadOutcome.returned st out) :
    st = EXIT_SUCCESS ∧ ∃ columns : List (List Int),
      out = JsonValue.objectValue (build_json (getlineAll d header) columns []) ∧
      columns.length = (getlineAll d header).length ∧
      ∀ (i : Nat) (column : List Int), columns[i]? = some column →
        column.length = rows.length ∧
        ∀ (j : Nat) (line : CppString), rows[j]? = some line →
          ∃ v, column[j]? = some v ∧
            read_cell p ((getlineAll d line).getD i []) = Except.ok v := by
  unfold table_of_lines at h
  cases hc : collect_rows d p (getlineAll d header)
      ((getlineAll d header).map (fun _ => [])) rows with
  | error e => rw [hc] at h; exact LoadOutcome.noConfusion h
  | ok r =>
    rw [hc] at h
    simp only [LoadOutcome.returned.injEq] at h
    obtain ⟨hst, hout⟩ := h
    obtain ⟨hnames, cellss, hall, hvals⟩ := collect_rows_ok d p _ rows _ r hc
    have hcells : ∀ cells ∈ cellss, cells.length = (getlineAll d header).length := by
      intro cells hmem
      obtain ⟨line, _, hline⟩ := forall2_mem_right _ rows cellss hall cells hmem
      rw [extract_row_values_fields] at hline
      exact (cells_from_fields_ok p _ _ cells hline).1
    obtain ⟨hlen, hcols⟩ := foldl_push_row (getlineAll d header).length cellss
      ((getlineAll d header).map (fun _ => [])) (by simp) hcells
    refine ⟨hst.symm, r.2, by rw [← hout, hnames], by rw [hvals]; exact hlen, ?_⟩
    intro i column hi
    rw [hvals] at hi
    obtain ⟨base, added, hbase, hsplit, hadded, hentries⟩ := hcols i column hi
    have hlt : i < (getlineAll d header).length := by
      rcases Nat.lt_or_ge i (getlineAll d header).length with hlt | hge
      · exact hlt
      · rw [List.getElem?_eq_none (by simpa using hge)] at hbase
        exact Option.noConfusion hbase
    have hb : base = [] := by
      rw [List.getElem?_map] at hbase
      cases hn : (getlineAll d header)[i]? with
      | none => rw [hn] at hbase; exact Option.noConfusion hbase
      | some name =>
        rw [hn] at hbase
        simp only [Option.map_some', Option.some.injEq] at hbase
        exact hbase.symm
    rw [hb, List.nil_append] at hsplit
    subst hsplit
    refine ⟨by rw [hadded]; exact hall.length_eq.symm, ?_⟩
    intro j line hj
    obtain ⟨cells, hcj, hline⟩ := forall2_getElem _ rows cellss hall j line hj
    rw [extract_row_values_fields] at hline
    obtain ⟨v, hv1, hv2⟩ := (cells_from_fields_ok p _ _ cells hline).2 i hlt
    exact ⟨v, by rw [hentries j cells hcj]; exact hv1, hv2⟩

theorem table_of_lines_outcome (d : Char) (p : Int) (header : CppString)
    (rows : List CppString) :
    (∃ out, table_of_lines d p header rows = LoadOutcome.returned EXIT_SUCCESS out) ∨
    (∃ e, table_of_lines d p header rows = LoadOutcome.raised e ∧
      ∃ line ∈ rows, ∃ i, i < (getlineAll d header).length ∧
        read_cell p ((getlineAll d line).getD i []) = Except.error e) := by
  unfold table_of_lines
  cases hc : collect_rows d p (getlineAll d header)
      ((getlineAll d header).map (fun _ => [])) rows with
  | ok r => exact Or.inl ⟨_, rfl⟩
  | error e =>
    right
    obtain ⟨line, hmem, hbad⟩ := collect_rows_error d p _ rows _ e hc
    rw [extract_row_values_fields] at hbad
    obtain ⟨i, hi, hcell⟩ := cells_from_fields_error p _ _ e hbad
    exact ⟨e, rfl, line, hmem, i, hi, hcell⟩

/-- C1, for at least one row, a delimiter that is not a newline, a minus sign or a
digit, and a temporary file that can be created (then every output stream of the
calls opens). On a disk without the database file, for every non-empty sequence of
non-empty rows (genuine `std::map`s with `int` values) whose column names are valid
(non-empty, free of the delimiter and of newlines, not numeric-looking), every
`add_data_row` call returns `EXIT_SUCCESS`, and `load_data_rows` with
`first_row = 0`, `last_row = 0` then returns `EXIT_SUCCESS` with a table whose keys
are exactly the column names of the rows and whose column `c` holds one value per
row, in order: the value of the row under `c`, or the placeholder where the row has
no column `c`. -/
theorem write_read_round_trip (db : JsonCsvDatabase) (fs : FileSystem)
    (rows : List (StdMap Int)) (data : JsonValue)
    (hmissing : fs db.m_database_csv_filepath = none) (hrows : rows ≠ [])
    (hvalid : ∀ r ∈ rows, r ≠ [] ∧ ValidRow db.m_delimiter r)
    (hd0 : db.m_delimiter ≠ '\n') (hd1 : db.m_delimiter ≠ '-')
    (hd2 : isdigit db.m_delimiter = false)
    (hc : fs.creatable (tmp_path db) = true) :
    (add_data_rows db fs rows).1.length = rows.length ∧
    (∀ st ∈ (add_data_rows db fs rows).1, st = EXIT_SUCCESS) ∧
    ∃ members : StdMap (List Int),
      load_data_rows (add_data_rows db fs rows).2.1 (add_data_rows db fs rows).2.2 data 0 0 []
        = LoadOutcome.returned EXIT_SUCCESS (JsonValue.objectValue members) ∧
      ∀ c : CppString,
        ((∃ r ∈ rows, mapCount r c ≠ 0) →
          mapAt members c
            = some (rows.map (fun r => (mapAt r c).getD db.m_empty_value_placeholder))) ∧
        ((¬ ∃ r ∈ rows, mapCount r c ≠ 0) → mapAt members c = none) := by
  cases rows with
  | nil => exact absurd rfl hrows
  | cons row rest =>
    obtain ⟨c1, c2, c3⟩ := add_data_row_config db row fs
    obtain ⟨f1, f2⟩ := roundTrip_first db row fs db.m_empty_value_placeholder hmissing
      (hvalid row (List.mem_cons_self _ _)).1 (hvalid row (List.mem_cons_self _ _)).2 hd0 hd1 hd2
      hc
    obtain ⟨i1, i2, i3, i4, i5, cols2, lines2, i6⟩ :=
      add_data_rows_state db.m_delimiter db.m_empty_value_placeholder db.m_database_csv_filepath
        hd0 hd1 hd2 rest (add_data_row db row fs).2.1 (add_data_row db row fs).2.2 _ _ [row]
        c2 c1 (by rw [add_data_row_creatable]; exact hc) f2
        (fun r hr => (hvalid r (List.mem_cons_of_mem _ hr)).2)
    rw [c3] at i5
    have hstate : RoundTripState (add_data_rows db fs (row :: rest)).2.1.m_delimiter
        (add_data_rows db fs (row :: rest)).2.1.m_empty_value_placeholder
        (add_data_rows db fs (row :: rest)).2.1.m_database_csv_filepath
        (add_data_rows db fs (row :: rest)).2.2 cols2 lines2 (row :: rest) := by
      simp only [add_data_rows]
      rw [i3, i4, i5]
      simpa using i6
    have hload := load_of_state _ _ data cols2 lines2 (row :: rest)
      (by simp only [add_data_rows]; rw [i3]; exact hd0) hstate
    have hp : (add_data_rows db fs (row :: rest)).2.1.m_empty_value_placeholder
        = db.m_empty_value_placeholder := by
      simp only [add_data_rows]; exact i5
    rw [hp] at hload
    refine ⟨by simp only [add_data_rows, List.length_cons, i2], ?_, _, hload, ?_⟩
    · intro st hst
      simp only [add_data_rows, List.mem_cons] at hst
      rcases hst with e | e
      · rw [e]; exact f1
      · exact i1 st e
    · intro c
      have hmem := hstate.2.2.2.2.1 c
      rw [mapAt_build_json]
      constructor
      · intro hex
        have : c ∈ cols2 := hmem.mpr (by
          obtain ⟨r, hr, hc⟩ := hex
          exact ⟨r, hr, (mapCount_ne_zero_iff r c).mp hc⟩)
        rw [if_pos this]
        rfl
      · intro hex
        have : c ∉ cols2 := fun hc => hex (by
          obtain ⟨r, hr, hcr⟩ := hmem.mp hc
          exact ⟨r, hr, (mapCount_ne_zero_iff r c).mpr hcr⟩)
        rw [if_neg this]
        rfl

/-- C1, witness: the rows `{a: 1, b: 2}` and `{c: 3}` with placeholder 0 and delimiter
`;`; the table read back is `a = [1, 0]`, `b = [2, 0]`, `c = [0, 3]`. -/
theorem write_read_round_trip_witness :
    ((add_data_rows demo_db empty_disk [row_ab, row_c]).1.length = [row_ab, row_c].length ∧
    (∀ st ∈ (add_data_rows demo_db empty_disk [row_ab, row_c]).1, st = EXIT_SUCCESS) ∧
    ∃ members : StdMap (List Int),
      load_data_rows (add_data_rows demo_db empty_disk [row_ab, row_c]).2.1
          (add_data_rows demo_db empty_disk [row_ab, row_c]).2.2 JsonValue.nullValue 0 0 []
        = LoadOutcome.returned EXIT_SUCCESS (JsonValue.objectValue members) ∧
      ∀ c : CppString,
        ((∃ r ∈ [row_ab, row_c], mapCount r c ≠ 0) →
          mapAt members c
            = some ([row_ab, row_c].map
                (fun r => (mapAt r c).getD demo_db.m_empty_value_placeholder))) ∧
        ((¬ ∃ r ∈ [row_ab, row_c], mapCount r c ≠ 0) → mapAt members c = none)) ∧
    (add_data_rows demo_db empty_disk [row_ab, row_c]).2.2 demo_path
      = some "a;b;c\n1;2;\n;;3;\n".toList ∧
    load_data_rows (add_data_rows demo_db empty_disk [row_ab, row_c]).2.1
        (add_data_rows demo_db empty_disk [row_ab, row_c]).2.2 JsonValue.nullValue 0 0 []
      = LoadOutcome.returned EXIT_SUCCESS
          (JsonValue.objectValue [(['a'], [1, 0]), (['b'], [2, 0]), (['c'], [0, 3])]) :=
  ⟨write_read_round_trip demo_db empty_disk [row_ab, row_c] JsonValue.nullValue
    (by decide) (by decide) (by decide) (by decide) (by decide) (by decide) (by decide),
    by decide, by decide⟩

/-- C1, counterexample. With the digit `1` as delimiter the row `{a: 1}` meets every
condition of the claim; the write succeeds and leaves the file `a`, `11`, and the full
read returns `a = [0]` (the placeholder), not `a = [1]`.  After no write at all the
file does not exist, so the read returns `EXIT_FAILURE` and no table.  And on a disk
where no file can be created (the directory of the path does not exist) the write of
`{a: 1}` with the default delimiter returns `EXIT_SUCCESS` and writes nothing, so the
read returns `EXIT_FAILURE` and no table. -/
theorem round_trip_fails_for_digit_delimiter :
    empty_disk digit_db.m_database_csv_filepath = none ∧
    row_a ≠ [] ∧ ValidRow digit_db.m_delimiter row_a ∧
    (add_data_rows digit_db empty_disk [row_a]).1 = [EXIT_SUCCESS] ∧
    (add_data_rows digit_db empty_disk [row_a]).2.2 demo_path = some "a\n11\n".toList ∧
    load_data_rows (add_data_rows digit_db empty_disk [row_a]).2.1
        (add_data_rows digit_db empty_disk [row_a]).2.2 JsonValue.nullValue 0 0 []
      = LoadOutcome.returned EXIT_SUCCESS (JsonValue.objectValue [(['a'], [0])]) ∧
    [row_a].map (fun r => (mapAt r ['a']).getD digit_db.m_empty_value_placeholder) = [1] ∧
    load_data_rows (add_data_rows demo_db empty_disk []).2.1
        (add_data_rows demo_db empty_disk []).2.2 JsonValue.nullValue 0 0 []
      = LoadOutcome.returned EXIT_FAILURE JsonValue.nullValue ∧
    sealed_disk demo_db.m_database_csv_filepath = none ∧
    ValidRow demo_db.m_delimiter row_a ∧
    (add_data_rows demo_db sealed_disk [row_a]).1 = [EXIT_SUCCESS] ∧
    (add_data_rows demo_db sealed_disk [row_a]).2.2 demo_path = none ∧
    load_data_rows (add_data_rows demo_db sealed_disk [row_a]).2.1
        (add_data_rows demo_db sealed_disk [row_a]).2.2 JsonValue.nullValue 0 0 []
      = LoadOutcome.returned EXIT_FAILURE JsonValue.nullValue := by
  decide

/-! ## C2: creating a database -/

/-- C2, with the delimiter not a newline and a temporary file that can be created (then
the output streams of the call open). For every non-empty row (a genuine
`std::map`) whose column names are valid (non-empty, free of the delimiter and of
newlines, not numeric-looking), `add_data_row` on a disk without the database file
returns `EXIT_SUCCESS` and creates the file with exactly two lines: the first is the
column names of the row joined by the delimiter, in the order the row enumerates them
(and it splits back into exactly these names), the second holds the values of the row
in the same order, each followed by the delimiter. -/
theorem add_data_row_creates_database (db : JsonCsvDatabase) (row : StdMap Int)
    (fs : FileSystem) (hmissing : fs db.m_database_csv_filepath = none) (hne : row ≠ [])
    (hwf : StdMap.WellFormed row) (hnames : ∀ k ∈ keysOf row, ValidName db.m_delimiter k)
    (hd : db.m_delimiter ≠ '\n') (hc : fs.creatable (tmp_path db) = true) :
    (add_data_row db row fs).1 = EXIT_SUCCESS ∧
    ∃ content, (add_data_row db row fs).2.2 db.m_database_csv_filepath = some content ∧
      getlineAll '\n' content
        = [header_text db.m_delimiter (keysOf row), values_text db.m_delimiter row] ∧
      first_line_of content = header_text db.m_delimiter (keysOf row) ∧
      getlineAll db.m_delimiter (first_line_of content) = keysOf row ∧
      content = file_of_lines
        [header_text db.m_delimiter (keysOf row), values_text db.m_delimiter row] := by
  have hnd := wellFormed_nodup row hwf
  obtain ⟨h1, _, h3⟩ := add_data_row_missing_file db row fs hmissing hne hnd hc
  rw [row_text_own_keys _ row hnd] at h3
  have hfree : '\n' ∉ header_text db.m_delimiter (keysOf row) :=
    header_text_free '\n' _ _ (fun x => hd x.symm) (fun k hk => (hnames k hk).2.2.1)
  have hvals : '\n' ∉ values_text db.m_delimiter row := by
    rw [← row_text_own_keys _ row hnd]
    exact row_text_free '\n' _ _ _ (fun x => hd x.symm) (by decide) (by decide)
  refine ⟨h1, _, h3, ?_, ?_, ?_, rfl⟩
  · apply getlineAll_file_of_lines
    intro l hl
    simp only [List.mem_cons, List.mem_singleton, List.not_mem_nil, or_false] at hl
    rcases hl with e | e
    · rw [e]; exact hfree
    · rw [e]; exact hvals
  · simp only [file_of_lines]
    exact first_line_of_line _ _ hfree
  · simp only [file_of_lines]
    rw [first_line_of_line _ _ hfree]
    exact getlineAll_header_text _ _ (fun k hk => (hnames k hk).2.1) (fun k hk => (hnames k hk).1)

/-- C2, witness: the row `{a: 1, b: 2}` on an empty disk. -/
theorem add_data_row_creates_database_witness :
    (add_data_row demo_db row_ab empty_disk).1 = EXIT_SUCCESS ∧
    ∃ content, (add_data_row demo_db row_ab empty_disk).2.2 demo_db.m_database_csv_filepath
        = some content ∧
      getlineAll '\n' content
        = [header_text demo_db.m_delimiter (keysOf row_ab),
            values_text demo_db.m_delimiter row_ab] ∧
      first_line_of content = header_text demo_db.m_delimiter (keysOf row_ab) ∧
      getlineAll demo_db.m_delimiter (first_line_of content) = keysOf row_ab ∧
      content = file_of_lines
        [header_text demo_db.m_delimiter (keysOf row_ab),
          values_text demo_db.m_delimiter row_ab] :=
  add_data_row_creates_database demo_db row_ab empty_disk (by decide)
    (by decide) (by unfold StdMap.WellFormed; decide) (by decide) (by decide) (by decide)

/-- C2, counterexample. With the newline as delimiter the row `{a: 1, b: 2}` meets
every condition of the claim (a genuine map, names non-empty, free of the delimiter and
of newlines, not numeric-looking), the call on an empty disk succeeds, and the file it
creates is `a`, `b`, `1`, `2` and an empty line: its first line is `a`, not the two
names joined by the delimiter, and four lines follow it, not one.  And on a disk where
no file can be created (the directory of the path does not exist) the call with the
default delimiter returns `EXIT_SUCCESS` and creates no file. -/
theorem newline_delimiter_splits_header :
    row_ab ≠ [] ∧ StdMap.WellFormed row_ab ∧
    (∀ k ∈ keysOf row_ab, ValidName newline_db.m_delimiter k) ∧
    (add_data_row newline_db row_ab empty_disk).1 = EXIT_SUCCESS ∧
    (add_data_row newline_db row_ab empty_disk).2.2 demo_path
      = some "a\nb\n1\n2\n\n".toList ∧
    first_line_of "a\nb\n1\n2\n\n".toList = ['a'] ∧
    header_text newline_db.m_delimiter (keysOf row_ab) = ['a', '\n', 'b'] ∧
    first_line_of "a\nb\n1\n2\n\n".toList ≠ header_text newline_db.m_delimiter (keysOf row_ab) ∧
    getlineAll '\n' "a\nb\n1\n2\n\n".toList = [['a'], ['b'], ['1'], ['2'], []] ∧
    sealed_disk demo_db.m_database_csv_filepath = none ∧
    (∀ k ∈ keysOf row_ab, ValidName demo_db.m_delimiter k) ∧
    (add_data_row demo_db row_ab sealed_disk).1 = EXIT_SUCCESS ∧
    (add_data_row demo_db row_ab sealed_disk).2.2 demo_path = none := by
  refine ⟨by decide, by unfold StdMap.WellFormed; decide, by decide, by decide, by decide,
    by decide, by decide, by decide, by decide, by decide, by decide, by decide, by decide⟩

/-! ## C3: the header only grows at its end -/

/-- C4, as the code has it. When the file exists, its first line passes the header
check, the row brings at least one column the first line does not have and the
temporary file can be created, `add_data_row` succeeds and the file afterwards is: the new header line, then every
line of the old file after its first line that is not empty, unchanged and in the
original order, then the appended row line, each ended by a newline.  When neither the
delimiter nor a column name contains a newline these are exactly the lines of the new
file. -/
theorem header_rewrite_keeps_nonempty_lines (db : JsonCsvDatabase) (row : StdMap Int)
    (fs : FileSystem) (content : CppString)
    (hfile : fs db.m_database_csv_filepath = some content)
    (hz : ∀ t ∈ getlineAll db.m_delimiter (first_line_of content), atoi t = 0)
    (hnew : ∃ k ∈ keysOf row, k ∉ getlineAll db.m_delimiter (first_line_of content))
    (hc : fs.creatable (tmp_path db) = true) :
    (add_data_row db row fs).1 = EXIT_SUCCESS ∧
    (add_data_row db row fs).2.2 db.m_database_csv_filepath = some
      (file_of_lines
        (header_text db.m_delimiter (add_data_row db row fs).2.1.m_ordered_database_column_names
          :: ((getlineAll '\n' content).tail.filter (fun l => decide (l ≠ []))
          ++ [row_text db.m_delimiter row
              (add_data_row db row fs).2.1.m_ordered_database_column_names]))) ∧
    (db.m_delimiter ≠ '\n' →
      (∀ c ∈ (add_data_row db row fs).2.1.m_ordered_database_column_names, '\n' ∉ c) →
      getlineAll '\n' (file_of_lines
        (header_text db.m_delimiter (add_data_row db row fs).2.1.m_ordered_database_column_names
          :: ((getlineAll '\n' content).tail.filter (fun l => decide (l ≠ []))
          ++ [row_text db.m_delimiter row
              (add_data_row db row fs).2.1.m_ordered_database_column_names])))
        = header_text db.m_delimiter (add_data_row db row fs).2.1.m_ordered_database_column_names
          :: ((getlineAll '\n' content).tail.filter (fun l => decide (l ≠ []))
          ++ [row_text db.m_delimiter row
              (add_data_row db row fs).2.1.m_ordered_database_column_names])) := by
  have htok : header_tokens db fs = getlineAll db.m_delimiter (first_line_of content) := by
    unfold header_tokens; rw [hfile]
  obtain ⟨h1, h2⟩ := add_data_row_rewrite db row fs (by rw [htok]; exact hz)
    (by rw [htok]; exact hnew) hc
  have hl : lines_of (fs db.m_database_csv_filepath) = getlineAll '\n' content := by
    rw [hfile]; rfl
  rw [hl] at h2
  refine ⟨h1, h2, ?_⟩
  intro hd hnames
  apply getlineAll_file_of_lines
  intro l hl
  rcases List.mem_cons.mp hl with e | e
  · rw [e]
    exact header_text_free '\n' _ _ (fun x => hd x.symm) hnames
  · rcases List.mem_append.mp e with e | e
    · have := List.mem_of_mem_filter e
      exact getlineAll_free '\n' content l (List.mem_of_mem_tail this)
    · rw [List.mem_singleton.mp e]
      exact row_text_free '\n' _ _ _ (fun x => hd x.symm) (by decide) (by decide)

/-- C4, witness: the row `{b: 2}` written to the file `a`, empty line, `1;`. -/
theorem header_rewrite_keeps_nonempty_lines_witness :
    (add_data_row demo_db row_b (disk_with gappy_file)).1 = EXIT_SUCCESS ∧
    (add_data_row demo_db row_b (disk_with gappy_file)).2.2 demo_db.m_database_csv_filepath = some
      (file_of_lines
        (header_text demo_db.m_delimiter
            (add_data_row demo_db row_b (disk_with gappy_file)).2.1.m_ordered_database_column_names
          :: ((getlineAll '\n' gappy_file).tail.filter (fun l => decide (l ≠ []))
          ++ [row_text demo_db.m_delimiter row_b
              (add_data_row demo_db row_b (disk_with gappy_file)).2.1.m_ordered_database_column_names]))) ∧
    (demo_db.m_delimiter ≠ '\n' →
      (∀ c ∈ (add_data_row demo_db row_b (disk_with gappy_file)).2.1.m_ordered_database_column_names,
        '\n' ∉ c) →
      getlineAll '\n' (file_of_lines
        (header_text demo_db.m_delimiter
            (add_data_row demo_db row_b (disk_with gappy_file)).2.1.m_ordered_database_column_names
          :: ((getlineAll '\n' gappy_file).tail.filter (fun l => decide (l ≠ []))
          ++ [row_text demo_db.m_delimiter row_b
              (add_data_row demo_db row_b (disk_with gappy_file)).2.1.m_ordered_database_column_names])))
        = header_text demo_db.m_delimiter
            (add_data_row demo_db row_b (disk_with gappy_file)).2.1.m_ordered_database_column_names
          :: ((getlineAll '\n' gappy_file).tail.filter (fun l => decide (l ≠ []))
          ++ [row_text demo_db.m_delimiter row_b
              (add_data_row demo_db row_b (disk_with gappy_file)).2.1.m_ordered_database_column_names])) :=
  header_rewrite_keeps_nonempty_lines demo_db row_b (disk_with gappy_file) gappy_file
    (by decide) (by decide) (by decide) (by decide)

/-- C4, counterexample. The file holds the header `a`, an empty line and the row `1;`.
Writing `{b: 2}` rewrites the header; the old file had the two lines `""` and `1;`
after its first line, the new file has only `1;` between the new header `a;b` and the
new row `;2;`: the empty line is dropped.  And where the temporary file cannot be
created the same call succeeds without any rewrite: the file is the old content,
header `a` and empty line included, followed by the row `;2;`. -/
theorem header_rewrite_drops_empty_line :
    (add_data_row demo_db row_b (disk_with gappy_file)).1 = EXIT_SUCCESS ∧
    (add_data_row demo_db row_b (disk_with gappy_file)).2.2 demo_path
      = some "a;b\n1;\n;2;\n".toList ∧
    (getlineAll '\n' gappy_file).tail = [[], ['1', ';']] ∧
    getlineAll '\n' "a;b\n1;\n;2;\n".toList
      = [['a', ';', 'b'], ['1', ';'], [';', '2', ';']] ∧
    getlineAll '\n' "a;b\n1;\n;2;\n".toList
      ≠ ['a', ';', 'b'] :: ((getlineAll '\n' gappy_file).tail ++ [[';', '2', ';']]) ∧
    (add_data_row demo_db row_b (blocked_disk gappy_file)).1 = EXIT_SUCCESS ∧
    (add_data_row demo_db row_b (blocked_disk gappy_file)).2.2 demo_path
      = some "a\n\n1;\n;2;\n".toList ∧
    getlineAll '\n' "a\n\n1;\n;2;\n".toList = [['a'], [], ['1', ';'], [';', '2', ';']] := by
  decide

/-! ## C5, C6, C7: the window of a read -/

theorem rows_between_length (lo hi : Int) (rows : List CppString) :
    ∀ start : Int, ((rows_between lo (some hi) start rows).length : Int)
      = max 0 (min hi (start + rows.length - 1) - max lo start + 1) := by
  induction rows with
  | nil => intro start; simp only [rows_between, List.length_nil]; omega
  | cons r rs ih =>
    intro start
    by_cases hw : in_window lo (some hi) start = true
    · have hw2 := hw
      simp only [in_window, decide_eq_true_eq] at hw2
      simp only [rows_between, hw, if_true, List.length_cons, Nat.cast_add, Nat.cast_one,
        ih (start + 1)]
      omega
    · have hw2 := hw
      simp only [in_window, decide_eq_true_eq] at hw2
      have hw3 : in_window lo (some hi) start = false := by
        cases h : in_window lo (some hi) start
        · rfl
        · exact absurd h hw
      simp only [rows_between, hw3, Bool.false_eq_true, if_false, List.length_cons,
        Nat.cast_add, Nat.cast_one, ih (start + 1)]
      omega

/-- C5, as the code has it. On a file with a first line, `load_data_rows` with
`first_row = f`, `0 ≤ f < INT_MAX`, and `last_row = 0` returns the table of exactly
the data rows whose 0-based index is at least `f - 1`, in file order: the rows left
after dropping the first `f - 1`. -/
theorem load_from_first_row (db : JsonCsvDatabase) (fs : FileSystem) (data : JsonValue)
    (f : Int) (content header : CppString) (rows : List CppString)
    (hfile : fs db.m_database_csv_filepath = some content)
    (hlines : getlineAll '\n' content = header :: rows)
    (h0 : 0 ≤ f) (h1 : f < INT_MAX) :
    load_data_rows db fs data f 0 []
      = table_of_lines db.m_delimiter db.m_empty_value_placeholder header
          (rows_between (f - 1) none 0 rows) ∧
    rows_between (f - 1) none 0 rows = rows.drop (f - 1).toNat := by
  have hf : isInt32 (f + 1) := by
    unfold isInt32 INT_MIN INT_MAX at *; omega
  have hl : wrapInt32 (0 + 1) = 1 := by decide
  constructor
  · rw [load_data_rows_window db fs data f 0 [] content header rows (by simpa using hfile) hlines,
      wrapInt32_of_isInt32 _ hf, hl]
    have : f + 1 - 2 = f - 1 := by omega
    rw [this]
    rfl
  · rw [rows_between_drop]
    simp

/-- C5, witness: `first_row = 2` on the file with the data rows 1, 2, 3. -/
theorem load_from_first_row_witness :
    load_data_rows demo_db (disk_with three_rows) JsonValue.nullValue 2 0 []
      = table_of_lines demo_db.m_delimiter demo_db.m_empty_value_placeholder ['a']
          (rows_between (2 - 1) none 0 [['1', ';'], ['2', ';'], ['3', ';']]) ∧
    rows_between (2 - 1) none 0 [['1', ';'], ['2', ';'], ['3', ';']]
      = List.drop (2 - 1 : Int).toNat [['1', ';'], ['2', ';'], ['3', ';']] :=
  load_from_first_row demo_db (disk_with three_rows) JsonValue.nullValue 2 three_rows ['a']
    [['1', ';'], ['2', ';'], ['3', ';']] (by decide) (by decide) (by decide) (by decide)

/-- C5, counterexample. On the file with header `a` and the data rows 1, 2, 3,
`first_row = 1` and `last_row = 0` return all three rows, `a = [1, 2, 3]`, not the
rows of index 1 and 2, `a = [2, 3]`. -/
theorem load_first_row_one_returns_all :
    load_data_rows demo_db (disk_with three_rows) JsonValue.nullValue 1 0 []
      = LoadOutcome.returned EXIT_SUCCESS (JsonValue.objectValue [(['a'], [1, 2, 3])]) ∧
    table_of_lines ';' 0 ['a'] (rows_between 1 none 0 [['1', ';'], ['2', ';'], ['3', ';']])
      = LoadOutcome.returned EXIT_SUCCESS (JsonValue.objectValue [(['a'], [2, 3])]) ∧
    load_data_rows demo_db (disk_with three_rows) JsonValue.nullValue 1 0 []
      ≠ table_of_lines ';' 0 ['a'] (rows_between 1 none 0 [['1', ';'], ['2', ';'], ['3', ';']]) := by
  decide

/-- C6. For every existing file and every `first_row = f`, with `lo` the lower bound the
code derives from `f` (`f - 1` when `0 ≤ f < INT_MAX`; in general `first_row + 1` less
two, the increment taken in 32-bit two's complement):  with `last_row = 0` the rows
returned are exactly the data rows of index at least `lo`, the suffix of the data rows
left after dropping the first `lo`, which reaches the final row of the file: the scan
never stops before the end.  With any other `last_row = l`, in particular every
`l ≥ 1`, the rows returned are the rows of index at least `lo` among the first `n`
data rows only, where `n ≤ l` (and `n = l` for `1 ≤ l < INT_MAX`): the bound is in
force and no data row of 0-based index `l` or greater is returned.  A file without any
line gives the empty table under all bounds. -/
theorem last_row_zero_only_unbounded (db : JsonCsvDatabase) (fs : FileSystem)
    (data : JsonValue) (content : CppString)
    (hfile : fs db.m_database_csv_filepath = some content) :
    (getlineAll '\n' content = [] → ∀ f l : Int,
      load_data_rows db fs data f l []
        = LoadOutcome.returned EXIT_SUCCESS (JsonValue.objectValue [])) ∧
    (∀ (header : CppString) (rows : List CppString),
      getlineAll '\n' content = header :: rows →
      (∀ f : Int, load_data_rows db fs data f 0 []
        = table_of_lines db.m_delimiter db.m_empty_value_placeholder header
            (rows.drop (wrapInt32 (f + 1) - 2).toNat)) ∧
      (∀ f : Int, 0 ≤ f → f < INT_MAX → load_data_rows db fs data f 0 []
        = table_of_lines db.m_delimiter db.m_empty_value_placeholder header
            (rows.drop (f - 1).toNat)) ∧
      (∀ f l : Int, isInt32 l → l ≠ 0 →
        load_data_rows db fs data f l []
          = table_of_lines db.m_delimiter db.m_empty_value_placeholder header
              ((rows.take (wrapInt32 (l + 1) - 1).toNat).drop (wrapInt32 (f + 1) - 2).toNat) ∧
        ((wrapInt32 (l + 1) - 1).toNat : Int) ≤ max l 0) ∧
      (∀ f l : Int, 1 ≤ l → l < INT_MAX →
        load_data_rows db fs data f l []
          = table_of_lines db.m_delimiter db.m_empty_value_placeholder header
              ((rows.take l.toNat).drop (wrapInt32 (f + 1) - 2).toNat))) := by
  constructor
  · intro hnone f l
    unfold load_data_rows
    simp [hfile, hnone, scan_lines, build_json]
  · intro header rows hlines
    have hl0 : wrapInt32 (0 + 1) = 1 := by decide
    have hzero : ∀ f : Int, load_data_rows db fs data f 0 []
        = table_of_lines db.m_delimiter db.m_empty_value_placeholder header
            (rows.drop (wrapInt32 (f + 1) - 2).toNat) := by
      intro f
      rw [load_data_rows_window db fs data f 0 [] content header rows (by simpa using hfile)
        hlines, hl0, if_pos rfl, rows_between_drop]
      simp
    have hbound : ∀ f l : Int, isInt32 l → l ≠ 0 →
        load_data_rows db fs data f l []
          = table_of_lines db.m_delimiter db.m_empty_value_placeholder header
              ((rows.take (wrapInt32 (l + 1) - 1).toNat).drop
                (wrapInt32 (f + 1) - 2).toNat) := by
      intro f l hl hne0
      have hne : wrapInt32 (l + 1) ≠ 1 := fun e => hne0 ((wrapInt32_succ_eq_one l hl).mp e)
      rw [load_data_rows_window db fs data f l [] content header rows (by simpa using hfile)
        hlines, if_neg hne, rows_between_take, rows_between_drop]
      have e1 : wrapInt32 (l + 1) - 2 + 1 - 0 = wrapInt32 (l + 1) - 1 := by omega
      have e2 : wrapInt32 (f + 1) - 2 - 0 = wrapInt32 (f + 1) - 2 := by omega
      rw [e1, e2]
    refine ⟨hzero, ?_, ?_, ?_⟩
    · intro f h0 h1
      have hf : isInt32 (f + 1) := by
        unfold isInt32 INT_MIN INT_MAX at *; omega
      rw [hzero f, wrapInt32_of_isInt32 _ hf]
      have : f + 1 - 2 = f - 1 := by omega
      rw [this]
    · intro f l hl hne0
      refine ⟨hbound f l hl hne0, ?_⟩
      have := wrapInt32_succ_le l hl
      omega
    · intro f l h1 h2
      have hl : isInt32 l := by
        unfold isInt32 INT_MIN INT_MAX at *; omega
      have hl1 : isInt32 (l + 1) := by
        unfold isInt32 INT_MIN INT_MAX at *; omega
      rw [hbound f l hl (by omega), wrapInt32_of_isInt32 _ hl1]
      have : l + 1 - 1 = l := by omega
      rw [this]

/-- C6, witness: the file with the data rows 1, 2, 3; `first_row = 2` with `last_row = 0`
returns the rows 2 and 3, with `last_row = 2` the row 2 only. -/
theorem last_row_zero_only_unbounded_witness :
    load_data_rows demo_db (disk_with three_rows) JsonValue.nullValue 2 0 []
      = LoadOutcome.returned EXIT_SUCCESS (JsonValue.objectValue [(['a'], [2, 3])]) ∧
    load_data_rows demo_db (disk_with three_rows) JsonValue.nullValue 2 2 []
      = LoadOutcome.returned EXIT_SUCCESS (JsonValue.objectValue [(['a'], [2])]) ∧
    (getlineAll '\n' three_rows = [] → ∀ f l : Int,
      load_data_rows demo_db (disk_with three_rows) JsonValue.nullValue f l []
        = LoadOutcome.returned EXIT_SUCCESS (JsonValue.objectValue [])) ∧
    (∀ (header : CppString) (rows : List CppString),
      getlineAll '\n' three_rows = header :: rows →
      (∀ f : Int, load_data_rows demo_db (disk_with three_rows) JsonValue.nullValue f 0 []
        = table_of_lines demo_db.m_delimiter demo_db.m_empty_value_placeholder header
            (rows.drop (wrapInt32 (f + 1) - 2).toNat)) ∧
      (∀ f : Int, 0 ≤ f → f < INT_MAX →
        load_data_rows demo_db (disk_with three_rows) JsonValue.nullValue f 0 []
        = table_of_lines demo_db.m_delimiter demo_db.m_empty_value_placeholder header
            (rows.drop (f - 1).toNat)) ∧
      (∀ f l : Int, isInt32 l → l ≠ 0 →
        load_data_rows demo_db (disk_with three_rows) JsonValue.nullValue f l []
          = table_of_lines demo_db.m_delimiter demo_db.m_empty_value_placeholder header
              ((rows.take (wrapInt32 (l + 1) - 1).toNat).drop (wrapInt32 (f + 1) - 2).toNat) ∧
        ((wrapInt32 (l + 1) - 1).toNat : Int) ≤ max l 0) ∧
      (∀ f l : Int, 1 ≤ l → l < INT_MAX →
        load_data_rows demo_db (disk_with three_rows) JsonValue.nullValue f l []
          = table_of_lines demo_db.m_delimiter demo_db.m_empty_value_placeholder header
              ((rows.take l.toNat).drop (wrapInt32 (f + 1) - 2).toNat))) :=
  ⟨by decide, by decide,
    last_row_zero_only_unbounded demo_db (disk_with three_rows) JsonValue.nullValue three_rows
      (by decide)⟩

/-- C7, as the code has it. On a file with a first line and `n` data rows, for bounds
`0 ≤ f ≤ l`, `1 ≤ l < INT_MAX`, `load_data_rows` returns the table of exactly the
data rows whose 0-based index `k` satisfies `f - 1 ≤ k ≤ l - 1`, in file order; these
are `min l n - max f 1 + 1` rows when `f ≤ n`. -/
theorem load_window_one_based (db : JsonCsvDatabase) (fs : FileSystem) (data : JsonValue)
    (f l : Int) (content header : CppString) (rows : List CppString)
    (hfile : fs db.m_database_csv_filepath = some content)
    (hlines : getlineAll '\n' content = header :: rows)
    (h0 : 0 ≤ f) (hfl : f ≤ l) (h1 : 1 ≤ l) (h2 : l < INT_MAX) :
    load_data_rows db fs data f l []
      = table_of_lines db.m_delimiter db.m_empty_value_placeholder header
          (rows_between (f - 1) (some (l - 1)) 0 rows) ∧
    (f ≤ rows.length →
      ((rows_between (f - 1) (some (l - 1)) 0 rows).length : Int)
        = min l rows.length - max f 1 + 1) := by
  have hf : isInt32 (f + 1) := by
    unfold isInt32 INT_MIN INT_MAX at *; omega
  have hl : isInt32 (l + 1) := by
    unfold isInt32 INT_MIN INT_MAX at *; omega
  have hl1 : l + 1 ≠ 1 := by omega
  constructor
  · rw [load_data_rows_window db fs data f l [] content header rows (by simpa using hfile) hlines,
      wrapInt32_of_isInt32 _ hf, wrapInt32_of_isInt32 _ hl, if_neg hl1]
    have e1 : f + 1 - 2 = f - 1 := by omega
    have e2 : l + 1 - 2 = l - 1 := by omega
    rw [e1, e2]
  · intro hn
    rw [rows_between_length]
    omega

/-- C7, witness: `first_row = 1`, `last_row = 2` on the file with the data rows 1, 2, 3. -/
theorem load_window_one_based_witness :
    load_data_rows demo_db (disk_with three_rows) JsonValue.nullValue 1 2 []
      = table_of_lines demo_db.m_delimiter demo_db.m_empty_value_placeholder ['a']
          (rows_between (1 - 1) (some (2 - 1)) 0 [['1', ';'], ['2', ';'], ['3', ';']]) ∧
    ((1 : Int) ≤ ([['1', ';'], ['2', ';'], ['3', ';']] : List CppString).length →
      ((rows_between (1 - 1) (some (2 - 1)) 0 [['1', ';'], ['2', ';'], ['3', ';']]).length : Int)
        = min 2 ([['1', ';'], ['2', ';'], ['3', ';']] : List CppString).length - max 1 1 + 1) :=
  load_window_one_based demo_db (disk_with three_rows) JsonValue.nullValue 1 2 three_rows ['a']
    [['1', ';'], ['2', ';'], ['3', ';']] (by decide) (by decide) (by decide) (by decide)
    (by decide) (by decide)

/-- C7, counterexample. On the file with header `a` and the data rows 1, 2, 3,
`first_row = 1` and `last_row = 2` return the rows of index 0 and 1, `a = [1, 2]`,
not the rows of index 1 and 2, `a = [2, 3]`. -/
theorem load_window_not_zero_based :
    load_data_rows demo_db (disk_with three_rows) JsonValue.nullValue 1 2 []
      = LoadOutcome.returned EXIT_SUCCESS (JsonValue.objectValue [(['a'], [1, 2])]) ∧
    table_of_lines ';' 0 ['a']
        (rows_between 1 (some 2) 0 [['1', ';'], ['2', ';'], ['3', ';']])
      = LoadOutcome.returned EXIT_SUCCESS (JsonValue.objectValue [(['a'], [2, 3])]) ∧
    load_data_rows demo_db (disk_with three_rows) JsonValue.nullValue 1 2 []
      ≠ table_of_lines ';' 0 ['a']
          (rows_between 1 (some 2) 0 [['1', ';'], ['2', ';'], ['3', ';']]) := by
  decide

/-! ## C8: a first line of zeros -/

/-- C8, the code at the failing input. The file whose only line is `0;0;`, the line
`add_data_row` itself writes for a row of two zeros, passes the header check:
`get_existing_blueprint_from_csv` returns `EXIT_SUCCESS` with a column named `0`, and
`add_data_row` appends below it instead of failing. -/
theorem zero_header_accepted :
    (get_existing_blueprint_from_csv demo_db (disk_with ['0', ';', '0', ';', '\n'])).1
      = EXIT_SUCCESS ∧
    (get_existing_blueprint_from_csv demo_db
        (disk_with ['0', ';', '0', ';', '\n'])).2.m_database_blueprint = [(['0'], 1)] ∧
    (add_data_row demo_db [(['0'], 7)] (disk_with ['0', ';', '0', ';', '\n'])).1
      = EXIT_SUCCESS ∧
    (add_data_row demo_db [(['0'], 7)] (disk_with ['0', ';', '0', ';', '\n'])).2.2 demo_path
      = some ['0', ';', '0', ';', '\n', '7', ';', '\n'] := by
  decide

/-! ## C9: when a write fails -/

theorem add_data_row_status_eq (db : JsonCsvDatabase) (row : StdMap Int) (fs : FileSystem) :
    ((add_data_row db row fs).1 = EXIT_FAILURE ↔
      (get_existing_blueprint_from_csv { db with m_database_blueprint := [] } fs).1
        = EXIT_FAILURE) ∧
    ((add_data_row db row fs).1 = EXIT_FAILURE → (add_data_row db row fs).2.2 = fs) ∧
    ((add_data_row db row fs).1 = EXIT_FAILURE ∨ (add_data_row db row fs).1 = EXIT_SUCCESS) := by
  unfold add_data_row
  by_cases h : (get_existing_blueprint_from_csv { db with m_database_blueprint := [] } fs).1
      = EXIT_FAILURE
  · simp only [h, if_true, true_iff, true_or, implies_true, and_self]
  · rw [if_neg h]
    have hs : (EXIT_SUCCESS : Int) ≠ EXIT_FAILURE := by decide
    refine ⟨⟨fun e => absurd e hs, fun e => absurd e h⟩, fun e => absurd e hs, Or.inr rfl⟩

/-- C9. With every file open succeeding, `add_data_row` returns `EXIT_FAILURE` exactly
when the database file exists and some delimiter-separated token of its first line has
a non-zero `atoi`; a failed call leaves every file as it was (no header rewrite, no row
appended); and any other call returns `EXIT_SUCCESS`. -/
theorem add_data_row_failure_iff (db : JsonCsvDatabase) (row : StdMap Int) (fs : FileSystem) :
    ((add_data_row db row fs).1 = EXIT_FAILURE ↔
      ∃ content, fs db.m_database_csv_filepath = some content ∧
        ∃ t ∈ getlineAll db.m_delimiter (first_line_of content), atoi t ≠ 0) ∧
    ((add_data_row db row fs).1 = EXIT_FAILURE → (add_data_row db row fs).2.2 = fs) ∧
    ((add_data_row db row fs).1 = EXIT_FAILURE ∨ (add_data_row db row fs).1 = EXIT_SUCCESS) := by
  obtain ⟨h1, h2, h3⟩ := add_data_row_status_eq db row fs
  refine ⟨?_, h2, h3⟩
  rw [h1, get_existing_blueprint_status]
  unfold header_tokens
  show (∃ t ∈ (match fs db.m_database_csv_filepath with
      | none => []
      | some content => getlineAll db.m_delimiter (first_line_of content)), atoi t ≠ 0) ↔ _
  cases fs db.m_database_csv_filepath with
  | none => simp
  | some content => simp

/-! ## C10: the delimiters of a written row -/

/-- C10, the code at the failing input. Writing the row `{a: 1, b: 2}` to a missing
file succeeds and leaves the schema with two columns; the header line `a;b` holds one
delimiter, the appended row line `1;2;` holds two, one after every field. -/
theorem row_line_ends_with_delimiter :
    (add_data_row demo_db [(['a'], 1), (['b'], 2)] empty_disk).1 = EXIT_SUCCESS ∧
    (add_data_row demo_db [(['a'], 1), (['b'], 2)] empty_disk).2.1.m_ordered_database_column_names
      = [['a'], ['b']] ∧
    (add_data_row demo_db [(['a'], 1), (['b'], 2)] empty_disk).2.2 demo_path
      = some ['a', ';', 'b', '\n', '1', ';', '2', ';', '\n'] ∧
    row_text ';' [(['a'], 1), (['b'], 2)] [['a'], ['b']] = ['1', ';', '2', ';'] ∧
    List.count ';' (row_text ';' [(['a'], 1), (['b'], 2)] [['a'], ['b']]) = 2 := by
  decide

/-! ## C11: what is written for an absent column -/

/-- C12. Let the path to read name a file. (1) Blank cells never fail the read: if every
field of a scanned data line that lies within the header's column count and is not
empty converts under `std::stoi`, then `load_data_rows` returns `EXIT_SUCCESS`.
(2) Whenever `load_data_rows` returns, the object it leaves is built from one column
per header position, each with one entry per scanned data line, and for every column
position `i` and scanned line `j`: if the `i`-th delimiter-separated field of the line
is empty, or the line has fewer than `i + 1` fields, then entry `j` of column `i` is
the configured placeholder.  Column `i` is the member of the object under the `i`-th
header name, when that name does not occur again further right in the header. -/
theorem blank_cell_reads_placeholder (db : JsonCsvDatabase) (fs : FileSystem)
    (data : JsonValue) (f l : Int) (alt content : CppString)
    (hfile : fs (path_to_read db alt) = some content) :
    ((∀ line ∈ scanned_rows f l (data_lines content), ∀ (i : Nat) (tok : CppString),
        i < (getlineAll db.m_delimiter (header_line content)).length →
        (getlineAll db.m_delimiter line)[i]? = some tok → tok ≠ [] →
        ∃ v, stoi tok = Except.ok v) →
      ∃ out, load_data_rows db fs data f l alt = LoadOutcome.returned EXIT_SUCCESS out) ∧
    (∀ (st : Int) (out : JsonValue),
      load_data_rows db fs data f l alt = LoadOutcome.returned st out →
      ∃ columns : List (List Int),
        out = JsonValue.objectValue
          (build_json (getlineAll db.m_delimiter (header_line content)) columns []) ∧
        columns.length = (getlineAll db.m_delimiter (header_line content)).length ∧
        (∀ (i : Nat) (name : CppString),
          (getlineAll db.m_delimiter (header_line content))[i]? = some name →
          name ∉ (getlineAll db.m_delimiter (header_line content)).drop (i + 1) →
          mapAt (build_json (getlineAll db.m_delimiter (header_line content)) columns []) name
            = columns[i]?) ∧
        ∀ (i : Nat) (column : List Int), columns[i]? = some column →
          column.length = (scanned_rows f l (data_lines content)).length ∧
          ∀ (j : Nat) (line : CppString),
            (scanned_rows f l (data_lines content))[j]? = some line →
            ((getlineAll db.m_delimiter line)[i]? = none ∨
              (getlineAll db.m_delimiter line)[i]? = some []) →
            column[j]? = some db.m_empty_value_placeholder) := by
  rw [load_data_rows_table db fs data f l alt content hfile]
  constructor
  · intro hall
    rcases table_of_lines_outcome db.m_delimiter db.m_empty_value_placeholder
      (header_line content) (scanned_rows f l (data_lines content)) with h | h
    · exact h
    · exfalso
      obtain ⟨e, _, line, hmem, i, hi, hbad⟩ := h
      cases hfield : (getlineAll db.m_delimiter line)[i]? with
      | none =>
        rw [read_cell_blank _ _ i (Or.inl hfield)] at hbad
        exact Except.noConfusion hbad
      | some tok =>
        by_cases hne : tok = []
        · rw [read_cell_blank _ _ i (Or.inr (by rw [hfield, hne]))] at hbad
          exact Except.noConfusion hbad
        · rw [read_cell_field _ _ i tok hfield hne] at hbad
          obtain ⟨v, hv⟩ := hall line hmem i tok hi hfield hne
          rw [hv] at hbad
          exact Except.noConfusion hbad
  · intro st out hret
    obtain ⟨_, columns, hout, hlen, hcols⟩ := table_of_lines_returned _ _ _ _ st out hret
    refine ⟨columns, hout, hlen, ?_, ?_⟩
    · intro i name hi hlast
      exact build_json_last _ columns [] i name hlen.symm hi hlast
    · intro i column hcol
      refine ⟨(hcols i column hcol).1, ?_⟩
      intro j line hj hblank
      obtain ⟨v, hv1, hv2⟩ := (hcols i column hcol).2 j line hj
      rw [read_cell_blank _ _ i hblank] at hv2
      simp only [Except.ok.injEq] at hv2
      rw [hv1, hv2]

/-- C12, witness: the store with placeholder 7 reads the file with header `a;b;c` and the
data lines `1;;3;`, `4` and `;;;;`; the blank and the missing cells read as 7. -/
theorem blank_cell_reads_placeholder_witness :
    load_data_rows seven_db (disk_with ragged_file) JsonValue.nullValue 0 0 []
      = LoadOutcome.returned EXIT_SUCCESS (JsonValue.objectValue
          [(['a'], [1, 4, 7]), (['b'], [7, 7, 7]), (['c'], [3, 7, 7])]) ∧
    ((∀ line ∈ scanned_rows 0 0 (data_lines ragged_file), ∀ (i : Nat) (tok : CppString),
        i < (getlineAll seven_db.m_delimiter (header_line ragged_file)).length →
        (getlineAll seven_db.m_delimiter line)[i]? = some tok → tok ≠ [] →
        ∃ v, stoi tok = Except.ok v) →
      ∃ out, load_data_rows seven_db (disk_with ragged_file) JsonValue.nullValue 0 0 []
        = LoadOutcome.returned EXIT_SUCCESS out) ∧
    (∀ (st : Int) (out : JsonValue),
      load_data_rows seven_db (disk_with ragged_file) JsonValue.nullValue 0 0 []
        = LoadOutcome.returned st out →
      ∃ columns : List (List Int),
        out = JsonValue.objectValue
          (build_json (getlineAll seven_db.m_delimiter (header_line ragged_file)) columns []) ∧
        columns.length = (getlineAll seven_db.m_delimiter (header_line ragged_file)).length ∧
        (∀ (i : Nat) (name : CppString),
          (getlineAll seven_db.m_delimiter (header_line ragged_file))[i]? = some name →
          name ∉ (getlineAll seven_db.m_delimiter (header_line ragged_file)).drop (i + 1) →
          mapAt (build_json (getlineAll seven_db.m_delimiter (header_line ragged_file))
            columns []) name = columns[i]?) ∧
        ∀ (i : Nat) (column : List Int), columns[i]? = some column →
          column.length = (scanned_rows 0 0 (data_lines ragged_file)).length ∧
          ∀ (j : Nat) (line : CppString),
            (scanned_rows 0 0 (data_lines ragged_file))[j]? = some line →
            ((getlineAll seven_db.m_delimiter line)[i]? = none ∨
              (getlineAll seven_db.m_delimiter line)[i]? = some []) →
            column[j]? = some seven_db.m_empty_value_placeholder) :=
  ⟨by decide,
    blank_cell_reads_placeholder seven_db (disk_with ragged_file) JsonValue.nullValue 0 0 []
      ragged_file (by decide)⟩

/-! ## C13: the shape of the result -/

/-- C13. Let the path to read name a file and let `load_data_rows` return
`EXIT_SUCCESS`, for any bounds.  Then the value it leaves is an object, a genuine map,
whose member names are exactly the column names of the header line of the file, and
every member is a sequence of the same length: the number of data lines scanned (those
inside the window), whatever the number of fields on each line. -/
theorem load_result_rectangular (db : JsonCsvDatabase) (fs : FileSystem) (data : JsonValue)
    (f l : Int) (alt content : CppString) (out : JsonValue)
    (hfile : fs (path_to_read db alt) = some content)
    (hok : load_data_rows db fs data f l alt = LoadOutcome.returned EXIT_SUCCESS out) :
    ∃ members : StdMap (List Int), out = JsonValue.objectValue members ∧
      StdMap.WellFormed members ∧
      (∀ c, c ∈ keysOf members ↔ c ∈ getlineAll db.m_delimiter (header_line content)) ∧
      (∀ e ∈ members, e.2.length = (scanned_rows f l (data_lines content)).length) ∧
      (∀ c ∈ getlineAll db.m_delimiter (header_line content), ∃ column,
        mapAt members c = some column ∧
        column.length = (scanned_rows f l (data_lines content)).length) := by
  rw [load_data_rows_table db fs data f l alt content hfile] at hok
  obtain ⟨_, columns, hout, hlen, hcols⟩ := table_of_lines_returned _ _ _ _ _ out hok
  have hwf : StdMap.WellFormed
      (build_json (getlineAll db.m_delimiter (header_line content)) columns []) :=
    build_json_wellFormed _ columns [] List.Pairwise.nil
  have hkeys : ∀ c, c ∈ keysOf
      (build_json (getlineAll db.m_delimiter (header_line content)) columns [])
        ↔ c ∈ getlineAll db.m_delimiter (header_line content) := by
    intro c
    rw [build_json_keys _ columns [] hlen.symm c]
    simp [keysOf]
  have hvals : ∀ e ∈ build_json (getlineAll db.m_delimiter (header_line content)) columns [],
      e.2.length = (scanned_rows f l (data_lines content)).length := by
    intro e he
    rcases build_json_values _ columns [] e he with h | h
    · simp at h
    · obtain ⟨i, hi⟩ := List.mem_iff_getElem?.mp h
      exact (hcols i e.2 hi).1
  refine ⟨_, hout, hwf, hkeys, hvals, ?_⟩
  intro c hc
  cases hm : mapAt (build_json (getlineAll db.m_delimiter (header_line content)) columns []) c with
  | none =>
    exact absurd ((hkeys c).mpr hc) ((mapAt_eq_none_iff _ c).mp hm)
  | some column => exact ⟨column, rfl, hvals (c, column) (mapAt_mem _ c column hm)⟩

/-- C13, witness: the file with header `a;b;c` and the data lines `1;;3;`, `4` and
`;;;;`, read from the second data line on: three columns of two entries each. -/
theorem load_result_rectangular_witness :
    (scanned_rows 2 0 (data_lines ragged_file)).length = 2 ∧
    ∃ members : StdMap (List Int),
      JsonValue.objectValue [(['a'], [4, 0]), (['b'], [0, 0]), (['c'], [0, 0])]
        = JsonValue.objectValue members ∧
      StdMap.WellFormed members ∧
      (∀ c, c ∈ keysOf members ↔ c ∈ getlineAll demo_db.m_delimiter (header_line ragged_file)) ∧
      (∀ e ∈ members, e.2.length = (scanned_rows 2 0 (data_lines ragged_file)).length) ∧
      (∀ c ∈ getlineAll demo_db.m_delimiter (header_line ragged_file), ∃ column,
        mapAt members c = some column ∧
        column.length = (scanned_rows 2 0 (data_lines ragged_file)).length) :=
  ⟨by decide,
    load_result_rectangular demo_db (disk_with ragged_file) JsonValue.nullValue 2 0 []
      ragged_file _ (by decide) (by decide)⟩

/-! ## C14: cells that are not integers -/

theorem load_data_rows_congr (db1 db2 : JsonCsvDatabase) (fs1 fs2 : FileSystem)
    (data : JsonValue) (f l : Int) (alt1 alt2 : CppString)
    (hd : db1.m_delimiter = db2.m_delimiter)
    (hp : db1.m_empty_value_placeholder = db2.m_empty_value_placeholder)
    (hcontent : fs1 (path_to_read db1 alt1) = fs2 (path_to_read db2 alt2)) :
    load_data_rows db1 fs1 data f l alt1 = load_data_rows db2 fs2 data f l alt2 := by
  unfold path_to_read at hcontent
  unfold load_data_rows
  simp only [hcontent, hd, hp]

theorem load_data_rows_returned_status (db : JsonCsvDatabase) (fs : FileSystem)
    (data : JsonValue) (f l : Int) (alt : CppString) (st : Int) (out : JsonValue)
    (h : load_data_rows db fs data f l alt = LoadOutcome.returned st out) :
    (fs (path_to_read db alt) = none ∧ st = EXIT_FAILURE ∧ out = data) ∨
    (fs (path_to_read db alt) ≠ none ∧ st = EXIT_SUCCESS) := by
  cases hfile : fs (path_to_read db alt) with
  | none =>
    rw [load_data_rows_missing db fs data f l alt hfile] at h
    injection h with h1 h2
    exact Or.inl ⟨rfl, h1.symm, h2.symm⟩
  | some content =>
    right
    refine ⟨by simp, ?_⟩
    unfold path_to_read at hfile
    unfold load_data_rows at h
    simp only [hfile] at h
    split at h
    · exact LoadOutcome.noConfusion h
    · injection h with h1 _
      exact h1.symm

/-- C15. `load_data_rows` reads the alternative path when it is not empty and the
configured path of the store otherwise: its outcome is the same on any two disks that
agree on that one path.  It returns `EXIT_FAILURE` exactly when that path names no
file, and then the output value it leaves is the one the caller passed. -/
theorem read_path_selection (db : JsonCsvDatabase) (fs : FileSystem) (data : JsonValue)
    (f l : Int) (alt : CppString) :
    (alt ≠ [] → ∀ fs2 : FileSystem, fs2 alt = fs alt →
      load_data_rows db fs2 data f l alt = load_data_rows db fs data f l alt) ∧
    (alt = [] → ∀ fs2 : FileSystem,
      fs2 db.m_database_csv_filepath = fs db.m_database_csv_filepath →
      load_data_rows db fs2 data f l alt = load_data_rows db fs data f l alt) ∧
    ((∃ out, load_data_rows db fs data f l alt = LoadOutcome.returned EXIT_FAILURE out) ↔
      fs (if alt ≠ [] then alt else db.m_database_csv_filepath) = none) ∧
    (∀ out, load_data_rows db fs data f l alt = LoadOutcome.returned EXIT_FAILURE out →
      out = data) ∧
    (fs (if alt ≠ [] then alt else db.m_database_csv_filepath) = none →
      load_data_rows db fs data f l alt = LoadOutcome.returned EXIT_FAILURE data) := by
  have hfail : (EXIT_SUCCESS : Int) ≠ EXIT_FAILURE := by decide
  refine ⟨?_, ?_, ?_, ?_, ?_⟩
  · intro halt fs2 h
    apply load_data_rows_congr db db fs2 fs data f l alt alt rfl rfl
    unfold path_to_read
    rw [if_pos halt]; exact h
  · intro halt fs2 h
    apply load_data_rows_congr db db fs2 fs data f l alt alt rfl rfl
    unfold path_to_read
    rw [if_neg (fun x => x halt)]; exact h
  · constructor
    · rintro ⟨out, h⟩
      rcases load_data_rows_returned_status db fs data f l alt _ out h with h1 | h1
      · exact h1.1
      · exact absurd h1.2.symm hfail
    · intro h
      exact ⟨data, load_data_rows_missing db fs data f l alt h⟩
  · intro out h
    rcases load_data_rows_returned_status db fs data f l alt _ out h with h1 | h1
    · exact h1.2.2
    · exact absurd h1.2.symm hfail
  · intro h
    exact load_data_rows_missing db fs data f l alt h

/-- C16. The outcome of `load_data_rows` (status and table, or the exception) is
determined by the content of the file it opens, the delimiter, the placeholder, the
bounds and the output value passed in: two stores with the same delimiter and
placeholder, whatever their blueprints and ordered column lists, get the same outcome
from files of the same content; in particular two calls on the same disk do.  The
method only reads: its embedding takes the disk and returns none. -/
theorem read_is_self_describing (db1 db2 : JsonCsvDatabase) (fs1 fs2 : FileSystem)
    (data : JsonValue) (f l : Int) (alt1 alt2 : CppString)
    (hd : db1.m_delimiter = db2.m_delimiter)
    (hp : db1.m_empty_value_placeholder = db2.m_empty_value_placeholder)
    (hcontent : fs1 (if alt1 ≠ [] then alt1 else db1.m_database_csv_filepath)
      = fs2 (if alt2 ≠ [] then alt2 else db2.m_database_csv_filepath)) :
    load_data_rows db1 fs1 data f l alt1 = load_data_rows db2 fs2 data f l alt2 :=
  load_data_rows_congr db1 db2 fs1 fs2 data f l alt1 alt2 hd hp hcontent

/-- C16, witness: a fresh store and one with stale containers read the same file. -/
theorem read_is_self_describing_witness :
    load_data_rows demo_db (disk_with three_rows) JsonValue.nullValue 2 3 []
      = load_data_rows stale_db (disk_with three_rows) JsonValue.nullValue 2 3 [] :=
  read_is_self_describing demo_db stale_db (disk_with three_rows) (disk_with three_rows)
    JsonValue.nullValue 2 3 [] [] (by decide) (by decide) (by decide)

/-! ## C17: the blueprint after a write -/

/-- C17, for a first line without repeated tokens. Let the file be missing, or present
with a first line whose tokens pass the numeric check and are pairwise distinct, and
let `r` be any row (a genuine `std::map`).  Then `add_data_row(r)` succeeds, and
afterwards the ordinals of the blueprint are a permutation of `[0, N)`, `N` the number
of its entries, so no two names share an ordinal; and the ordered column list has `N`
names, the `i`-th of which is exactly the name the blueprint gives the ordinal `i`. -/
theorem blueprint_ordinals_permutation (db : JsonCsvDatabase) (row : StdMap Int)
    (fs : FileSystem) (hz : ∀ t ∈ header_tokens db fs, atoi t = 0)
    (hnd : (header_tokens db fs).Nodup) (hwf : StdMap.WellFormed row) :
    (add_data_row db row fs).1 = EXIT_SUCCESS ∧
    List.Perm ((add_data_row db row fs).2.1.m_database_blueprint.map Prod.snd)
      (List.range (add_data_row db row fs).2.1.m_database_blueprint.length) ∧
    ((add_data_row db row fs).2.1.m_database_blueprint.map Prod.snd).Nodup ∧
    (add_data_row db row fs).2.1.m_ordered_database_column_names.length
      = (add_data_row db row fs).2.1.m_database_blueprint.length ∧
    (∀ i name, (add_data_row db row fs).2.1.m_ordered_database_column_names[i]? = some name ↔
      mapAt (add_data_row db row fs).2.1.m_database_blueprint name = some i) := by
  have k1 := wellFormed_nodup row hwf
  obtain ⟨n1, n2, _⟩ := newColumns_props row (header_tokens db fs) k1
  obtain ⟨a1, a2, a3, _⟩ := add_data_row_ok db row fs hz hnd k1
  have hnodup : (columns_after db row fs).Nodup :=
    List.Nodup.append hnd n1 (fun c hc hn => (n2 c hn).2 hc)
  have hlen : (add_data_row db row fs).2.1.m_database_blueprint.length
      = (columns_after db row fs).length := by
    rw [a3.length_eq, numbered_length]
  have hsnd : List.Perm ((add_data_row db row fs).2.1.m_database_blueprint.map Prod.snd)
      (List.range (add_data_row db row fs).2.1.m_database_blueprint.length) := by
    have := a3.map Prod.snd
    rw [numbered_snd, ← List.range_eq_range'] at this
    rw [hlen]
    exact this
  refine ⟨a1, hsnd, hsnd.nodup_iff.mpr (List.nodup_range _), by rw [a2, hlen], ?_⟩
  intro i name
  rw [a2]
  constructor
  · intro h
    have hp : List.Perm (add_data_row db row fs).2.1.m_database_blueprint
        (numbered 0 (columns_after db row fs ++ [])) := by
      rw [List.append_nil]; exact a3
    exact (mapAt_of_perm_numbered _ _ [] hp (by rw [List.append_nil]; exact hnodup)).1 i name h
  · intro h
    have hmem := a3.mem_iff.mp (mapAt_mem _ name i h)
    have := (numbered_getElem _ 0 i name hmem).2
    simpa using this

/-- C17, witness: the row `{b: 2}` written to the file with header `a` and one row. -/
theorem blueprint_ordinals_permutation_witness :
    (add_data_row demo_db row_b (disk_with one_row)).1 = EXIT_SUCCESS ∧
    List.Perm ((add_data_row demo_db row_b (disk_with one_row)).2.1.m_database_blueprint.map
        Prod.snd)
      (List.range (add_data_row demo_db row_b (disk_with one_row)).2.1.m_database_blueprint.length) ∧
    ((add_data_row demo_db row_b (disk_with one_row)).2.1.m_database_blueprint.map
      Prod.snd).Nodup ∧
    (add_data_row demo_db row_b (disk_with one_row)).2.1.m_ordered_database_column_names.length
      = (add_data_row demo_db row_b (disk_with one_row)).2.1.m_database_blueprint.length ∧
    (∀ i name,
      (add_data_row demo_db row_b (disk_with one_row)).2.1.m_ordered_database_column_names[i]?
        = some name ↔
      mapAt (add_data_row demo_db row_b (disk_with one_row)).2.1.m_database_blueprint name
        = some i) :=
  blueprint_ordinals_permutation demo_db row_b (disk_with one_row) (by decide) (by decide)
    (by decide)

/-- C17, counterexample. The first line `a;a` passes the numeric check. Writing
`{b: 2}` succeeds and leaves the blueprint `{a: 1, b: 1}`: two entries that share the
ordinal 1, and no entry with the ordinal 0. -/
theorem repeated_header_name_shares_ordinal :
    (∀ t ∈ header_tokens demo_db (disk_with twice_a), atoi t = 0) ∧
    StdMap.WellFormed row_b ∧
    (add_data_row demo_db row_b (disk_with twice_a)).1 = EXIT_SUCCESS ∧
    (add_data_row demo_db row_b (disk_with twice_a)).2.1.m_database_blueprint
      = [(['a'], 1), (['b'], 1)] ∧
    ¬ ((add_data_row demo_db row_b (disk_with twice_a)).2.1.m_database_blueprint.map
      Prod.snd).Nodup := by
  decide

/-! ## C18: a write starts from the file, not from the object -/

/-- C18. For every disk, every row and any two store objects with the same path and
delimiter, whatever their placeholders, blueprints and ordered column lists,
`add_data_row` returns the same status and leaves the same disk (not only the same
database file); the blueprint it leaves is the same too, and after a success so is
the ordered column list. -/
theorem write_ignores_object_state (db1 db2 : JsonCsvDatabase) (row : StdMap Int)
    (fs : FileSystem)
    (hpath : db1.m_database_csv_filepath = db2.m_database_csv_filepath)
    (hd : db1.m_delimiter = db2.m_delimiter) :
    (add_data_row db1 row fs).1 = (add_data_row db2 row fs).1 ∧
    (add_data_row db1 row fs).2.2 = (add_data_row db2 row fs).2.2 ∧
    (add_data_row db1 row fs).2.1.m_database_blueprint
      = (add_data_row db2 row fs).2.1.m_database_blueprint ∧
    ((add_data_row db1 row fs).1 = EXIT_SUCCESS →
      (add_data_row db1 row fs).2.1.m_ordered_database_column_names
        = (add_data_row db2 row fs).2.1.m_ordered_database_column_names) := by
  obtain ⟨a1, a2, a3, a4⟩ := add_data_row_bare db1 row fs
  obtain ⟨b1, b2, b3, b4⟩ := add_data_row_bare db2 row fs
  rw [hpath, hd] at a1 a2 a3 a4
  refine ⟨a1.trans b1.symm, a2.trans b2.symm, a3.trans b3.symm, ?_⟩
  intro h
  exact (a4 h).trans (b4 (b1 ▸ a1 ▸ h)).symm

/-- C18, witness: a fresh store and one with stale containers write `{b: 2}`. -/
theorem write_ignores_object_state_witness :
    (add_data_row demo_db row_b (disk_with one_row)).1
      = (add_data_row stale_db row_b (disk_with one_row)).1 ∧
    (add_data_row demo_db row_b (disk_with one_row)).2.2
      = (add_data_row stale_db row_b (disk_with one_row)).2.2 ∧
    (add_data_row demo_db row_b (disk_with one_row)).2.1.m_database_blueprint
      = (add_data_row stale_db row_b (disk_with one_row)).2.1.m_database_blueprint ∧
    ((add_data_row demo_db row_b (disk_with one_row)).1 = EXIT_SUCCESS →
      (add_data_row demo_db row_b (disk_with one_row)).2.1.m_ordered_database_column_names
        = (add_data_row stale_db row_b (disk_with one_row)).2.1.m_ordered_database_column_names) :=
  write_ignores_object_state demo_db stale_db row_b (disk_with one_row) (by decide) (by decide)

/-! ## C19: the row window of the code -/

/-- C19. On a file with a first line, for all bounds `f` and `l` whose successors do
not overflow, `load_data_rows` returns the table of exactly the data rows whose
0-based index `k` satisfies `f - 1 ≤ k` and (`l = 0` or `k ≤ l - 1`), in file order.
Consequently, on every disk and for every `last_row`, `first_row = 0` and
`first_row = 1` give the same outcome. -/
theorem load_actual_window (db : JsonCsvDatabase) (fs : FileSystem) (data : JsonValue)
    (f l : Int) (content header : CppString) (rows : List CppString)
    (hfile : fs db.m_database_csv_filepath = some content)
    (hlines : getlineAll '\n' content = header :: rows)
    (hf : INT_MIN ≤ f ∧ f < INT_MAX) (hl : INT_MIN ≤ l ∧ l < INT_MAX) :
    load_data_rows db fs data f l []
      = table_of_lines db.m_delimiter db.m_empty_value_placeholder header
          (rows_between (f - 1) (if l = 0 then none else some (l - 1)) 0 rows) ∧
    (∀ (fs2 : FileSystem) (data2 : JsonValue) (l2 : Int) (alt : CppString),
      load_data_rows db fs2 data2 0 l2 alt = load_data_rows db fs2 data2 1 l2 alt) := by
  constructor
  · have hf1 : isInt32 (f + 1) := by
      unfold isInt32 INT_MIN INT_MAX at *; omega
    have hl1 : isInt32 (l + 1) := by
      unfold isInt32 INT_MIN INT_MAX at *; omega
    rw [load_data_rows_window db fs data f l [] content header rows (by simpa using hfile)
      hlines, wrapInt32_of_isInt32 _ hf1, wrapInt32_of_isInt32 _ hl1]
    have e1 : f + 1 - 2 = f - 1 := by omega
    have e2 : l + 1 - 2 = l - 1 := by omega
    rw [e1, e2]
    by_cases h0 : l = 0
    · have : l + 1 = 1 := by omega
      rw [if_pos this, if_pos h0]
    · have : ¬ (l + 1 = 1) := by omega
      rw [if_neg this, if_neg h0]
  · intro fs2 data2 l2 alt
    cases hfile2 : fs2 (path_to_read db alt) with
    | none =>
      rw [load_data_rows_missing db fs2 data2 0 l2 alt hfile2,
        load_data_rows_missing db fs2 data2 1 l2 alt hfile2]
    | some content2 =>
      cases hlines2 : getlineAll '\n' content2 with
      | nil =>
        rw [load_data_rows_no_lines db fs2 data2 0 l2 alt content2 hfile2 hlines2,
          load_data_rows_no_lines db fs2 data2 1 l2 alt content2 hfile2 hlines2]
      | cons header2 rows2 =>
        rw [load_data_rows_scanned db fs2 data2 0 l2 alt content2 header2 rows2 hfile2 hlines2,
          load_data_rows_scanned db fs2 data2 1 l2 alt content2 header2 rows2 hfile2 hlines2]
        unfold scanned_rows
        have e0 : wrapInt32 (0 + 1) - 2 = -1 := by decide
        have e1 : wrapInt32 (1 + 1) - 2 = 0 := by decide
        rw [e0, e1, rows_between_lower (-1) 0 _ rows2 0 (by decide) (by decide)]

/-- C19, witness: `first_row = 2`, `last_row = 3` on the file with the rows 1, 2, 3. -/
theorem load_actual_window_witness :
    load_data_rows demo_db (disk_with three_rows) JsonValue.nullValue 2 3 []
      = table_of_lines demo_db.m_delimiter demo_db.m_empty_value_placeholder ['a']
          (rows_between (2 - 1) (if (3 : Int) = 0 then none else some (3 - 1)) 0
            [['1', ';'], ['2', ';'], ['3', ';']]) ∧
    (∀ (fs2 : FileSystem) (data2 : JsonValue) (l2 : Int) (alt : CppString),
      load_data_rows demo_db fs2 data2 0 l2 alt = load_data_rows demo_db fs2 data2 1 l2 alt) :=
  load_actual_window demo_db (disk_with three_rows) JsonValue.nullValue 2 3 three_rows ['a']
    [['1', ';'], ['2', ';'], ['3', ';']] (by decide) (by decide) (by decide) (by decide)

/-! ## C20: a write that brings no new column -/

end JsonCsv
